import Mathlib

/-!
# gocoin: the format-string interpreter of `main.go`

A shallow embedding of `parseTime`, `parsePad`, `parse`, `parseDay` and of the
formatting lines of `main` (lines 243-253), together with models of the Go
standard-library functions they call (`regexp`, `strings.ReplaceAll`,
`strconv.ParseFloat`, `fmt.Sprintf`, `time.Parse`, `time.Format`).

Go strings are modelled as lists of Unicode code points.  A Go run-time panic
(the index `[1]` on a nil slice) is modelled by `none`.
-/

namespace Gocoin

/-- Go strings, as lists of code points. -/
abbrev Str := List Char

/-- Sequencing of steps that may fail: the next step runs on the result of the
previous one, a failure (a panic, or a returned error) ends the chain. -/
def andThen {α β : Type} (o : Option α) (f : α → Option β) : Option β :=
  match o with
  | none => none
  | some a => f a

/-! ## `strings.ReplaceAll` -/

/-- Worker of `replaceAll` for a non-empty `old`: `skip` counts the characters of
the occurrence just replaced that are still to be passed over. -/
def replaceAllAux (old new : Str) : Nat → Str → Str
  | _, [] => []
  | skip + 1, _ :: cs => replaceAllAux old new skip cs
  | 0, c :: cs =>
    if old.isPrefixOf (c :: cs) then new ++ replaceAllAux old new (old.length - 1) cs
    else c :: replaceAllAux old new 0 cs

/-- Go `strings.ReplaceAll(s, old, new)`: every non-overlapping occurrence of `old`,
found left to right, is replaced by `new`; an empty `old` matches before every code
point and at the end. -/
def replaceAll (s old new : Str) : Str :=
  if old = [] then s.flatMap (fun c => new ++ [c]) ++ new else replaceAllAux old new 0 s

/-! ## `regexp`: the four patterns the program compiles -/

/-- One item of a compiled pattern: a single character of a class, an optional one
(`x?`), a greedy repetition (`x*`), or the end-of-text assertion (`$`). -/
inductive Node where
  | one (p : Char → Bool)
  | opt (p : Char → Bool)
  | star (p : Char → Bool)
  | eot

/-- Greedy `x*` followed by the continuation `k`: the longest run is tried first,
then shorter ones (the order of a backtracking search, which Go's leftmost-first
semantics follows). -/
def starLoop {α : Type} (p : Char → Bool) (k : Str → Option α) : Str → Option α
  | [] => k []
  | c :: cs =>
    if p c then
      match starLoop p k cs with
      | some r => some r
      | none => k (c :: cs)
    else k (c :: cs)

/-- Match a sequence of items at the start of the input, then run `k` on what is
left; the first success in backtracking order is returned. -/
def matchSeq {α : Type} : List Node → (Str → Option α) → Str → Option α
  | [], k, s => k s
  | Node.one p :: ns, k, s =>
    match s with
    | [] => none
    | c :: cs => if p c then matchSeq ns k cs else none
  | Node.opt p :: ns, k, s =>
    match s with
    | [] => matchSeq ns k []
    | c :: cs =>
      if p c then
        match matchSeq ns k cs with
        | some r => some r
        | none => matchSeq ns k (c :: cs)
      else matchSeq ns k (c :: cs)
  | Node.star p :: ns, k, s => starLoop p (matchSeq ns k) s
  | Node.eot :: ns, k, s =>
    match s with
    | [] => matchSeq ns k []
    | _ :: _ => none

/-- A compiled pattern with one capture group: the items before the group, the
items of the group, the items after it. -/
structure Regexp where
  pre : List Node
  grp : List Node
  post : List Node

/-- Match anchored at the start of `s`: the text of group 1 and the input left
after the whole match. -/
def Regexp.matchAt (re : Regexp) (s : Str) : Option (Str × Str) :=
  matchSeq re.pre
    (fun s1 => matchSeq re.grp
      (fun s2 => matchSeq re.post
        (fun s3 => some (s1.take (s1.length - s2.length), s3)) s2) s1) s

/-- Go `(*Regexp).FindStringSubmatch`: the leftmost match, as the pair (whole match,
group 1); `none` is Go's nil slice. -/
def Regexp.findStringSubmatch (re : Regexp) : Str → Option (Str × Str)
  | [] =>
    match re.matchAt [] with
    | some (cap, _) => some ([], cap)
    | none => none
  | c :: cs =>
    match re.matchAt (c :: cs) with
    | some (cap, rest) => some ((c :: cs).take ((c :: cs).length - rest.length), cap)
    | none => Regexp.findStringSubmatch re cs

/-- Worker of `replaceAllStringFunc`; `skip` counts the characters of the current
match still to be passed over.  Every pattern of this program consumes at least one
character, so Go's rules for empty matches are not modelled: a match of length zero
is passed over like a position without a match. -/
def Regexp.replaceAllAux (re : Regexp) (repl : Str → Option Str) : Nat → Str → Option Str
  | _, [] => some []
  | skip + 1, _ :: cs => Regexp.replaceAllAux re repl skip cs
  | 0, c :: cs =>
    match re.matchAt (c :: cs) with
    | some (_, rest) =>
      let n := (c :: cs).length - rest.length
      if n = 0 then (Regexp.replaceAllAux re repl 0 cs).map (fun t => c :: t)
      else
        match repl ((c :: cs).take n) with
        | none => none
        | some r => (Regexp.replaceAllAux re repl (n - 1) cs).map (fun t => r ++ t)
    | none => (Regexp.replaceAllAux re repl 0 cs).map (fun t => c :: t)

/-- Go `(*Regexp).ReplaceAllStringFunc(src, repl)`: each leftmost non-overlapping
match is replaced by `repl` of the matched text.  `repl` may panic (`none`). -/
def Regexp.replaceAllStringFunc (re : Regexp) (src : Str) (repl : Str → Option Str) :
    Option Str :=
  Regexp.replaceAllAux re repl 0 src

/-- The class `\s` of Go's regexp syntax: `[\t\n\f\r ]`. -/
def isSpace (c : Char) : Bool :=
  c == ' ' || c == '\t' || c == '\n' || c == Char.ofNat 12 || c == '\r'

/-- The class `\d`: `[0-9]`. -/
def isDigit (c : Char) : Bool := decide ('0' ≤ c) && decide (c ≤ '9')

/-- The class `.` without the `s` flag: any character but newline. -/
def notNewline (c : Char) : Bool := c != '\n'

/-- A literal character. -/
def lit (c : Char) : Node := Node.one (fun x => x == c)

/-- The pattern text of `pre` and `post` as compiled by `regexp.MustCompile`.  The
call sites pass only `%`, digits, letters, `:` and `$`; of these only `$` is an
operator (end of text), every other character stands for itself. -/
def compileLit (s : Str) : List Node :=
  s.map (fun c => if c = '$' then Node.eot else lit c)

/-- The pattern `pre + "(\s?-?\d*\.?\d+)" + post` of `parsePad` (line 128). -/
def floatRe (pre post : Str) : Regexp :=
  { pre := compileLit pre
    grp := [Node.opt isSpace, Node.opt (fun x => x == '-'), Node.star isDigit,
            Node.opt (fun x => x == '.'), Node.one isDigit, Node.star isDigit]
    post := compileLit post }

/-- The pattern `pre + "(-?\d+)" + post` of `parsePad` (line 135). -/
def padRe (pre post : Str) : Regexp :=
  { pre := compileLit pre
    grp := [Node.opt (fun x => x == '-'), Node.one isDigit, Node.star isDigit]
    post := compileLit post }

/-- The pattern `pre + "{(.*)}" + post` of `parseTime` (line 113); a `{` that opens
no repetition count is a literal brace. -/
def timeRe (pre post : Str) : Regexp :=
  { pre := compileLit pre ++ [lit '{']
    grp := [Node.star notNewline]
    post := lit '}' :: compileLit post }

/-- The pattern `\\(.)` of `main` (line 240): a backslash and one character. -/
def escapeRe : Regexp :=
  { pre := [lit '\\']
    grp := [Node.one notNewline]
    post := [] }

/-! ## float64 and `strconv.ParseFloat` -/

/-- A float64 value: NaN, an infinity, or the finite value `± mant * 2 ^ exp`
(`mant < 2 ^ 53`, `exp ≥ -1074`; zero is `mant = 0`, with its sign). -/
inductive F64 where
  | nan
  | inf (neg : Bool)
  | fin (neg : Bool) (mant : Nat) (exp : Int)
  deriving DecidableEq

/-- The float64 zero (`+0`). -/
def F64.zero : F64 := F64.fin false 0 (-1074)

/-- The Go comparison `f < 0` on float64: false for NaN and for both zeros. -/
def F64.ltZero : F64 → Bool
  | F64.nan => false
  | F64.inf neg => neg
  | F64.fin neg mant _ => neg && mant != 0

/-- Worker of `floorLog2`, with the fuel that makes the recursion structural. -/
def floorLog2Aux : Nat → Nat → Nat
  | 0, _ => 0
  | fuel + 1, n => if n < 2 then 0 else floorLog2Aux fuel (n / 2) + 1

/-- The integer `⌊log2 n⌋` for positive `n` (0 for `n = 0`). -/
def floorLog2 (n : Nat) : Nat := floorLog2Aux n n

/-- The integer `⌊log2 (n / d)⌋` for positive `n` and `d`. -/
def floorLog2Ratio (n d : Nat) : Int :=
  let k : Int := (floorLog2 n : Int) - (floorLog2 d : Int)
  let ge : Bool := if 0 ≤ k then decide (d * 2 ^ k.toNat ≤ n) else decide (d ≤ n * 2 ^ (-k).toNat)
  if ge then k else k - 1

/-- The float64 `± q * 2 ^ e` for a rounded mantissa `q ≤ 2 ^ 53`, with the
overflow flag: a mantissa of `2 ^ 53` is renormalised, an exponent above 971 is an
overflow to infinity. -/
def packF64 (neg : Bool) (q : Nat) (e : Int) : F64 × Bool :=
  if 971 < (if q = 2 ^ 53 then e + 1 else e) then (F64.inf neg, true)
  else (F64.fin neg (if q = 2 ^ 53 then 2 ^ 52 else q) (if q = 2 ^ 53 then e + 1 else e), false)

/-- The float64 nearest to `± n / d` (ties to even), with the overflow flag: what
IEEE 754 rounding of the exact value gives, subnormals included. -/
def roundF64 (neg : Bool) (n d : Nat) : F64 × Bool :=
  if n = 0 then (F64.fin neg 0 (-1074), false)
  else
    let e : Int := max (floorLog2Ratio n d - 52) (-1074)
    let num := if e < 0 then n * 2 ^ (-e).toNat else n
    let den := if e < 0 then d else d * 2 ^ e.toNat
    let q := num / den
    let r := num % den
    packF64 neg (if den < 2 * r || (2 * r == den && q % 2 == 1) then q + 1 else q) e

/-- ASCII lower-casing of `A`-`Z`, as in `commonPrefixLenIgnoreCase`. -/
def asciiLower (c : Char) : Char :=
  if 'A' ≤ c ∧ c ≤ 'Z' then Char.ofNat (c.toNat + 32) else c

/-- Go `commonPrefixLenIgnoreCase(s, p)`. -/
def commonPrefixLenIgnoreCase : Str → Str → Nat
  | c :: cs, p :: ps => if asciiLower c = p then commonPrefixLenIgnoreCase cs ps + 1 else 0
  | _, _ => 0

/-- The body of the `'i', 'I'` case of `special`, which the sign case falls
through to: the value and the number of characters read. -/
def specialInf (neg : Bool) (nsign : Nat) (s : Str) : Option (F64 × Nat) :=
  let n := commonPrefixLenIgnoreCase s "infinity".toList
  let n := if 3 < n ∧ n < 8 then 3 else n
  if n = 3 ∨ n = 8 then some (F64.inf neg, nsign + n) else none

/-- Go `strconv.special`: the spellings of the infinities and NaN. -/
def special (s : Str) : Option (F64 × Nat) :=
  match s with
  | [] => none
  | c :: cs =>
    if c = '+' then specialInf false 1 cs
    else if c = '-' then specialInf true 1 cs
    else if c = 'i' ∨ c = 'I' then specialInf false 0 s
    else if c = 'n' ∨ c = 'N' then
      if commonPrefixLenIgnoreCase s "nan".toList = 3 then some (F64.nan, 3) else none
    else none

/-- The value of a decimal digit character. -/
def digitVal (c : Char) : Nat := c.toNat - '0'.toNat

/-- The hexadecimal letters `a`-`f`, `A`-`F`. -/
def isHexLetter (c : Char) : Bool :=
  (decide ('a' ≤ c) && decide (c ≤ 'f')) || (decide ('A' ≤ c) && decide (c ≤ 'F'))

/-- The value of a hexadecimal letter. -/
def hexLetterVal (c : Char) : Nat := (asciiLower c).toNat - 'a'.toNat + 10

/-- The state of the mantissa loop of `readFloat`: all digits read as one integer
`m` in the base, the number `frac` of digits after the point, and the flags. -/
structure Mant where
  m : Nat
  frac : Nat
  sawdot : Bool
  sawdigits : Bool
  underscores : Bool

/-- The mantissa loop of `readFloat`: returns the state and the unread input. -/
def readMant (hex : Bool) : Str → Mant → Mant × Str
  | [], st => (st, [])
  | c :: cs, st =>
    if c = '_' then readMant hex cs { st with underscores := true }
    else if c = '.' then
      if st.sawdot then (st, c :: cs) else readMant hex cs { st with sawdot := true }
    else if isDigit c then
      readMant hex cs { st with sawdigits := true
                                m := st.m * (if hex then 16 else 10) + digitVal c
                                frac := if st.sawdot then st.frac + 1 else st.frac }
    else if hex && isHexLetter c then
      readMant hex cs { st with sawdigits := true
                                m := st.m * 16 + hexLetterVal c
                                frac := if st.sawdot then st.frac + 1 else st.frac }
    else (st, c :: cs)

/-- The digits of the exponent in `readFloat`: underscores are skipped and the value
stops growing once it has reached 10000. -/
def readExpDigits : Str → Nat → Bool → Nat × Bool × Str
  | [], e, us => (e, us, [])
  | c :: cs, e, us =>
    if c = '_' then readExpDigits cs e true
    else if isDigit c then readExpDigits cs (if e < 10000 then e * 10 + digitVal c else e) us
    else (e, us, c :: cs)

/-- The exponent part of `readFloat` after the exponent letter: the signed exponent,
whether an underscore was seen, and the unread input; `none` when no digit follows. -/
def readExp (s : Str) : Option (Int × Bool × Str) :=
  let body (neg : Bool) (t : Str) : Option (Int × Bool × Str) :=
    match t with
    | [] => none
    | c :: _ =>
      if isDigit c then
        let r := readExpDigits t 0 false
        some (if neg then -(r.1 : Int) else (r.1 : Int), r.2.1, r.2.2)
      else none
  match s with
  | [] => none
  | c :: cs => if c = '+' then body false cs else if c = '-' then body true cs else body false s

/-- The scan of Go `strconv.underscoreOK` after sign and base prefix; `saw` is
`'0'` after a digit, `'_'` after an underscore, `'!'` after anything else. -/
def underscoreScan (hex : Bool) : Str → Char → Bool
  | [], saw => saw != '_'
  | c :: cs, saw =>
    if isDigit c || (hex && isHexLetter c) then underscoreScan hex cs '0'
    else if c = '_' then (if saw != '0' then false else underscoreScan hex cs '_')
    else if saw = '_' then false
    else underscoreScan hex cs '!'

/-- Go `strconv.underscoreOK`: underscores only between digits (or after a base
prefix). -/
def underscoreOK (s : Str) : Bool :=
  let s1 := match s with
    | c :: cs => if c = '-' ∨ c = '+' then cs else s
    | [] => s
  match s1 with
  | c :: x :: rest =>
    if c = '0' ∧ (asciiLower x = 'b' ∨ asciiLower x = 'o' ∨ asciiLower x = 'x') then
      underscoreScan (asciiLower x = 'x') rest '0'
    else underscoreScan false s1 '^'
  | _ => underscoreScan false s1 '^'

/-- The float64 of a mantissa and exponent read by `readFloat`: the value
`± m * 10 ^ (e - frac)`, or `± m * 2 ^ (e - 4 * frac)` for a hexadecimal mantissa,
correctly rounded. -/
def floatOfParts (neg hex : Bool) (st : Mant) (e : Int) : F64 × Bool :=
  let x : Int := if hex then e - 4 * (st.frac : Int) else e - (st.frac : Int)
  let b : Nat := if hex then 2 else 10
  if 0 ≤ x then roundF64 neg (st.m * b ^ x.toNat) 1
  else roundF64 neg st.m (b ^ (-x).toNat)

/-- The optional exponent of `readFloat` on the input left after the mantissa: the
exponent, whether it holds an underscore, and the unread input.  A hexadecimal
mantissa must have one. -/
def readExpPart (hex : Bool) (s : Str) : Option (Int × Bool × Str) :=
  match s with
  | c :: cs =>
    if asciiLower c = (if hex then 'p' else 'e') then readExp cs
    else if hex then none else some (0, false, c :: cs)
  | [] => if hex then none else some (0, false, [])

/-- Whether the text after the sign starts a hexadecimal mantissa: `0x` or `0X` and
at least one more character. -/
def hasHexMark (s : Str) : Bool :=
  match s with
  | c :: x :: _ :: _ => c == '0' && asciiLower x == 'x'
  | _ => false

/-- Go `readFloat` and the conversion that follows it in `atof64`, on a text that
is not one of the special spellings: `s` is the whole text, `neg` its sign and `s1`
the text after the sign. -/
def atofNumber (s : Str) (neg : Bool) (s1 : Str) : F64 × Bool :=
  let hex := hasHexMark s1
  let r := readMant hex (if hex then s1.drop 2 else s1)
    { m := 0, frac := 0, sawdot := false, sawdigits := false, underscores := false }
  if r.1.sawdigits then
    match readExpPart hex r.2 with
    | none => (F64.zero, true)
    | some (e, us, rest) =>
      if (r.1.underscores || us) && !underscoreOK s then (F64.zero, true)
      else if rest = [] then floatOfParts neg hex r.1 e
      else (F64.zero, true)
  else (F64.zero, true)

/-- Go `strconv.ParseFloat(s, 64)`: the value and whether an error is returned.  A
syntax error comes with the value 0, a range error with an infinity.  The accepted
syntax is that of `special` and `readFloat` (sign, decimal or `0x` hexadecimal
mantissa, exponent, digit-separating underscores), and the whole text must be
read; the value is the correctly rounded float64. -/
def parseFloat (s : Str) : F64 × Bool :=
  match special s with
  | some (f, n) => if n = s.length then (f, false) else (F64.zero, true)
  | none =>
    match s with
    | [] => (F64.zero, true)
    | c :: cs =>
      if c = '+' then atofNumber s false cs
      else if c = '-' then atofNumber s true cs
      else atofNumber s false s

/-! ## `strconv.FormatFloat` and `fmt.Sprintf` -/

/-- The decimal digits of a natural number, most significant first. -/
def natDigits (n : Nat) : Str := Nat.toDigits 10 n

/-- Go `FormatFloat(v, 'f', prec, 64)` for the finite magnitude `mant * 2 ^ exp`,
without sign: the exact value rounded to `prec` decimals, ties to even. -/
def formatFixed (mant : Nat) (exp : Int) (prec : Nat) : Str :=
  let num := if exp < 0 then mant * 10 ^ prec else mant * 2 ^ exp.toNat * 10 ^ prec
  let den := if exp < 0 then 2 ^ (-exp).toNat else 1
  let q := num / den
  let r := num % den
  let n := if den < 2 * r || (2 * r == den && q % 2 == 1) then q + 1 else q
  let ds := natDigits n
  let ds := List.replicate (prec + 1 - ds.length) '0' ++ ds
  if prec = 0 then ds else ds.take (ds.length - prec) ++ '.' :: ds.drop (ds.length - prec)

/-- Drop trailing zeros of a digit string (`trim` of Go's `decimal`); the decimal
point of an empty result is 0. -/
def trimZeros (d : Str) (dp : Int) : Str × Int :=
  let t := (d.reverse.dropWhile (fun c => c == '0')).reverse
  if t = [] then ([], 0) else (t, dp)

/-- The exact decimal digits of `mant * 2 ^ exp` and the position of the decimal
point: the value is `0.d₁d₂… * 10 ^ dp` (`Assign` and `Shift` of Go's `decimal`). -/
def decimalOf (mant : Nat) (exp : Int) : Str × Int :=
  if mant = 0 then ([], 0)
  else
    let n := if exp < 0 then mant * 5 ^ (-exp).toNat else mant * 2 ^ exp.toNat
    let k : Int := if exp < 0 then -exp else 0
    let ds := natDigits n
    trimZeros ds ((ds.length : Int) - k)

/-- Go `(*decimal).RoundDown(nd)`. -/
def decRoundDown (d : Str) (dp : Int) (nd : Int) : Str × Int :=
  if nd < 0 ∨ (d.length : Int) ≤ nd then (d, dp) else trimZeros (d.take nd.toNat) dp

/-- Go `(*decimal).RoundUp(nd)`. -/
def decRoundUp (d : Str) (dp : Int) (nd : Int) : Str × Int :=
  if nd < 0 ∨ (d.length : Int) ≤ nd then (d, dp)
  else
    match (d.take nd.toNat).reverse.dropWhile (fun c => c == '9') with
    | [] => (['1'], dp + 1)
    | c :: cs => ((Char.ofNat (c.toNat + 1) :: cs).reverse, dp)

/-- Go `shouldRoundUp(d, nd)` for an exact decimal. -/
def decShouldRoundUp (d : Str) (nd : Int) : Bool :=
  if nd < 0 ∨ (d.length : Int) ≤ nd then false
  else if d.getD nd.toNat '0' = '5' ∧ nd + 1 = d.length then
    decide (0 < nd) && (digitVal (d.getD (nd.toNat - 1) '0') % 2 != 0)
  else decide ('5' ≤ d.getD nd.toNat '0')

/-- Go `(*decimal).Round(nd)`. -/
def decRound (d : Str) (dp : Int) (nd : Int) : Str × Int :=
  if nd < 0 ∨ (d.length : Int) ≤ nd then (d, dp)
  else if decShouldRoundUp d nd then decRoundUp d dp nd else decRoundDown d dp nd

/-- The digit loop of Go `roundShortest`: walk along the digits of `d` until it has
distinguished itself from the bounds `lower` and `upper`, then round there. -/
def shortestLoop (d lower upper : Str) (ddp ldp udp : Int) (inclusive : Bool) :
    Nat → Nat → Nat → Str × Int
  | 0, _, _ => (d, ddp)
  | fuel + 1, ui, upperdelta =>
    let mi : Int := (ui : Int) - udp + ddp
    if (d.length : Int) ≤ mi then (d, ddp)
    else
      let li : Int := (ui : Int) - udp + ldp
      let l : Char := if 0 ≤ li ∧ li < lower.length then lower.getD li.toNat '0' else '0'
      let m : Char := if 0 ≤ mi then d.getD mi.toNat '0' else '0'
      let u : Char := upper.getD ui '0'
      let okdown : Bool := l != m || (inclusive && li + 1 == lower.length)
      let upperdelta : Nat :=
        if upperdelta = 0 ∧ m.toNat + 1 < u.toNat then 2
        else if upperdelta = 0 ∧ m ≠ u then 1
        else if upperdelta = 1 ∧ (m ≠ '9' ∨ u ≠ '0') then 2
        else upperdelta
      let okup : Bool :=
        decide (0 < upperdelta) &&
          (inclusive || decide (1 < upperdelta) || decide (ui + 1 < upper.length))
      if okdown && okup then decRound d ddp (mi + 1)
      else if okdown then decRoundDown d ddp (mi + 1)
      else if okup then decRoundUp d ddp (mi + 1)
      else shortestLoop d lower upper ddp ldp udp inclusive fuel (ui + 1) upperdelta

/-- Go `roundShortest`: the shortest decimal digits that read back as the float64
`mant * 2 ^ exp` (`mant ≠ 0`), with the decimal point. -/
def roundShortest (mant : Nat) (exp : Int) : Str × Int :=
  let d := decimalOf mant exp
  let upper := decimalOf (mant * 2 + 1) (exp - 1)
  let lower :=
    if 2 ^ 52 < mant ∨ exp = -1074 then decimalOf ((mant - 1) * 2 + 1) (exp - 1)
    else decimalOf ((mant * 2 - 1) * 2 + 1) (exp - 2)
  shortestLoop d.1 lower.1 upper.1 d.2 lower.2 upper.2 (mant % 2 == 0)
    (d.1.length + upper.1.length + 2) 0 0

/-- Go `fmtF` of `strconv`: the digits `d` with decimal point `dp`, printed with
`prec` decimals. -/
def fmtF (d : Str) (dp : Int) (prec : Nat) : Str :=
  let ip : Str :=
    if 0 < dp then (List.range dp.toNat).map (fun i => d.getD i '0') else ['0']
  let fp : Str :=
    (List.range prec).map
      (fun i => let j : Int := dp + (i : Int); if 0 ≤ j then d.getD j.toNat '0' else '0')
  if prec = 0 then ip else ip ++ '.' :: fp

/-- Go `fmtE` of `strconv`: `d.ddde±xx` with `prec` digits after the point. -/
def fmtE (d : Str) (dp : Int) (prec : Nat) : Str :=
  let first : Char := d.getD 0 '0'
  let frac : Str := (List.range prec).map (fun i => d.getD (i + 1) '0')
  let x : Int := if d = [] then 0 else dp - 1
  let xs := natDigits x.natAbs
  let xs := if xs.length < 2 then '0' :: xs else xs
  (first :: (if prec = 0 then [] else '.' :: frac)) ++ 'e' :: (if x < 0 then '-' else '+') :: xs

/-- Go `FormatFloat(v, 'g', -1, 64)` for the finite magnitude `mant * 2 ^ exp`,
without sign: shortest digits, in `%e` form when the exponent is below -4 or at
least 6. -/
def formatShortest (mant : Nat) (exp : Int) : Str :=
  let ds := if mant = 0 then (([] : Str), (0 : Int)) else roundShortest mant exp
  let x : Int := ds.2 - 1
  if x < -4 ∨ 6 ≤ x then fmtE ds.1 ds.2 (ds.1.length - 1)
  else fmtF ds.1 ds.2 ((ds.1.length : Int) - ds.2).toNat

/-- The flags, width and precision of one formatting verb (`fmt.fmt`). -/
structure FmtFlags where
  minus : Bool
  zero : Bool
  space : Bool
  wid : Option Nat
  prec : Option Nat

/-- No flag set (`clearflags`). -/
def FmtFlags.clear : FmtFlags :=
  { minus := false, zero := false, space := false, wid := none, prec := none }

/-- Go `(*fmt).pad` and `padString`: pad to the width, counted in code points; on
the left with spaces or, under the zero flag, zeros; on the right with spaces. -/
def pad (fl : FmtFlags) (b : Str) : Str :=
  match fl.wid with
  | none => b
  | some w =>
    if w = 0 then b
    else if fl.minus then b ++ List.replicate (w - b.length) ' '
    else List.replicate (w - b.length) (if fl.zero then '0' else ' ') ++ b

/-- The space flag of `(*fmt).fmtFloat`: a leading `+` becomes a space. -/
def signText (fl : FmtFlags) (num : Str) : Str :=
  match num with
  | c :: cs => if fl.space && c == '+' then ' ' :: cs else c :: cs
  | [] => []

/-- The end of `(*fmt).fmtFloat` for a finite number whose text starts with its
sign: a `+` is dropped; under the zero flag the padding zeros go between sign and
digits. -/
def fmtSigned (fl : FmtFlags) (num : Str) : Str :=
  match num with
  | [] => []
  | c :: cs =>
    if c = '+' then pad fl cs
    else
      match fl.wid with
      | some w =>
        if fl.zero ∧ (c :: cs).length < w then
          c :: (List.replicate (w - (c :: cs).length) '0' ++ cs)
        else pad fl (c :: cs)
      | none => pad fl (c :: cs)

/-- Go `(*fmt).fmtFloat` on the text `num` of the number, which starts with its
sign (`+` or `-`); `isSpecial` marks the texts of the infinities and NaN, which are
never padded with zeros. -/
def fmtFloatText (fl : FmtFlags) (num : Str) (isSpecial isNaN : Bool) : Str :=
  if isSpecial then
    pad { fl with zero := false }
      (if isNaN && !fl.space then (signText fl num).drop 1 else signText fl num)
  else fmtSigned fl (signText fl num)

/-- The text of a float64 with its sign, as `strconv.AppendFloat` gives it for the
verb `f` with precision `prec`, or for the shortest `g` form when `prec` is `none`. -/
def floatText (v : F64) (prec : Option Nat) : Str :=
  match v with
  | F64.nan => "+NaN".toList
  | F64.inf neg => if neg then "-Inf".toList else "+Inf".toList
  | F64.fin neg mant exp =>
    (if neg then '-' else '+') ::
      (match prec with
       | some p => formatFixed mant exp p
       | none => formatShortest mant exp)

/-- Whether a float64 is an infinity or NaN. -/
def F64.isSpecial : F64 → Bool
  | F64.fin _ _ _ => false
  | _ => true

/-- The operand of a `Sprintf` call of the program. -/
inductive Arg where
  | float (f : F64)
  | string (s : Str)

/-- The operand printed under `%v` without flags: the shortest `%g` form of a
float64, a string as it is. -/
def Arg.printV : Arg → Str
  | Arg.float f => fmtFloatText FmtFlags.clear (floatText f none) f.isSpecial (f == F64.nan)
  | Arg.string s => s

/-- The Go type name of the operand, as `reflect.TypeOf(arg).String()` gives it. -/
def Arg.typeName : Arg → Str
  | Arg.float _ => "float64".toList
  | Arg.string _ => "string".toList

/-- Go `parsenum`: a run of digits as a number; `none` once the number read so far
exceeds 10^6 when a further digit comes (Go then moves to the end of the format). -/
def parsenum : Str → Nat → Bool → Option (Nat × Bool × Str)
  | [], num, isnum => some (num, isnum, [])
  | c :: cs, num, isnum =>
    if isDigit c then
      if 1000000 < num then none else parsenum cs (num * 10 + digitVal c) true
    else some (num, isnum, c :: cs)

/-- The flag loop of `doPrintf`, for the flags that a captured modifier can hold:
space, `-` and `0` (`0` only pads on the left). -/
def scanFlags : Str → FmtFlags → FmtFlags × Str
  | [], fl => (fl, [])
  | c :: cs, fl =>
    if c = '0' then scanFlags cs { fl with zero := !fl.minus }
    else if c = '-' then scanFlags cs { fl with minus := true, zero := false }
    else if c = ' ' then scanFlags cs { fl with space := true }
    else (fl, c :: cs)

/-- The text `%!(NOVERB)%!(EXTRA type=value)` that `Sprintf` gives for a format that
ends before its verb. -/
def noVerb (arg : Arg) : Str :=
  "%!(NOVERB)%!(EXTRA ".toList ++ arg.typeName ++ '=' :: arg.printV ++ [')']

/-- Go `printArg` for the verb read: `f` on a float64 and `s` on a string are
formatted; any other verb is Go's bad-verb text `%!c(type=value)`.  A modifier
captured by the patterns reaches a bad verb only with its first character (a
white-space character other than the space), before any flag was read. -/
def printArg (fl : FmtFlags) (verb : Char) (arg : Arg) : Str :=
  match arg with
  | Arg.float f =>
    if verb = 'f' then
      fmtFloatText fl (floatText f (some (fl.prec.getD 6))) f.isSpecial (f == F64.nan)
    else "%!".toList ++ verb :: '(' :: arg.typeName ++ '=' :: arg.printV ++ [')']
  | Arg.string s =>
    if verb = 's' then
      pad fl (match fl.prec with
              | some p => s.take p
              | none => s)
    else "%!".toList ++ verb :: '(' :: arg.typeName ++ '=' :: arg.printV ++ [')']

/-- The end of `doPrintf` for one verb: the format ends before the verb (`%!(NOVERB)`)
or the verb is printed and the text after it copied. -/
def printVerb (fl : FmtFlags) (rest : Str) (arg : Arg) : Str :=
  match rest with
  | [] => noVerb arg
  | verb :: tail => printArg fl verb arg ++ tail

/-- Go `fmt.Sprintf("%" + spec, arg)` for a `spec` that holds no `%`: flags, width,
precision and verb are read as `doPrintf` does, the text after the verb is copied.
A width or precision that `parsenum` gives up on moves to the end of the format. -/
def sprintf (spec : Str) (arg : Arg) : Str :=
  let r := scanFlags spec FmtFlags.clear
  match parsenum r.2 0 false with
  | none => noVerb arg
  | some (w, isnum, rest) =>
    let fl : FmtFlags := { r.1 with wid := if isnum then some w else none }
    if rest.head? = some '.' then
      match parsenum rest.tail 0 false with
      | none => noVerb arg
      | some (p, _, rest1) => printVerb { fl with prec := some p } rest1 arg
    else printVerb fl rest arg

/-! ## `time.Parse` and `time.Format` -/

/-- An instant in UTC, by its calendar fields (`time.Time` as `time.Parse` returns
it for a layout without zone). -/
structure Time where
  year : Nat
  month : Nat
  day : Nat
  hour : Nat
  min : Nat
  sec : Nat
  nsec : Nat
  deriving DecidableEq

/-- Leap years of the Gregorian calendar. -/
def isLeap (y : Nat) : Bool := y % 4 == 0 && (y % 100 != 0 || y % 400 == 0)

/-- Go `daysIn(month, year)`. -/
def daysIn (m y : Nat) : Nat :=
  if m = 2 then (if isLeap y then 29 else 28)
  else if m = 4 ∨ m = 6 ∨ m = 9 ∨ m = 11 then 30 else 31

/-- Go `getnum(s, fixed)` of package `time`: one or two digits, exactly two when
`fixed`. -/
def getnum (s : Str) (fixed : Bool) : Option (Nat × Str) :=
  match s with
  | [] => none
  | [c] => if isDigit c && !fixed then some (digitVal c, []) else none
  | c :: d :: rest =>
    if isDigit c then
      if isDigit d then some (digitVal c * 10 + digitVal d, rest)
      else if fixed then none else some (digitVal c, d :: rest)
    else none

/-- A literal character of the layout (`skip`). -/
def skipChar (c : Char) (s : Str) : Option Str :=
  match s with
  | x :: xs => if x = c then some xs else none
  | [] => none

/-- The optional fractional second that `time.Parse` accepts after the seconds
although the layout has none: `.` or `,` and digits, of which nine count. -/
def parseFraction (s : Str) : Nat × Str :=
  match s with
  | c :: d :: rest =>
    if (c = '.' ∨ c = ',') ∧ isDigit d then
      let ds := (d :: rest).takeWhile isDigit
      let used := ds.take 9
      (used.foldl (fun a x => a * 10 + digitVal x) 0 * 10 ^ (9 - used.length),
        (d :: rest).dropWhile isDigit)
    else (0, s)
  | _ => (0, s)

/-- Go `time.Parse("2006-01-02T15:04:05Z", value)`; `none` is a returned error.
Four digits of year, two of month and of day, one or two of hour, two of minute and
of second, an optional fractional second, the letter `Z`, and nothing more; month,
day, hour, minute and second are range-checked. -/
def timeParse (value : Str) : Option Time :=
  match value with
  | y1 :: y2 :: y3 :: y4 :: v =>
    if isDigit y1 && isDigit y2 && isDigit y3 && isDigit y4 then
      let year := ((digitVal y1 * 10 + digitVal y2) * 10 + digitVal y3) * 10 + digitVal y4
      andThen (skipChar '-' v) fun v =>
      andThen (getnum v true) fun (month, v) =>
      andThen (skipChar '-' v) fun v =>
      andThen (getnum v true) fun (day, v) =>
      andThen (skipChar 'T' v) fun v =>
      andThen (getnum v false) fun (hour, v) =>
      andThen (skipChar ':' v) fun v =>
      andThen (getnum v true) fun (min, v) =>
      andThen (skipChar ':' v) fun v =>
      andThen (getnum v true) fun (sec, v) =>
      let fr := parseFraction v
      andThen (skipChar 'Z' fr.2) fun v =>
      if v = [] ∧ 1 ≤ month ∧ month ≤ 12 ∧ hour < 24 ∧ min < 60 ∧ sec < 60 ∧
          1 ≤ day ∧ day ≤ daysIn month year then
        some { year := year, month := month, day := day, hour := hour, min := min,
               sec := sec, nsec := fr.1 }
      else none
    else none
  | _ => none

/-- Go `appendInt(x, width)`: decimal, zero-padded to `width`. -/
def appendInt (x width : Nat) : Str :=
  let ds := natDigits x
  List.replicate (width - ds.length) '0' ++ ds

/-- The English month names. -/
def monthName (m : Nat) : Str :=
  (["January", "February", "March", "April", "May", "June", "July", "August",
    "September", "October", "November", "December"].getD (m - 1) "").toList

/-- The English weekday names, Sunday first. -/
def dayName (d : Nat) : Str :=
  (["Sunday", "Monday", "Tuesday", "Wednesday", "Thursday", "Friday",
    "Saturday"].getD d "").toList

/-- The day of the year, 1-based (`YearDay`). -/
def Time.yearDay (t : Time) : Nat :=
  ((List.range (t.month - 1)).map (fun i => daysIn (i + 1) t.year)).sum + t.day

/-- The day of the week, Sunday = 0 (`Weekday`), from the count of days since
1 January of year 0, a Saturday. -/
def Time.weekday (t : Time) : Nat :=
  let y := t.year
  let before := if y = 0 then 0 else 365 * y + (y - 1) / 4 - (y - 1) / 100 + (y - 1) / 400 + 1
  (before + t.yearDay - 1 + 6) % 7

/-- The elements of a layout that `nextStdChunk` recognises. -/
inductive Std where
  | longMonth | month | numMonth | zeroMonth
  | longWeekDay | weekDay
  | day | underDay | zeroDay | underYearDay | zeroYearDay
  | hour | hour12 | zeroHour12
  | minute | zeroMinute | second | zeroSecond
  | longYear | year | pm (upper : Bool)
  | tz | isoTZ | numTZ (colon : Bool) (minutes : Bool) (seconds : Bool)
  | frac (sep : Char) (n : Nat) (trim : Bool)

/-- Go `startsWithLowerCase`. -/
def startsWithLowerCase (s : Str) : Bool :=
  match s with
  | c :: _ => decide ('a' ≤ c) && decide (c ≤ 'z')
  | [] => false

/-- The rest of `s` after the text `p`, when `s` starts with it. -/
def dropLit (p : String) (s : Str) : Option Str :=
  if p.toList.isPrefixOf s then some (s.drop p.length) else none

/-- The element that starts at the head of the layout, if any, and the layout after
it (the body of the loop of Go `nextStdChunk`, at one position).  The `_2006` case,
a literal `_` followed by the long year, is left to the next position. -/
def stdAt (s : Str) : Option (Std × Str) :=
  match s with
  | [] => none
  | c :: cs =>
    if c = 'J' then
      match dropLit "January" s with
      | some r => some (Std.longMonth, r)
      | none =>
        match dropLit "Jan" s with
        | some r => if startsWithLowerCase r then none else some (Std.month, r)
        | none => none
    else if c = 'M' then
      match dropLit "Monday" s with
      | some r => some (Std.longWeekDay, r)
      | none =>
        match dropLit "Mon" s with
        | some r => if startsWithLowerCase r then none else some (Std.weekDay, r)
        | none =>
          match dropLit "MST" s with
          | some r => some (Std.tz, r)
          | none => none
    else if c = '0' then
      match cs with
      | '1' :: r => some (Std.zeroMonth, r)
      | '2' :: r => some (Std.zeroDay, r)
      | '3' :: r => some (Std.zeroHour12, r)
      | '4' :: r => some (Std.zeroMinute, r)
      | '5' :: r => some (Std.zeroSecond, r)
      | '6' :: r => some (Std.year, r)
      | '0' :: '2' :: r => some (Std.zeroYearDay, r)
      | _ => none
    else if c = '1' then
      match cs with
      | '5' :: r => some (Std.hour, r)
      | _ => some (Std.numMonth, cs)
    else if c = '2' then
      match dropLit "2006" s with
      | some r => some (Std.longYear, r)
      | none => some (Std.day, cs)
    else if c = '_' then
      match cs with
      | '2' :: r => if (dropLit "2006" cs).isSome then none else some (Std.underDay, r)
      | '_' :: '2' :: r => some (Std.underYearDay, r)
      | _ => none
    else if c = '3' then some (Std.hour12, cs)
    else if c = '4' then some (Std.minute, cs)
    else if c = '5' then some (Std.second, cs)
    else if c = 'P' then
      match cs with
      | 'M' :: r => some (Std.pm true, r)
      | _ => none
    else if c = 'p' then
      match cs with
      | 'm' :: r => some (Std.pm false, r)
      | _ => none
    else if c = '-' then
      match dropLit "-070000" s with
      | some r => some (Std.numTZ false true true, r)
      | none =>
      match dropLit "-07:00:00" s with
      | some r => some (Std.numTZ true true true, r)
      | none =>
      match dropLit "-0700" s with
      | some r => some (Std.numTZ false true false, r)
      | none =>
      match dropLit "-07:00" s with
      | some r => some (Std.numTZ true true false, r)
      | none =>
      match dropLit "-07" s with
      | some r => some (Std.numTZ false false false, r)
      | none => none
    else if c = 'Z' then
      match dropLit "Z070000" s with
      | some r => some (Std.isoTZ, r)
      | none =>
      match dropLit "Z07:00:00" s with
      | some r => some (Std.isoTZ, r)
      | none =>
      match dropLit "Z0700" s with
      | some r => some (Std.isoTZ, r)
      | none =>
      match dropLit "Z07:00" s with
      | some r => some (Std.isoTZ, r)
      | none =>
      match dropLit "Z07" s with
      | some r => some (Std.isoTZ, r)
      | none => none
    else if c = '.' ∨ c = ',' then
      match cs with
      | ch :: _ =>
        if ch = '0' ∨ ch = '9' then
          let r := cs.dropWhile (fun x => x == ch)
          let n := cs.length - r.length
          match r with
          | x :: _ => if isDigit x then none else some (Std.frac c n (ch == '9'), r)
          | [] => some (Std.frac c n (ch == '9'), r)
        else none
      | [] => none
    else none

/-- The text of one layout element for the instant `t`, which is in UTC (zone name
`UTC`, offset 0). -/
def Std.render (t : Time) : Std → Str
  | Std.longMonth => monthName t.month
  | Std.month => (monthName t.month).take 3
  | Std.numMonth => appendInt t.month 0
  | Std.zeroMonth => appendInt t.month 2
  | Std.longWeekDay => dayName t.weekday
  | Std.weekDay => (dayName t.weekday).take 3
  | Std.day => appendInt t.day 0
  | Std.underDay => (if t.day < 10 then [' '] else []) ++ appendInt t.day 0
  | Std.zeroDay => appendInt t.day 2
  | Std.underYearDay =>
    (if t.yearDay < 10 then [' ', ' '] else if t.yearDay < 100 then [' '] else []) ++
      appendInt t.yearDay 0
  | Std.zeroYearDay => appendInt t.yearDay 3
  | Std.hour => appendInt t.hour 2
  | Std.hour12 => appendInt (if t.hour % 12 = 0 then 12 else t.hour % 12) 0
  | Std.zeroHour12 => appendInt (if t.hour % 12 = 0 then 12 else t.hour % 12) 2
  | Std.minute => appendInt t.min 0
  | Std.zeroMinute => appendInt t.min 2
  | Std.second => appendInt t.sec 0
  | Std.zeroSecond => appendInt t.sec 2
  | Std.longYear => appendInt t.year 4
  | Std.year => appendInt (t.year % 100) 2
  | Std.pm upper =>
    if upper then (if 12 ≤ t.hour then "PM".toList else "AM".toList)
    else (if 12 ≤ t.hour then "pm".toList else "am".toList)
  | Std.tz => "UTC".toList
  | Std.isoTZ => ['Z']
  | Std.numTZ colon minutes seconds =>
    "+00".toList ++ (if minutes then (if colon then ":00".toList else "00".toList) else []) ++
      (if seconds then (if colon then ":00".toList else "00".toList) else [])
  | Std.frac sep n trim =>
    let ds := (appendInt t.nsec 9).take (min n 9)
    let ds := if trim then (ds.reverse.dropWhile (fun c => c == '0')).reverse else ds
    if trim ∧ ds = [] then [] else sep :: ds

/-- Worker of `timeFormat`; `skip` counts the characters of the element just
rendered that are still to be passed over. -/
def timeFormatAux (t : Time) : Nat → Str → Str
  | _, [] => []
  | skip + 1, _ :: cs => timeFormatAux t skip cs
  | 0, c :: cs =>
    match stdAt (c :: cs) with
    | some (std, rest) => std.render t ++ timeFormatAux t ((c :: cs).length - rest.length - 1) cs
    | none => c :: timeFormatAux t 0 cs

/-- Go `Time.Format(layout)` for an instant in UTC: the elements of the layout are
replaced by their text, every other character is copied. -/
def timeFormat (t : Time) (layout : Str) : Str := timeFormatAux t 0 layout

/-! ## The program: `main.go` -/

/-- The record `D` of one historical window (lines 24-32). -/
structure D where
  Volume : Str
  PriceChange : Str
  PriceChangePCT : Str
  VolumeChange : Str
  VolumeChangePCT : Str
  MarketCapChange : Str
  MarketCapChangePCT : Str

/-- The record `Coin` (lines 34-54). -/
structure Coin where
  Id : Str
  Currency : Str
  Symbol : Str
  Name : Str
  LogoURL : Str
  Price : Str
  PriceDate : Str
  PriceTimestamp : Str
  CirculatingSupply : Str
  MaxSupply : Str
  MarketCap : Str
  Rank : Str
  High : Str
  HighTimestamp : Str
  D1 : D
  D7 : D
  D30 : D
  D365 : D
  YTD : D

/-- The function `parseTime` (lines 112-122).  When `time.Parse` fails the function returns
`value`, not `format`. -/
def parseTime (format pre post value : Str) : Option Str :=
  let re := timeRe pre post
  match timeParse value with
  | none => some value
  | some t =>
    re.replaceAllStringFunc format (fun val =>
      (re.findStringSubmatch val).map (fun m => timeFormat t m.2))

/-- The function `parsePad` (lines 126-142).  The error of `strconv.ParseFloat` is dropped and
the value returned with it is formatted. -/
def parsePad (fl : Bool) (format pre post value : Str) : Option Str :=
  (if fl then
    (floatRe pre post).replaceAllStringFunc format (fun val =>
      ((floatRe pre post).findStringSubmatch val).map (fun m =>
        sprintf (m.2 ++ ['f']) (Arg.float (parseFloat value).1)))
  else
    (padRe pre post).replaceAllStringFunc format (fun val =>
      ((padRe pre post).findStringSubmatch val).map (fun m =>
        sprintf (m.2 ++ ['s']) (Arg.string value)))).map
    (fun format => replaceAll format (pre ++ post) value)

/-- The function `parse` (lines 145-161): the fourteen passes of the root dispatcher. -/
def parse (coin : Coin) (format currency : Str) : Option Str :=
  andThen (parseTime format "%".toList "HT".toList coin.HighTimestamp) fun format =>
  andThen (parsePad false format "%".toList "MC".toList coin.MarketCap) fun format =>
  andThen (parsePad false format "%".toList "CS".toList coin.CirculatingSupply) fun format =>
  andThen (parsePad true format "%".toList "H".toList coin.High) fun format =>
  andThen (parsePad false format "%".toList "M".toList coin.MaxSupply) fun format =>
  andThen (parseTime format "%".toList "T".toList coin.PriceTimestamp) fun format =>
  andThen (parseTime format "%".toList "D".toList coin.PriceDate) fun format =>
  andThen (parsePad true format "%".toList "P".toList coin.Price) fun format =>
  andThen (parsePad false format "%".toList "L".toList coin.LogoURL) fun format =>
  andThen (parsePad false format "%".toList "N".toList coin.Name) fun format =>
  andThen (parsePad false format "%".toList "s".toList coin.Symbol) fun format =>
  andThen (parsePad false format "%".toList "C".toList coin.Currency) fun format =>
  andThen (parsePad false format "%".toList "I".toList coin.Id) fun format =>
  parsePad false format "%".toList "$".toList currency

/-- The glyph of line 172, U+F0D8. -/
def glyphUp : Str := [Char.ofNat 0xF0D8]

/-- The glyph of line 174, U+F0D7. -/
def glyphDown : Str := [Char.ofNat 0xF0D7]

/-- The indicator of lines 172-175: the second glyph when the float64 that
`ParseFloat` returns for `day.PriceChange` is below zero. -/
def good (day : D) : Str :=
  if (parseFloat day.PriceChange).1.ltZero then glyphDown else glyphUp

/-- The function `parseDay` (lines 164-178): the eight passes of one window. -/
def parseDay (pre : Str) (day : D) (format : Str) : Option Str :=
  andThen (parsePad true format pre "PP".toList day.PriceChangePCT) fun format =>
  andThen (parsePad true format pre "VC".toList day.VolumeChange) fun format =>
  andThen (parsePad true format pre "VP".toList day.VolumeChangePCT) fun format =>
  andThen (parsePad true format pre "MP".toList day.MarketCapChangePCT) fun format =>
  andThen (parsePad true format pre "V".toList day.Volume) fun format =>
  andThen (parsePad true format pre "P".toList day.PriceChange) fun format =>
  andThen (parsePad true format pre "M".toList day.MarketCapChange) fun format =>
  parsePad false format pre "C".toList (good day)

/-- The sentinel that stands for `%%` during the passes (line 243). -/
def sentinel : Str := "::{PERCENT}::".toList

/-- Lines 243-253 of `main`: the formatting of the template `format` for the record
`c` and the fiat code `currency`; the result is the text that line 255 prints. -/
def mainFormat (c : Coin) (currency format : Str) : Option Str :=
  andThen (parseDay "%1D:".toList c.D1 (replaceAll format "%%".toList sentinel)) fun format =>
  andThen (parseDay "%7D:".toList c.D7 format) fun format =>
  andThen (parseDay "%30D:".toList c.D30 format) fun format =>
  andThen (parseDay "%365D:".toList c.D365 format) fun format =>
  andThen (parseDay "%YTD:".toList c.YTD format) fun format =>
  andThen (parse c format currency) fun format =>
  escapeRe.replaceAllStringFunc (replaceAll format sentinel "%".toList) (fun val =>
    (escapeRe.findStringSubmatch val).map (fun m => m.2))

/-! ## Predicates and examples used in the statements -/

/-- The three timestamps of the record are accepted by `time.Parse`. -/
def Coin.timesOK (c : Coin) : Prop :=
  (timeParse c.HighTimestamp).isSome ∧ (timeParse c.PriceTimestamp).isSome ∧
    (timeParse c.PriceDate).isSome

/-- A record with the values of the usage text: a well-formed quote. -/
def exampleDay : D :=
  { Volume := "17087256040.52".toList, PriceChange := "279.96446090".toList,
    PriceChangePCT := "0.0101".toList, VolumeChange := "-48633.12".toList,
    VolumeChangePCT := "-0.0277".toList, MarketCapChange := "21590.77".toList,
    MarketCapChangePCT := "0.0102".toList }

/-- A quote with the values of the usage text. -/
def exampleCoin : Coin :=
  { Id := "BTC".toList, Currency := "BTC".toList, Symbol := "BTC".toList,
    Name := "Bitcoin".toList, LogoURL := "https://s3.us-east-2.amazonaws.com/btc.svg".toList,
    Price := "15627.42669435".toList, PriceDate := "2020-08-30T00:00:00Z".toList,
    PriceTimestamp := "2020-08-30T18:21:00Z".toList, CirculatingSupply := "18475000".toList,
    MaxSupply := "21000000".toList, MarketCap := "214619776781".toList, Rank := "1".toList,
    High := "19337.69352527".toList, HighTimestamp := "2017-12-16T00:00:00Z".toList,
    D1 := exampleDay, D7 := exampleDay, D30 := exampleDay, D365 := exampleDay,
    YTD := exampleDay }

/-- The number that a string of decimal digits denotes. -/
def decVal (w : Str) : Nat := w.foldl (fun a c => a * 10 + digitVal c) 0

/-- The suffixes of the root dispatcher that go through the textual formatter with a
literal suffix. -/
def textSuffixes : List Str :=
  ["MC".toList, "CS".toList, "M".toList, "L".toList, "N".toList, "s".toList, "C".toList,
   "I".toList]

/-- The forms of the float modifier in the grammar of the specification,
`[ -]?\d*\.?\d+`: sign part, digits, point part, digits. -/
def FloatMod (sg d1 dot d2 : Str) : Prop :=
  (sg = [] ∨ sg = [' '] ∨ sg = ['-']) ∧ (∀ c ∈ d1, isDigit c = true) ∧
    (dot = [] ∨ dot = ['.']) ∧ (∀ c ∈ d2, isDigit c = true) ∧ d2 ≠ []

/-- The value that comes with an error is 0 or an infinity. -/
def ErrValue (r : F64 × Bool) : Prop :=
  r.2 = true → r.1 = F64.zero ∨ ∃ neg, r.1 = F64.inf neg

/-- A plain decimal numeral: an optional `-`, digits, and optionally a `.` followed
by digits. -/
def isPlainNumeral (s : Str) : Bool :=
  let body := if s.head? = some '-' then s.tail else s
  match body.dropWhile isDigit with
  | [] => true
  | c :: cs => c == '.' && cs.all isDigit

/-- The pass with suffix `post` finds nothing to do at the head of `'%' :: r`: its
pattern does not match there and `r` does not start with the bare directive. -/
def padIdle (fl : Bool) (p post r : Str) : Bool :=
  ((if fl then floatRe ('%' :: p) post else padRe ('%' :: p) post).matchAt ('%' :: r)).isNone &&
    !(p ++ post).isPrefixOf r

/-- The time pass finds nothing to do at the head of `'%' :: r`. -/
def timeIdle (post r : Str) : Bool := ((timeRe ['%'] post).matchAt ('%' :: r)).isNone

/-- All eight passes of a window find nothing to do at the head of `'%' :: r`. -/
def dayIdle (p r : Str) : Bool :=
  padIdle true p "PP".toList r && padIdle true p "VC".toList r && padIdle true p "VP".toList r &&
    padIdle true p "MP".toList r && padIdle true p "V".toList r && padIdle true p "P".toList r &&
    padIdle true p "M".toList r && padIdle false p "C".toList r

/-- The four fields of a window that the two-letter directives render are plain
decimal numerals. -/
def WindowNumeric (day : D) : Prop :=
  isPlainNumeral day.PriceChangePCT = true ∧ isPlainNumeral day.VolumeChange = true ∧
    isPlainNumeral day.VolumeChangePCT = true ∧ isPlainNumeral day.MarketCapChangePCT = true

/-- The four two-letter directives of the window with prefix `p`, each rendered as
its own field of the record `day`. -/
def WindowRendered (c : Coin) (cur p : Str) (day : D) : Prop :=
  mainFormat c cur (p ++ "PP".toList) = some day.PriceChangePCT ∧
    mainFormat c cur (p ++ "VC".toList) = some day.VolumeChange ∧
    mainFormat c cur (p ++ "VP".toList) = some day.VolumeChangePCT ∧
    mainFormat c cur (p ++ "MP".toList) = some day.MarketCapChangePCT

/-! ## Further predicates and examples used in the statements -/

/-- The characters that the specification counts as suffix characters of the root
dispatcher: `H M C T D P L N s I R $`. -/
def rootSuffixChars : Str := "HMCTDPLNsIR$".toList

/-- A text of ASCII letters and digits only. -/
def alnum (s : Str) : Bool := s.all Char.isAlphanum

/-- The ten fields of the record that the non-time root directives of the usage text
name are texts of letters and digits. -/
def Coin.rootAlnum (c : Coin) : Prop :=
  alnum c.Id = true ∧ alnum c.Currency = true ∧ alnum c.Symbol = true ∧ alnum c.Name = true ∧
    alnum c.Price = true ∧ alnum c.CirculatingSupply = true ∧ alnum c.MaxSupply = true ∧
    alnum c.MarketCap = true ∧ alnum c.Rank = true ∧ alnum c.High = true

/-- A quote whose ten fields are texts of letters and digits. -/
def alnumCoin : Coin :=
  { exampleCoin with Price := "15627".toList, High := "19337".toList }

/-- The five window prefixes of lines 244-248. -/
def windowPrefixes : List Str :=
  ["%1D:".toList, "%7D:".toList, "%30D:".toList, "%365D:".toList, "%YTD:".toList]

/-! # Theorems -/

/-! ## Lemmas on `strings.ReplaceAll` -/

theorem andThen_some {α β : Type} (a : α) (f : α → Option β) : andThen (some a) f = f a := rfl

theorem replaceAllAux_of_absent (old new : Str) :
    ∀ s : Str, ¬ old <:+: s → replaceAllAux old new 0 s = s
  | [], _ => rfl
  | c :: cs, h => by
    have hp : old.isPrefixOf (c :: cs) = false := by
      cases hb : old.isPrefixOf (c :: cs) with
      | false => rfl
      | true => exact absurd (List.isPrefixOf_iff_prefix.mp hb).isInfix h
    have ht : ¬ old <:+: cs := fun hi => h (hi.trans (List.suffix_cons c cs).isInfix)
    simp [replaceAllAux, hp, replaceAllAux_of_absent old new cs ht]

theorem replaceAll_of_absent (s old new : Str) (ho : old ≠ []) (h : ¬ old <:+: s) :
    replaceAll s old new = s := by
  simp [replaceAll, ho, replaceAllAux_of_absent old new s h]

theorem not_infix_of_not_mem {c0 : Char} {old' s : Str} (h : c0 ∉ s) : ¬ (c0 :: old') <:+: s :=
  fun hi => h (hi.subset (List.mem_cons_self c0 old'))

theorem replaceAll_of_not_mem (s : Str) (c0 : Char) (old' new : Str) (h : c0 ∉ s) :
    replaceAll s (c0 :: old') new = s :=
  replaceAll_of_absent s _ new (List.cons_ne_nil _ _) (not_infix_of_not_mem h)

/-! ## Lemmas on the patterns -/

theorem matchSeq_lit_nil {α : Type} (c0 : Char) (ns : List Node) (k : Str → Option α) :
    matchSeq (lit c0 :: ns) k [] = none := rfl

theorem matchSeq_lit_cons {α : Type} (c0 c : Char) (ns : List Node) (k : Str → Option α)
    (cs : Str) :
    matchSeq (lit c0 :: ns) k (c :: cs) = if c = c0 then matchSeq ns k cs else none := by
  simp [matchSeq, lit]

theorem matchAt_of_head_ne (re : Regexp) (c0 : Char) (ns : List Node) (hre : re.pre = lit c0 :: ns)
    (c : Char) (cs : Str) (h : c ≠ c0) : re.matchAt (c :: cs) = none := by
  simp [Regexp.matchAt, hre, matchSeq_lit_cons, h]

theorem regexp_replaceAllAux_of_not_mem (re : Regexp) (c0 : Char) (ns : List Node)
    (hre : re.pre = lit c0 :: ns) (repl : Str → Option Str) :
    ∀ s : Str, c0 ∉ s → re.replaceAllAux repl 0 s = some s
  | [], _ => rfl
  | c :: cs, h => by
    have hc : c ≠ c0 := fun e => h (e ▸ List.mem_cons_self c cs)
    have ht : c0 ∉ cs := fun hm => h (List.mem_cons_of_mem c hm)
    simp [Regexp.replaceAllAux, matchAt_of_head_ne re c0 ns hre c cs hc,
      regexp_replaceAllAux_of_not_mem re c0 ns hre repl cs ht]

theorem compileLit_percent (p : Str) : compileLit ('%' :: p) = lit '%' :: compileLit p := by
  simp [compileLit]

/-! ## A pass leaves a text without `%` as it is -/

theorem parsePad_of_not_mem (fl : Bool) (s p post v : Str) (h : '%' ∉ s) :
    parsePad fl s ('%' :: p) post v = some s := by
  cases fl
  · simp [parsePad, Regexp.replaceAllStringFunc,
      regexp_replaceAllAux_of_not_mem (padRe ('%' :: p) post) '%' (compileLit p)
        (by simp [padRe, compileLit_percent]) _ s h,
      replaceAll_of_not_mem s '%' (p ++ post) v h]
  · simp [parsePad, Regexp.replaceAllStringFunc,
      regexp_replaceAllAux_of_not_mem (floatRe ('%' :: p) post) '%' (compileLit p)
        (by simp [floatRe, compileLit_percent]) _ s h,
      replaceAll_of_not_mem s '%' (p ++ post) v h]

theorem parseTime_of_parsed (format pre post value : Str) (t : Time)
    (ht : timeParse value = some t) :
    parseTime format pre post value =
      (timeRe pre post).replaceAllStringFunc format (fun val =>
        ((timeRe pre post).findStringSubmatch val).map (fun m => timeFormat t m.2)) := by
  simp [parseTime, ht]

theorem parseTime_of_not_mem (s p post v : Str) (hv : (timeParse v).isSome) (h : '%' ∉ s) :
    parseTime s ('%' :: p) post v = some s := by
  obtain ⟨t, ht⟩ := Option.isSome_iff_exists.mp hv
  rw [parseTime_of_parsed _ _ _ _ t ht]
  exact regexp_replaceAllAux_of_not_mem (timeRe ('%' :: p) post) '%' (compileLit p ++ [lit '{'])
    (by simp [timeRe, compileLit_percent]) _ s h

theorem parseDay_of_not_mem (p : Str) (day : D) (s : Str) (h : '%' ∉ s) :
    parseDay ('%' :: p) day s = some s := by
  simp [parseDay, parsePad_of_not_mem _ s p _ _ h, andThen_some]

theorem parse_of_not_mem (c : Coin) (s cur : Str) (hc : c.timesOK) (h : '%' ∉ s) :
    parse c s cur = some s := by
  have e : "%".toList = '%' :: [] := rfl
  simp only [parse, e, parsePad_of_not_mem _ s [] _ _ h, parseTime_of_not_mem s [] _ _ hc.1 h,
    parseTime_of_not_mem s [] _ _ hc.2.1 h, parseTime_of_not_mem s [] _ _ hc.2.2 h, andThen_some]

theorem escape_of_not_mem (repl : Str → Option Str) (s : Str) (h : '\\' ∉ s) :
    escapeRe.replaceAllStringFunc s repl = some s :=
  regexp_replaceAllAux_of_not_mem escapeRe '\\' [] rfl repl s h

theorem windows_of_not_mem (c : Coin) (s : Str) (h : '%' ∉ s) :
    (andThen (parseDay "%1D:".toList c.D1 s) fun format =>
     andThen (parseDay "%7D:".toList c.D7 format) fun format =>
     andThen (parseDay "%30D:".toList c.D30 format) fun format =>
     andThen (parseDay "%365D:".toList c.D365 format) fun format =>
     parseDay "%YTD:".toList c.YTD format) = some s := by
  have e1 : "%1D:".toList = '%' :: "1D:".toList := rfl
  have e2 : "%7D:".toList = '%' :: "7D:".toList := rfl
  have e3 : "%30D:".toList = '%' :: "30D:".toList := rfl
  have e4 : "%365D:".toList = '%' :: "365D:".toList := rfl
  have e5 : "%YTD:".toList = '%' :: "YTD:".toList := rfl
  simp only [e1, e2, e3, e4, e5, parseDay_of_not_mem _ _ s h, andThen_some]

theorem exampleCoin_timesOK : exampleCoin.timesOK := by
  refine ⟨?_, ?_, ?_⟩ <;> decide!

theorem mainFormat_of_inert (c : Coin) (cur s : Str) (hc : c.timesOK) (h1 : '%' ∉ s)
    (h2 : '\\' ∉ s) (h3 : ¬ sentinel <:+: s) :
    (andThen (parseDay "%1D:".toList c.D1 s) fun format =>
     andThen (parseDay "%7D:".toList c.D7 format) fun format =>
     andThen (parseDay "%30D:".toList c.D30 format) fun format =>
     andThen (parseDay "%365D:".toList c.D365 format) fun format =>
     andThen (parseDay "%YTD:".toList c.YTD format) fun format =>
     andThen (parse c format cur) fun format =>
     escapeRe.replaceAllStringFunc (replaceAll format sentinel "%".toList) (fun val =>
       (escapeRe.findStringSubmatch val).map (fun m => m.2))) = some s := by
  have e1 : "%1D:".toList = '%' :: "1D:".toList := rfl
  have e2 : "%7D:".toList = '%' :: "7D:".toList := rfl
  have e3 : "%30D:".toList = '%' :: "30D:".toList := rfl
  have e4 : "%365D:".toList = '%' :: "365D:".toList := rfl
  have e5 : "%YTD:".toList = '%' :: "YTD:".toList := rfl
  have hs : sentinel ≠ [] := by decide
  simp only [e1, e2, e3, e4, e5, parseDay_of_not_mem _ _ s h1, andThen_some,
    parse_of_not_mem c s cur hc h1, replaceAll_of_absent s sentinel _ hs h3,
    escape_of_not_mem _ s h2]

/-- C1 (amended): a template without `%`, backslash and the sentinel text is
returned as it is, for every quote whose three timestamps parse. -/
theorem mainFormat_literal (c : Coin) (cur t : Str) (hc : c.timesOK) (h1 : '%' ∉ t)
    (h2 : '\\' ∉ t) (h3 : ¬ sentinel <:+: t) : mainFormat c cur t = some t := by
  have e : "%%".toList = '%' :: ['%'] := rfl
  unfold mainFormat
  rw [e, replaceAll_of_not_mem t '%' ['%'] sentinel h1]
  exact mainFormat_of_inert c cur t hc h1 h2 h3

/-- C1 (witness): the theorem at the quote of the usage text and the template
`BTC now`. -/
theorem mainFormat_literal_witness :
    exampleCoin.timesOK ∧ '%' ∉ "BTC now".toList ∧ '\\' ∉ "BTC now".toList ∧
      ¬ sentinel <:+: "BTC now".toList ∧
      mainFormat exampleCoin "CAD".toList "BTC now".toList = some "BTC now".toList :=
  ⟨exampleCoin_timesOK, by decide, by decide, by decide,
    mainFormat_literal exampleCoin "CAD".toList "BTC now".toList exampleCoin_timesOK
      (by decide) (by decide) (by decide)⟩

/-- C1 (counterexample): the template `::{PERCENT}::` holds no `%` and no backslash,
and is rendered as `%`. -/
theorem mainFormat_literal_counterexample :
    '%' ∉ "::{PERCENT}::".toList ∧ '\\' ∉ "::{PERCENT}::".toList ∧
      mainFormat exampleCoin "CAD".toList "::{PERCENT}::".toList = some "%".toList ∧
      mainFormat exampleCoin "CAD".toList "::{PERCENT}::".toList ≠ some "::{PERCENT}::".toList := by
  decide!

/-! ## The default template -/

theorem good_of_priceChange (d : D) (h : d.PriceChange = "279.96446090".toList) :
    good d = glyphUp := by
  have e : (parseFloat "279.96446090".toList).1.ltZero = false := by decide!
  simp only [good, h, e]
  rfl

/-- C2 (amended): the default template, for the values of scenario S7 and timestamps
that parse, is rendered `BTC: 15627.42669435 279.96446090 ` followed by the glyph
U+F0D8 of line 172. -/
theorem mainFormat_default (c : Coin) (cur : Str) (hc : c.timesOK)
    (h1 : c.Currency = "BTC".toList) (h2 : c.Price = "15627.42669435".toList)
    (h3 : c.D1.PriceChange = "279.96446090".toList) :
    mainFormat c cur "%C: %P %1D:P %1D:C".toList =
      some ("BTC: 15627.42669435 279.96446090 ".toList ++ [Char.ofNat 0xF0D8]) := by
  obtain ⟨t1, ht1⟩ := Option.isSome_iff_exists.mp hc.1
  obtain ⟨t2, ht2⟩ := Option.isSome_iff_exists.mp hc.2.1
  obtain ⟨t3, ht3⟩ := Option.isSome_iff_exists.mp hc.2.2
  simp only [mainFormat, parse, parseDay, parseTime_of_parsed _ _ _ _ t1 ht1,
    parseTime_of_parsed _ _ _ _ t2 ht2, parseTime_of_parsed _ _ _ _ t3 ht3, h1, h2, h3,
    good_of_priceChange c.D1 h3]
  rfl

/-- C2 (witness): the theorem at the quote of the usage text. -/
theorem mainFormat_default_witness :
    exampleCoin.timesOK ∧ exampleCoin.Currency = "BTC".toList ∧
      exampleCoin.Price = "15627.42669435".toList ∧
      exampleCoin.D1.PriceChange = "279.96446090".toList ∧
      mainFormat exampleCoin "CAD".toList "%C: %P %1D:P %1D:C".toList =
        some ("BTC: 15627.42669435 279.96446090 ".toList ++ [Char.ofNat 0xF0D8]) :=
  ⟨exampleCoin_timesOK, rfl, rfl, rfl,
    mainFormat_default exampleCoin "CAD".toList exampleCoin_timesOK rfl rfl rfl⟩

/-- C2 (counterexample): for the quote of the usage text, which has the values of
scenario S7, the default template does not end in U+25B2. -/
theorem mainFormat_default_counterexample :
    exampleCoin.Currency = "BTC".toList ∧ exampleCoin.Price = "15627.42669435".toList ∧
      exampleCoin.D1.PriceChange = "279.96446090".toList ∧
      (timeParse exampleCoin.HighTimestamp).isSome = true ∧
      (timeParse exampleCoin.PriceTimestamp).isSome = true ∧
      (timeParse exampleCoin.PriceDate).isSome = true ∧
      mainFormat exampleCoin "CAD".toList "%C: %P %1D:P %1D:C".toList ≠
        some ("BTC: 15627.42669435 279.96446090 ".toList ++ [Char.ofNat 0x25B2]) := by
  decide!

/-! ## Matching a directive that carries a modifier -/

theorem starLoop_of_not {α : Type} (p : Char → Bool) (k : Str → Option α) (c : Char) (s : Str)
    (h : p c = false) : starLoop p k (c :: s) = k (c :: s) := by
  simp [starLoop, h]

theorem starLoop_nil {α : Type} (p : Char → Bool) (k : Str → Option α) :
    starLoop p k [] = k [] := rfl

theorem starLoop_cons_of_some {α : Type} (p : Char → Bool) (k : Str → Option α) (c : Char)
    (s : Str) (x : α) (hc : p c = true) (h : starLoop p k s = some x) :
    starLoop p k (c :: s) = some x := by
  simp [starLoop, hc, h]

/-- A greedy repetition takes a whole run when the continuation accepts what
follows the run. -/
theorem starLoop_run {α : Type} (p : Char → Bool) (k : Str → Option α) (x : α) (rest : Str)
    (hk : starLoop p k rest = some x) :
    ∀ ds : Str, (∀ c ∈ ds, p c = true) → starLoop p k (ds ++ rest) = some x
  | [], _ => hk
  | d :: ds, h =>
    starLoop_cons_of_some p k d (ds ++ rest) x (h d (List.mem_cons_self d ds))
      (starLoop_run p k x rest hk ds (fun c hc => h c (List.mem_cons_of_mem d hc)))

theorem matchSeq_compileLit {α : Type} (k : Str → Option α) (rest : Str) :
    ∀ lits : Str, '$' ∉ lits → matchSeq (compileLit lits) k (lits ++ rest) = k rest
  | [], _ => rfl
  | c :: cs, h => by
    have hc : c ≠ '$' := fun e => h (e ▸ List.mem_cons_self c cs)
    have ht : '$' ∉ cs := fun hm => h (List.mem_cons_of_mem c hm)
    have ih := matchSeq_compileLit k rest cs ht
    have e : compileLit (c :: cs) = lit c :: compileLit cs := by simp [compileLit, hc]
    rw [e, List.cons_append, matchSeq_lit_cons, if_pos rfl, ih]

theorem regexp_replaceAllAux_skip (re : Regexp) (repl : Str → Option Str) :
    ∀ (s : Str) (k : Nat), s.length ≤ k → re.replaceAllAux repl k s = some []
  | [], _, _ => by simp [Regexp.replaceAllAux]
  | c :: cs, 0, h => by simp at h
  | c :: cs, k + 1, h => by
    simp only [Regexp.replaceAllAux]
    exact regexp_replaceAllAux_skip re repl cs k (by simpa using h)

/-- When the pattern matches the whole text `s`, with group `cap`, the replacement
of all matches in `s` is the callback's text for `s`. -/
theorem regexp_replaceAll_whole (re : Regexp) (repl : Str → Option Str) (c : Char) (cs cap : Str)
    (h : re.matchAt (c :: cs) = some (cap, [])) :
    re.replaceAllStringFunc (c :: cs) repl = repl (c :: cs) := by
  simp only [Regexp.replaceAllStringFunc, Regexp.replaceAllAux, h]
  simp only [List.length_cons, List.length_nil, Nat.sub_zero, Nat.add_one_ne_zero, if_false,
    Nat.add_sub_cancel]
  have ht : (c :: cs).take (cs.length + 1) = c :: cs := by
    simp [List.take_of_length_le]
  rw [ht]
  cases hr : repl (c :: cs) with
  | none => rfl
  | some r => simp [regexp_replaceAllAux_skip re repl cs cs.length (Nat.le_refl _)]

theorem regexp_find_whole (re : Regexp) (c : Char) (cs cap : Str)
    (h : re.matchAt (c :: cs) = some (cap, [])) :
    re.findStringSubmatch (c :: cs) = some (c :: cs, cap) := by
  simp only [Regexp.findStringSubmatch, h]
  simp [List.take_of_length_le]

theorem isDigit_ne_minus {c : Char} (h : isDigit c = true) : (c == '-') = false := by
  cases hc : (c == '-') with
  | false => rfl
  | true => rw [beq_iff_eq.mp hc] at h; exact absurd h (by decide)

theorem isDigit_ne_dot {c : Char} (h : isDigit c = true) : (c == '.') = false := by
  cases hc : (c == '.') with
  | false => rfl
  | true => rw [beq_iff_eq.mp hc] at h; exact absurd h (by decide)

theorem isDigit_not_space {c : Char} (h : isDigit c = true) : isSpace c = false := by
  cases hc : isSpace c with
  | false => rfl
  | true =>
    simp only [isSpace, Bool.or_eq_true, beq_iff_eq] at hc
    rcases hc with (((rfl | rfl) | rfl) | rfl) | rfl <;> exact absurd h (by decide)

/-- The end of a match: after the group, the literal text `post` and nothing more. -/
theorem matchSeq_post (post : Str) (hpost : '$' ∉ post) (s1 : Str) :
    matchSeq (compileLit post)
      (fun s3 => some (s1.take (s1.length - post.length), s3)) post =
      some (s1.take (s1.length - post.length), []) := by
  have h := matchSeq_compileLit
    (fun s3 => some (s1.take (s1.length - post.length), s3)) [] post hpost
  simpa using h

/-- The digits of a run are taken greedily when the text after them starts with no
digit. -/
theorem starLoop_digits {α : Type} (k : Str → Option α) (x : α) (rest : Str)
    (hr : ∀ c, rest.head? = some c → isDigit c = false) (hk : k rest = some x) (ds : Str)
    (hds : ∀ c ∈ ds, isDigit c = true) : starLoop isDigit k (ds ++ rest) = some x := by
  apply starLoop_run isDigit k x rest _ ds hds
  cases rest with
  | nil => exact hk
  | cons c s => rw [starLoop_of_not isDigit k c s (hr c rfl)]; exact hk

theorem take_sub_length (a post : Str) :
    (a ++ post).take ((a ++ post).length - post.length) = a := by
  rw [List.length_append, Nat.add_sub_cancel]
  exact List.take_left' rfl

/-- The pattern of the textual formatter matches a whole directive
`pre [-] digits post`, and group 1 is the modifier. -/
theorem padRe_matchAt (pre post : Str) (hpre : '$' ∉ pre) (hpost : '$' ∉ post)
    (hd : ∀ c, post.head? = some c → isDigit c = false) (sg w : Str)
    (hsg : sg = [] ∨ sg = ['-']) (hw : ∀ c ∈ w, isDigit c = true) (hne : w ≠ []) :
    (padRe pre post).matchAt (pre ++ (sg ++ w ++ post)) = some (sg ++ w, []) := by
  obtain ⟨w0, w', rfl⟩ := List.exists_cons_of_ne_nil hne
  have hw0 : isDigit w0 = true := hw w0 (List.mem_cons_self _ _)
  have hw' : ∀ c ∈ w', isDigit c = true := fun c hc => hw c (List.mem_cons_of_mem _ hc)
  simp only [Regexp.matchAt, padRe]
  rw [matchSeq_compileLit _ _ pre hpre]
  have key : ∀ s1 : Str, s1.take (s1.length - post.length) = sg ++ w0 :: w' →
      matchSeq [Node.one isDigit, Node.star isDigit]
        (fun s2 => matchSeq (compileLit post)
          (fun s3 => some (s1.take (s1.length - s2.length), s3)) s2) (w0 :: (w' ++ post)) =
        some (sg ++ w0 :: w', []) := by
    intro s1 hs1
    simp only [matchSeq, hw0, if_true]
    apply starLoop_digits _ _ post hd _ w' hw'
    rw [matchSeq_post post hpost s1, hs1]
  have h1 := key (sg ++ (w0 :: w') ++ post) (take_sub_length _ _)
  rcases hsg with rfl | rfl
  · simp only [List.nil_append, List.cons_append] at h1 ⊢
    rw [matchSeq]
    simp only [isDigit_ne_minus hw0, Bool.false_eq_true, if_false]
    exact h1
  · simp only [List.nil_append, List.cons_append] at h1 ⊢
    rw [matchSeq]
    simp only [beq_self_eq_true, if_true, h1]

theorem foldl_digits_ge (w : Str) : ∀ a : Nat, a ≤ w.foldl (fun a c => a * 10 + digitVal c) a := by
  induction w with
  | nil => intro a; exact Nat.le_refl a
  | cons c w ih =>
    intro a
    have := ih (a * 10 + digitVal c)
    simp only [List.foldl_cons]
    omega

theorem parsenum_digits (rest : Str) (hr : ∀ c, rest.head? = some c → isDigit c = false) :
    ∀ (w : Str) (acc : Nat) (b : Bool), (∀ c ∈ w, isDigit c = true) →
      w.foldl (fun a c => a * 10 + digitVal c) acc ≤ 10000009 →
      parsenum (w ++ rest) acc b =
        some (w.foldl (fun a c => a * 10 + digitVal c) acc, b || !w.isEmpty, rest) := by
  intro w
  induction w with
  | nil =>
    intro acc b _ _
    cases rest with
    | nil => simp [parsenum]
    | cons c s => simp [parsenum, hr c rfl]
  | cons c w ih =>
    intro acc b hw hmax
    have hc : isDigit c = true := hw c (List.mem_cons_self _ _)
    have hw' : ∀ x ∈ w, isDigit x = true := fun x hx => hw x (List.mem_cons_of_mem _ hx)
    simp only [List.foldl_cons] at hmax
    have hge := foldl_digits_ge w (acc * 10 + digitVal c)
    have hacc : ¬ 1000000 < acc := by omega
    rw [List.cons_append, parsenum]
    simp only [hc, if_true, hacc, if_false, List.foldl_cons]
    rw [ih (acc * 10 + digitVal c) true hw' hmax]
    simp

theorem scanFlags_digit (c : Char) (s : Str) (fl : FmtFlags) (hc : isDigit c = true)
    (h0 : c ≠ '0') : scanFlags (c :: s) fl = (fl, c :: s) := by
  have h1 : c ≠ '-' := by simpa using isDigit_ne_minus hc
  have h2 : c ≠ ' ' := by
    rintro rfl; exact absurd hc (by decide)
  simp [scanFlags, h0, h1, h2]

theorem not_digit_s : ∀ c, (['s'] : Str).head? = some c → isDigit c = false := by
  intro c h
  simp only [List.head?_cons, Option.some.injEq] at h
  subst h
  decide

theorem printVerb_s (fl : FmtFlags) (v : Str) (hp : fl.prec = none) :
    printVerb fl ['s'] (Arg.string v) = pad fl v := by
  simp [printVerb, printArg, hp]

theorem pad_left (w : Nat) (v : Str) :
    pad { minus := false, zero := false, space := false, wid := some w, prec := none } v =
      List.replicate (w - v.length) ' ' ++ v := by
  by_cases h : w = 0
  · simp [pad, h]
  · simp [pad, h]

theorem pad_right (w : Nat) (v : Str) :
    pad { minus := true, zero := false, space := false, wid := some w, prec := none } v =
      v ++ List.replicate (w - v.length) ' ' := by
  by_cases h : w = 0
  · simp [pad, h]
  · simp [pad, h]

/-- The text of `Sprintf("%<w>s", v)` for a width of digits without leading zero, at most
10000009: `v` padded on the left with spaces. -/
theorem sprintf_width (w v : Str) (hw : ∀ c ∈ w, isDigit c = true) (hne : w ≠ [])
    (h0 : w.head? ≠ some '0') (hmax : decVal w ≤ 10000009) :
    sprintf (w ++ ['s']) (Arg.string v) = List.replicate (decVal w - v.length) ' ' ++ v := by
  obtain ⟨w0, w', rfl⟩ := List.exists_cons_of_ne_nil hne
  have hw0 : isDigit w0 = true := hw w0 (List.mem_cons_self _ _)
  have hne0 : w0 ≠ '0' := fun e => h0 (by simp [e])
  have hp := parsenum_digits ['s'] not_digit_s (w0 :: w') 0 false hw hmax
  simp only [List.cons_append] at hp
  simp only [sprintf, List.cons_append, scanFlags_digit w0 _ _ hw0 hne0, hp]
  simp only [List.head?_cons, Option.some.injEq, show ('s' : Char) ≠ '.' by decide, if_false,
    List.isEmpty_cons, Bool.not_false, Bool.or_true, if_true, FmtFlags.clear]
  rw [printVerb_s _ _ rfl, pad_left]
  rfl

/-- The text of `Sprintf("%-<w>s", v)`: `v` padded on the right with spaces. -/
theorem sprintf_width_minus (w v : Str) (hw : ∀ c ∈ w, isDigit c = true) (hne : w ≠ [])
    (h0 : w.head? ≠ some '0') (hmax : decVal w ≤ 10000009) :
    sprintf ('-' :: w ++ ['s']) (Arg.string v) =
      v ++ List.replicate (decVal w - v.length) ' ' := by
  obtain ⟨w0, w', rfl⟩ := List.exists_cons_of_ne_nil hne
  have hw0 : isDigit w0 = true := hw w0 (List.mem_cons_self _ _)
  have hne0 : w0 ≠ '0' := fun e => h0 (by simp [e])
  have hp := parsenum_digits ['s'] not_digit_s (w0 :: w') 0 false hw hmax
  have hf : scanFlags ('-' :: w0 :: (w' ++ ['s'])) FmtFlags.clear =
      ({ FmtFlags.clear with minus := true, zero := false }, w0 :: (w' ++ ['s'])) := by
    rw [scanFlags]
    simp only [show ('-' : Char) ≠ '0' by decide, if_false, if_true]
    exact scanFlags_digit w0 _ _ hw0 hne0
  simp only [List.cons_append] at hp
  simp only [sprintf, List.cons_append, hf, hp]
  simp only [List.head?_cons, Option.some.injEq, show ('s' : Char) ≠ '.' by decide, if_false,
    List.isEmpty_cons, Bool.not_false, Bool.or_true, if_true, FmtFlags.clear]
  rw [printVerb_s _ _ rfl, pad_right]
  rfl

/-- The textual formatter on a text that is one directive with a width: the
directive is replaced by `Sprintf("%<modifier>s", value)`. -/
theorem parsePad_text_whole (post v sg w : Str) (hpost : '$' ∉ post)
    (hd : ∀ c, post.head? = some c → isDigit c = false)
    (hsg : sg = [] ∨ sg = ['-']) (hw : ∀ c ∈ w, isDigit c = true) (hne : w ≠ []) :
    parsePad false ('%' :: (sg ++ w ++ post)) ['%'] post v =
      some (replaceAll (sprintf (sg ++ w ++ ['s']) (Arg.string v)) ('%' :: post) v) := by
  have hm : (padRe ['%'] post).matchAt ('%' :: (sg ++ w ++ post)) = some (sg ++ w, []) :=
    padRe_matchAt ['%'] post (by decide) hpost hd sg w hsg hw hne
  simp only [parsePad, Bool.false_eq_true, if_false,
    regexp_replaceAll_whole _ _ _ _ _ hm, regexp_find_whole _ _ _ _ hm, Option.map_some',
    List.singleton_append]

theorem textSuffixes_ok (s : Str) (hs : s ∈ textSuffixes) :
    '$' ∉ s ∧ ∀ c, s.head? = some c → isDigit c = false := by
  simp only [textSuffixes, List.mem_cons, List.mem_singleton, List.not_mem_nil, or_false] at hs
  rcases hs with rfl | rfl | rfl | rfl | rfl | rfl | rfl | rfl <;>
    exact ⟨by decide, fun c hc => by cases hc; decide⟩

theorem not_mem_replicate_append {c : Char} {n : Nat} {v : Str} (h : c ∉ v) (hc : c ≠ ' ') :
    c ∉ List.replicate n ' ' ++ v := by
  simp only [List.mem_append, List.mem_replicate, not_or, not_and]
  exact ⟨fun _ => hc, h⟩

theorem not_mem_append_replicate {c : Char} {n : Nat} {v : Str} (h : c ∉ v) (hc : c ≠ ' ') :
    c ∉ v ++ List.replicate n ' ' := by
  simp only [List.mem_append, List.mem_replicate, not_or, not_and]
  exact ⟨h, fun _ => hc⟩

theorem parsePad_padding_pos (s v w : Str) (hs : s ∈ textSuffixes) (hv : '%' ∉ v)
    (hw : ∀ c ∈ w, isDigit c = true) (hne : w ≠ []) (h0 : w.head? ≠ some '0')
    (hmax : decVal w ≤ 10000009) :
    parsePad false ('%' :: (w ++ s)) "%".toList s v =
        some (List.replicate (decVal w - v.length) ' ' ++ v) ∧
      parsePad false ('%' :: '-' :: (w ++ s)) "%".toList s v =
        some (v ++ List.replicate (decVal w - v.length) ' ') := by
  obtain ⟨hs1, hs2⟩ := textSuffixes_ok s hs
  have e : "%".toList = ['%'] := rfl
  refine ⟨?_, ?_⟩
  · have h := parsePad_text_whole s v [] w hs1 hs2 (Or.inl rfl) hw hne
    simp only [List.nil_append] at h
    rw [e, h, sprintf_width w v hw hne h0 hmax,
      replaceAll_of_not_mem _ '%' s v (not_mem_replicate_append hv (by decide))]
  · have h := parsePad_text_whole s v ['-'] w hs1 hs2 (Or.inr rfl) hw hne
    simp only [List.cons_append, List.nil_append, List.singleton_append] at h
    have h2 := sprintf_width_minus w v hw hne h0 hmax
    simp only [List.cons_append] at h2
    rw [e, h, h2,
      replaceAll_of_not_mem _ '%' s v (not_mem_append_replicate hv (by decide))]

theorem parsePad_padding_zero (s : Str) (hs : s ∈ textSuffixes) :
    parsePad false ('%' :: (['0'] ++ s)) "%".toList s [] = some [] ∧
      parsePad false ('%' :: '-' :: (['0'] ++ s)) "%".toList s [] = some [] := by
  simp only [textSuffixes, List.mem_cons, List.mem_singleton, List.not_mem_nil, or_false] at hs
  rcases hs with rfl | rfl | rfl | rfl | rfl | rfl | rfl | rfl <;> decide!

/-- C9 (amended): the padding algebra of the textual formatter, for a width of at
most 10000009, the largest that `fmt.Sprintf` reads: `%<W><S>` is the value padded
on the left with spaces to the width `W`, `%-<W><S>` the value padded on the right;
and `%-5s|` with the symbol `BTC` gives `BTC  |`. -/
theorem parsePad_padding (s v w : Str) (hs : s ∈ textSuffixes) (hv : '%' ∉ v)
    (hw : ∀ c ∈ w, isDigit c = true) (hne : w ≠ []) (h0 : w = ['0'] ∨ w.head? ≠ some '0')
    (hlen : v.length ≤ decVal w) (hmax : decVal w ≤ 10000009) :
    parsePad false ('%' :: (w ++ s)) "%".toList s v =
        some (List.replicate (decVal w - v.length) ' ' ++ v) ∧
      (List.replicate (decVal w - v.length) ' ' ++ v).length = decVal w ∧
      parsePad false ('%' :: '-' :: (w ++ s)) "%".toList s v =
        some (v ++ List.replicate (decVal w - v.length) ' ') ∧
      parsePad false "%-5s|".toList "%".toList "s".toList "BTC".toList =
        some "BTC  |".toList := by
  have hl : (List.replicate (decVal w - v.length) ' ' ++ v).length = decVal w := by
    simp only [List.length_append, List.length_replicate]
    omega
  rcases h0 with rfl | h0
  · have hz : decVal ['0'] = 0 := by decide
    have hv0 : v = [] := List.length_eq_zero.mp (Nat.le_zero.mp (hz ▸ hlen))
    subst hv0
    have h := parsePad_padding_zero s hs
    exact ⟨h.1, hl, h.2, by decide!⟩
  · have h := parsePad_padding_pos s v w hs hv hw hne h0 hmax
    exact ⟨h.1, hl, h.2, by decide!⟩

/-- C9 (witness): the theorem at the width `5`, the suffix `s` and the value `BTC`. -/
theorem parsePad_padding_witness :
    "s".toList ∈ textSuffixes ∧ '%' ∉ "BTC".toList ∧ (∀ c ∈ "5".toList, isDigit c = true) ∧
      "5".toList ≠ [] ∧ ("5".toList = ['0'] ∨ "5".toList.head? ≠ some '0') ∧
      "BTC".toList.length ≤ decVal "5".toList ∧ decVal "5".toList ≤ 10000009 ∧
      (parsePad false ('%' :: ("5".toList ++ "s".toList)) "%".toList "s".toList "BTC".toList =
          some (List.replicate (decVal "5".toList - "BTC".toList.length) ' ' ++ "BTC".toList) ∧
        (List.replicate (decVal "5".toList - "BTC".toList.length) ' ' ++ "BTC".toList).length =
          decVal "5".toList ∧
        parsePad false ('%' :: '-' :: ("5".toList ++ "s".toList)) "%".toList "s".toList
            "BTC".toList =
          some ("BTC".toList ++ List.replicate (decVal "5".toList - "BTC".toList.length) ' ') ∧
        parsePad false "%-5s|".toList "%".toList "s".toList "BTC".toList =
          some "BTC  |".toList) :=
  ⟨by decide, by decide, by decide, by decide, Or.inr (by decide), by decide, by decide,
    parsePad_padding "s".toList "BTC".toList "5".toList (by decide) (by decide) (by decide)
      (by decide) (Or.inr (by decide)) (by decide) (by decide)⟩

/-- C9 (counterexample): for the width 10000010 `fmt.Sprintf` reads no width, and
the directive is replaced by the text of Go's `%!(NOVERB)` error. -/
theorem parsePad_padding_counterexample :
    "C".toList ∈ textSuffixes ∧ '%' ∉ "BTC".toList ∧ "BTC".toList.length ≤ 10000010 ∧
      parsePad false "%10000010C".toList "%".toList "C".toList "BTC".toList =
        some "%!(NOVERB)%!(EXTRA string=BTC)".toList ∧
      parsePad false "%10000010C".toList "%".toList "C".toList "BTC".toList ≠
        some (List.replicate (10000010 - "BTC".toList.length) ' ' ++ "BTC".toList) := by
  refine ⟨by decide, by decide, by decide!, by decide!, by decide!⟩

/-! ## The numeric formatter on a directive with a modifier -/

theorem matchSeq_opt_skip {α : Type} (p : Char → Bool) (ns : List Node) (k : Str → Option α)
    (c : Char) (s : Str) (h : p c = false) :
    matchSeq (Node.opt p :: ns) k (c :: s) = matchSeq ns k (c :: s) := by
  simp [matchSeq, h]

theorem matchSeq_opt_take {α : Type} (p : Char → Bool) (ns : List Node) (k : Str → Option α)
    (c : Char) (s : Str) (x : α) (h : p c = true) (hk : matchSeq ns k s = some x) :
    matchSeq (Node.opt p :: ns) k (c :: s) = some x := by
  simp [matchSeq, h, hk]

theorem matchSeq_one {α : Type} (p : Char → Bool) (ns : List Node) (k : Str → Option α)
    (c : Char) (s : Str) (h : p c = true) :
    matchSeq (Node.one p :: ns) k (c :: s) = matchSeq ns k s := by
  simp [matchSeq, h]

theorem matchSeq_one_not {α : Type} (p : Char → Bool) (ns : List Node) (k : Str → Option α)
    (c : Char) (s : Str) (h : p c = false) :
    matchSeq (Node.one p :: ns) k (c :: s) = none := by
  simp [matchSeq, h]

theorem matchSeq_star {α : Type} (p : Char → Bool) (ns : List Node) (k : Str → Option α)
    (s : Str) : matchSeq (Node.star p :: ns) k s = starLoop p (matchSeq ns k) s := by
  cases s <;> simp [matchSeq]

theorem matchSeq_nil {α : Type} (k : Str → Option α) (s : Str) : matchSeq [] k s = k s := by
  cases s <;> simp [matchSeq]

theorem matchSeq_nil_fun {α : Type} (k : Str → Option α) : matchSeq [] k = k :=
  funext (matchSeq_nil k)

/-- The part `\d*\.?\d+` of the numeric pattern on `digits [.] digits`, followed by
text that starts with neither a digit nor a point. -/
theorem matchSeq_number {α : Type} (k : Str → Option α) (x : α) (post d1 dot d2 : Str)
    (hk : k post = some x)
    (hp : ∀ c, post.head? = some c → isDigit c = false ∧ (c == '.') = false)
    (h1 : ∀ c ∈ d1, isDigit c = true) (hdot : dot = [] ∨ dot = ['.'])
    (h2 : ∀ c ∈ d2, isDigit c = true) (hne : d2 ≠ []) :
    matchSeq [Node.star isDigit, Node.opt (fun x => x == '.'), Node.one isDigit,
      Node.star isDigit] k (d1 ++ dot ++ d2 ++ post) = some x := by
  have hpd : ∀ c, post.head? = some c → isDigit c = false := fun c hc => (hp c hc).1
  rw [matchSeq_star]
  rcases hdot with rfl | rfl
  · -- no point: the first repetition gives back the last digit
    obtain ⟨d2', dl, rfl⟩ : ∃ d2' dl, d2 = d2' ++ [dl] :=
      ⟨d2.dropLast, d2.getLast hne, (List.dropLast_append_getLast hne).symm⟩
    have hdl : isDigit dl = true := h2 dl (by simp)
    have hds : ∀ c ∈ d1 ++ d2', isDigit c = true := by
      intro c hc
      rcases List.mem_append.mp hc with h | h
      · exact h1 c h
      · exact h2 c (by simp [h])
    have e : d1 ++ [] ++ (d2' ++ [dl]) ++ post = (d1 ++ d2') ++ (dl :: post) := by simp
    rw [e]
    apply starLoop_run isDigit _ x (dl :: post) _ (d1 ++ d2') hds
    have hnone : starLoop isDigit
        (matchSeq [Node.opt (fun x => x == '.'), Node.one isDigit, Node.star isDigit] k) post =
        none := by
      cases post with
      | nil => simp [starLoop, matchSeq]
      | cons c s =>
        rw [starLoop_of_not isDigit _ c s (hp c rfl).1,
          matchSeq_opt_skip _ _ _ c s (hp c rfl).2, matchSeq_one_not _ _ _ c s (hp c rfl).1]
    rw [starLoop]
    simp only [hdl, if_true, hnone]
    rw [matchSeq_opt_skip _ _ _ dl post (isDigit_ne_dot hdl), matchSeq_one _ _ _ dl post hdl,
      matchSeq_star, matchSeq_nil_fun]
    have := starLoop_digits k x post hpd hk [] (by simp)
    simpa using this
  · -- a point: greedy all the way
    obtain ⟨d20, d2', rfl⟩ := List.exists_cons_of_ne_nil hne
    have hd20 : isDigit d20 = true := h2 d20 (List.mem_cons_self _ _)
    have hd2' : ∀ c ∈ d2', isDigit c = true := fun c hc => h2 c (List.mem_cons_of_mem _ hc)
    have e : d1 ++ ['.'] ++ (d20 :: d2') ++ post = d1 ++ ('.' :: d20 :: (d2' ++ post)) := by simp
    rw [e]
    apply starLoop_digits _ x ('.' :: d20 :: (d2' ++ post)) _ _ d1 h1
    · intro c hc
      simp only [List.head?_cons, Option.some.injEq] at hc
      subst hc
      decide
    · apply matchSeq_opt_take _ _ _ '.' _ x (by decide)
      rw [matchSeq_one _ _ _ d20 _ hd20, matchSeq_star]
      apply starLoop_digits _ x post hpd _ d2' hd2'
      rw [matchSeq_nil]
      exact hk

theorem floatMod_head (d1 dot d2 post : Str) (h1 : ∀ c ∈ d1, isDigit c = true)
    (hdot : dot = [] ∨ dot = ['.']) (h2 : ∀ c ∈ d2, isDigit c = true) (hne : d2 ≠ []) :
    ∃ c0 s, d1 ++ dot ++ d2 ++ post = c0 :: s ∧ isSpace c0 = false ∧ (c0 == '-') = false := by
  obtain ⟨d20, d2', rfl⟩ := List.exists_cons_of_ne_nil hne
  have hd20 : isDigit d20 = true := h2 d20 (List.mem_cons_self _ _)
  cases d1 with
  | cons a d1' =>
    have ha : isDigit a = true := h1 a (List.mem_cons_self _ _)
    exact ⟨a, d1' ++ dot ++ (d20 :: d2') ++ post, by simp, isDigit_not_space ha,
      isDigit_ne_minus ha⟩
  | nil =>
    rcases hdot with rfl | rfl
    · exact ⟨d20, d2' ++ post, by simp, isDigit_not_space hd20, isDigit_ne_minus hd20⟩
    · exact ⟨'.', d20 :: (d2' ++ post), by simp, by decide, by decide⟩

/-- The pattern of the numeric formatter matches a whole directive
`pre modifier post`, and group 1 is the modifier. -/
theorem floatRe_matchAt (pre post sg d1 dot d2 : Str) (hpre : '$' ∉ pre) (hpost : '$' ∉ post)
    (hp : ∀ c, post.head? = some c → isDigit c = false ∧ (c == '.') = false)
    (hm : FloatMod sg d1 dot d2) :
    (floatRe pre post).matchAt (pre ++ (sg ++ (d1 ++ dot ++ d2) ++ post)) =
      some (sg ++ (d1 ++ dot ++ d2), []) := by
  obtain ⟨hsg, h1, hdot, h2, hne⟩ := hm
  simp only [Regexp.matchAt, floatRe]
  rw [matchSeq_compileLit _ _ pre hpre]
  obtain ⟨c0, s, hcs, hc1, hc2⟩ := floatMod_head d1 dot d2 post h1 hdot h2 hne
  have key : ∀ s1 : Str, s1.take (s1.length - post.length) = sg ++ (d1 ++ dot ++ d2) →
      matchSeq [Node.star isDigit, Node.opt (fun x => x == '.'), Node.one isDigit,
        Node.star isDigit]
        (fun s2 => matchSeq (compileLit post)
          (fun s3 => some (s1.take (s1.length - s2.length), s3)) s2) (d1 ++ dot ++ d2 ++ post) =
        some (sg ++ (d1 ++ dot ++ d2), []) := by
    intro s1 hs1
    apply matchSeq_number _ _ post d1 dot d2 _ hp h1 hdot h2 hne
    rw [matchSeq_post post hpost s1, hs1]
  have hk := key (sg ++ (d1 ++ dot ++ d2) ++ post) (take_sub_length _ _)
  rcases hsg with rfl | rfl | rfl
  · simp only [List.nil_append] at hk ⊢
    rw [hcs] at hk ⊢
    rw [matchSeq_opt_skip _ _ _ c0 s hc1, matchSeq_opt_skip _ _ _ c0 s hc2]
    exact hk
  · simp only [List.cons_append, List.nil_append] at hk ⊢
    apply matchSeq_opt_take _ _ _ ' ' _ _ (by decide)
    rw [hcs] at hk ⊢
    rw [matchSeq_opt_skip _ _ _ c0 s hc2]
    exact hk
  · simp only [List.cons_append, List.nil_append] at hk ⊢
    rw [matchSeq_opt_skip _ _ _ '-' _ (by decide)]
    apply matchSeq_opt_take _ _ _ '-' _ _ (by decide)
    exact hk

/-- The numeric formatter on a text that is one directive with a modifier: the
directive is replaced by `Sprintf("%<modifier>f", f)` for the float64 `f` that
`ParseFloat` returns, whether it reports an error or not. -/
theorem parsePad_float_whole (post v sg d1 dot d2 : Str) (hpost : '$' ∉ post)
    (hp : ∀ c, post.head? = some c → isDigit c = false ∧ (c == '.') = false)
    (hm : FloatMod sg d1 dot d2) :
    parsePad true ('%' :: (sg ++ (d1 ++ dot ++ d2) ++ post)) ['%'] post v =
      some (replaceAll (sprintf (sg ++ (d1 ++ dot ++ d2) ++ ['f'])
        (Arg.float (parseFloat v).1)) ('%' :: post) v) := by
  have hm : (floatRe ['%'] post).matchAt ('%' :: (sg ++ (d1 ++ dot ++ d2) ++ post)) =
      some (sg ++ (d1 ++ dot ++ d2), []) :=
    floatRe_matchAt ['%'] post sg d1 dot d2 (by decide) hpost hp hm
  simp only [parsePad, if_true, regexp_replaceAll_whole _ _ _ _ _ hm,
    regexp_find_whole _ _ _ _ hm, Option.map_some', List.singleton_append]

/-! ## What `ParseFloat` returns with an error, and how it is printed -/

theorem errValue_zero : ErrValue (F64.zero, true) := fun _ => Or.inl rfl

theorem errValue_ok (f : F64) : ErrValue (f, false) := fun h => by cases h

theorem errValue_ite {c : Prop} [Decidable c] {a b : F64 × Bool} (ha : ErrValue a)
    (hb : ErrValue b) : ErrValue (if c then a else b) := by
  split <;> assumption

theorem errValue_packF64 (neg : Bool) (q : Nat) (e : Int) : ErrValue (packF64 neg q e) := by
  unfold packF64
  exact errValue_ite (fun _ => Or.inr ⟨neg, rfl⟩) (errValue_ok _)

theorem errValue_roundF64 (neg : Bool) (n d : Nat) : ErrValue (roundF64 neg n d) := by
  unfold roundF64
  exact errValue_ite (errValue_ok _) (errValue_packF64 _ _ _)

theorem errValue_floatOfParts (neg hex : Bool) (st : Mant) (e : Int) :
    ErrValue (floatOfParts neg hex st e) := by
  unfold floatOfParts
  exact errValue_ite (errValue_roundF64 _ _ _) (errValue_roundF64 _ _ _)

theorem errValue_atofNumber (s : Str) (neg : Bool) (s1 : Str) :
    ErrValue (atofNumber s neg s1) := by
  unfold atofNumber
  simp only
  refine errValue_ite ?_ errValue_zero
  generalize readExpPart _ _ = o
  cases o with
  | none => exact errValue_zero
  | some t =>
    obtain ⟨e, us, rest⟩ := t
    exact errValue_ite errValue_zero
      (errValue_ite (errValue_floatOfParts _ _ _ _) errValue_zero)

/-- With an error `ParseFloat` returns 0 (syntax error) or an infinity (range
error). -/
theorem parseFloat_err (v : Str) (h : (parseFloat v).2 = true) :
    (parseFloat v).1 = F64.zero ∨ ∃ neg, (parseFloat v).1 = F64.inf neg := by
  have : ErrValue (parseFloat v) := by
    unfold parseFloat
    generalize special v = o
    cases o with
    | some t =>
      obtain ⟨f, n⟩ := t
      exact errValue_ite (errValue_ok _) errValue_zero
    | none =>
      cases v with
      | nil => exact errValue_zero
      | cons c cs =>
        exact errValue_ite (errValue_atofNumber _ _ _)
          (errValue_ite (errValue_atofNumber _ _ _) (errValue_atofNumber _ _ _))
  exact this h

/-! ### No `P` in the printed text -/

theorem scanFlags_subset : ∀ (s : Str) (fl : FmtFlags) (c : Char),
    c ∈ (scanFlags s fl).2 → c ∈ s
  | [], _, c, h => by simp [scanFlags] at h
  | a :: s, fl, c, h => by
    rw [scanFlags] at h
    split at h
    · exact List.mem_cons_of_mem _ (scanFlags_subset s _ c h)
    · split at h
      · exact List.mem_cons_of_mem _ (scanFlags_subset s _ c h)
      · split at h
        · exact List.mem_cons_of_mem _ (scanFlags_subset s _ c h)
        · exact h

theorem parsenum_subset : ∀ (s : Str) (n : Nat) (b : Bool) (w : Nat) (i : Bool) (rest : Str),
    parsenum s n b = some (w, i, rest) → ∀ c ∈ rest, c ∈ s
  | [], n, b, w, i, rest, h, c, hc => by
    simp only [parsenum, Option.some.injEq, Prod.mk.injEq] at h
    rw [← h.2.2] at hc
    exact hc
  | a :: s, n, b, w, i, rest, h, c, hc => by
    rw [parsenum] at h
    split at h
    · split at h
      · cases h
      · exact List.mem_cons_of_mem _ (parsenum_subset s _ _ w i rest h c hc)
    · simp only [Option.some.injEq, Prod.mk.injEq] at h
      rw [← h.2.2] at hc
      exact hc

theorem noP_pad (fl : FmtFlags) (b : Str) (h : 'P' ∉ b) : 'P' ∉ pad fl b := by
  unfold pad
  split
  · exact h
  · split
    · exact h
    · split
      · simp only [List.mem_append, List.mem_replicate, not_or, not_and]
        exact ⟨h, fun _ => by decide⟩
      · simp only [List.mem_append, List.mem_replicate, not_or, not_and]
        refine ⟨fun _ => ?_, h⟩
        split <;> decide

theorem noP_signText (fl : FmtFlags) (num : Str) (h : 'P' ∉ num) : 'P' ∉ signText fl num := by
  unfold signText
  split
  · rename_i c cs
    split
    · intro hm
      rcases List.mem_cons.mp hm with e | e
      · exact absurd e (by decide)
      · exact h (List.mem_cons_of_mem _ e)
    · exact h
  · exact h

theorem noP_fmtSigned (fl : FmtFlags) (num : Str) (h : 'P' ∉ num) : 'P' ∉ fmtSigned fl num := by
  unfold fmtSigned
  split
  · simp
  · rename_i c cs
    have hc : 'P' ≠ c := fun e => h (e ▸ List.mem_cons_self _ _)
    have hcs : 'P' ∉ cs := fun hm => h (List.mem_cons_of_mem _ hm)
    split
    · exact noP_pad _ _ hcs
    · split
      · split
        · intro hm
          rcases List.mem_cons.mp hm with e | e
          · exact hc e
          · rcases List.mem_append.mp e with e | e
            · exact absurd (List.eq_of_mem_replicate e) (by decide)
            · exact hcs e
        · exact noP_pad _ _ h
      · exact noP_pad _ _ h

theorem noP_fmtFloatText (fl : FmtFlags) (num : Str) (a b : Bool) (h : 'P' ∉ num) :
    'P' ∉ fmtFloatText fl num a b := by
  unfold fmtFloatText
  split
  · apply noP_pad
    split
    · exact fun hm => noP_signText fl num h (List.mem_of_mem_drop hm)
    · exact noP_signText fl num h
  · exact noP_fmtSigned _ _ (noP_signText fl num h)

theorem formatFixed_zero (e : Int) (p : Nat) :
    ∀ c ∈ formatFixed 0 e p, c = '0' ∨ c = '.' := by
  have hn : natDigits 0 = ['0'] := rfl
  intro c hc
  unfold formatFixed at hc
  have hq : ∀ den : Nat, (if (decide (den < 2 * (0 % den)) ||
      (2 * (0 % den) == den && 0 / den % 2 == 1)) = true then 0 / den + 1 else 0 / den) = 0 := by
    intro den
    simp
  simp only [Nat.zero_mul, ite_self, hq, hn] at hc
  have hall : ∀ x ∈ List.replicate (p + 1 - ['0'].length) '0' ++ ['0'], x = '0' := by
    intro x hx
    rcases List.mem_append.mp hx with h | h
    · exact List.eq_of_mem_replicate h
    · simpa using h
  split at hc
  · exact Or.inl (hall c hc)
  · rcases List.mem_append.mp hc with h | h
    · exact Or.inl (hall c (List.mem_of_mem_take h))
    · rcases List.mem_cons.mp h with h | h
      · exact Or.inr h
      · exact Or.inl (hall c (List.mem_of_mem_drop h))

theorem noP_floatText (f : F64) (prec : Option Nat)
    (hf : f = F64.zero ∨ ∃ neg, f = F64.inf neg) : 'P' ∉ floatText f prec := by
  rcases hf with rfl | ⟨neg, rfl⟩
  · cases prec with
    | none => decide
    | some p =>
      intro hm
      simp only [floatText, F64.zero] at hm
      rcases List.mem_cons.mp hm with e | e
      · exact absurd e (by decide)
      · rcases formatFixed_zero _ p _ e with h | h <;> exact absurd h (by decide)
  · cases neg <;> simp only [floatText] <;> decide

theorem noP_printV (f : F64) (hf : f = F64.zero ∨ ∃ neg, f = F64.inf neg) :
    'P' ∉ (Arg.float f).printV :=
  noP_fmtFloatText _ _ _ _ (noP_floatText f none hf)

theorem noP_noVerb (f : F64) (hf : f = F64.zero ∨ ∃ neg, f = F64.inf neg) :
    'P' ∉ noVerb (Arg.float f) := by
  intro hm
  simp only [noVerb, Arg.typeName, List.mem_append, List.mem_cons, List.mem_singleton] at hm
  rcases hm with ((h | h) | h | h) | h
  · exact absurd h (by decide)
  · exact absurd h (by decide)
  · exact absurd h (by decide)
  · exact noP_printV f hf h
  · exact absurd h (by decide)

theorem noP_printArg (fl : FmtFlags) (verb : Char) (f : F64) (hverb : verb ≠ 'P')
    (hf : f = F64.zero ∨ ∃ neg, f = F64.inf neg) : 'P' ∉ printArg fl verb (Arg.float f) := by
  unfold printArg
  simp only
  split
  · exact noP_fmtFloatText _ _ _ _ (noP_floatText f _ hf)
  · intro hm
    simp only [Arg.typeName, List.mem_append, List.mem_cons, List.mem_singleton] at hm
    rcases hm with ((h | h | h | h) | h | h) | h
    · exact absurd h (by decide)
    · exact hverb h.symm
    · exact absurd h (by decide)
    · exact absurd h (by decide)
    · exact absurd h (by decide)
    · exact noP_printV f hf h
    · exact absurd h (by decide)

theorem noP_printVerb (fl : FmtFlags) (rest : Str) (f : F64) (hrest : 'P' ∉ rest)
    (hf : f = F64.zero ∨ ∃ neg, f = F64.inf neg) : 'P' ∉ printVerb fl rest (Arg.float f) := by
  unfold printVerb
  split
  · exact noP_noVerb f hf
  · rename_i verb tail
    intro hm
    rcases List.mem_append.mp hm with h | h
    · exact noP_printArg fl verb f (fun e => hrest (e ▸ List.mem_cons_self _ _)) hf h
    · exact hrest (List.mem_cons_of_mem _ h)

/-- The text that `Sprintf` gives for the value returned with an error holds no
`P`, when the format holds none. -/
theorem noP_sprintf (spec : Str) (f : F64) (hspec : 'P' ∉ spec)
    (hf : f = F64.zero ∨ ∃ neg, f = F64.inf neg) : 'P' ∉ sprintf spec (Arg.float f) := by
  unfold sprintf
  simp only
  have h1 : 'P' ∉ (scanFlags spec FmtFlags.clear).2 :=
    fun hm => hspec (scanFlags_subset spec _ _ hm)
  cases hp : parsenum (scanFlags spec FmtFlags.clear).2 0 false with
  | none => exact noP_noVerb f hf
  | some t =>
    obtain ⟨w, isnum, rest⟩ := t
    have h2 : 'P' ∉ rest := fun hm => h1 (parsenum_subset _ _ _ _ _ _ hp _ hm)
    simp only
    split
    · cases hq : parsenum rest.tail 0 false with
      | none => exact noP_noVerb f hf
      | some t2 =>
        obtain ⟨p, i2, rest1⟩ := t2
        simp only
        exact noP_printVerb _ _ f
          (fun hm => h2 (List.mem_of_mem_tail (parsenum_subset _ _ _ _ _ _ hq _ hm))) hf
    · exact noP_printVerb _ _ f h2 hf

theorem floatMod_noP (sg d1 dot d2 : Str) (hm : FloatMod sg d1 dot d2) :
    'P' ∉ sg ++ (d1 ++ dot ++ d2) ++ ['f'] := by
  obtain ⟨hsg, h1, hdot, h2, _⟩ := hm
  have hd : ∀ d : Str, (∀ c ∈ d, isDigit c = true) → 'P' ∉ d :=
    fun d hd hm => absurd (hd 'P' hm) (by decide)
  intro hmem
  simp only [List.mem_append, List.mem_singleton] at hmem
  rcases hmem with (h | (h | h) | h) | h
  · rcases hsg with rfl | rfl | rfl <;> exact absurd h (by decide)
  · exact hd d1 h1 h
  · rcases hdot with rfl | rfl <;> exact absurd h (by decide)
  · exact hd d2 h2 h
  · exact absurd h (by decide)

/-- C3 (amended): when `ParseFloat` rejects the value, a `%<modifier>P` directive is
replaced by the float64 returned with the error, formatted under the modifier; that
float64 is 0 or an infinity. -/
theorem parsePad_unparsed (v sg d1 dot d2 : Str) (hm : FloatMod sg d1 dot d2)
    (hv : (parseFloat v).2 = true) :
    parsePad true ('%' :: (sg ++ (d1 ++ dot ++ d2) ++ "P".toList)) "%".toList "P".toList v =
        some (sprintf (sg ++ (d1 ++ dot ++ d2) ++ ['f']) (Arg.float (parseFloat v).1)) ∧
      ((parseFloat v).1 = F64.zero ∨ ∃ neg, (parseFloat v).1 = F64.inf neg) := by
  have hf := parseFloat_err v hv
  refine ⟨?_, hf⟩
  have e1 : "%".toList = ['%'] := rfl
  have e2 : "P".toList = ['P'] := rfl
  rw [e1, e2, parsePad_float_whole ['P'] v sg d1 dot d2 (by decide)
    (fun c hc => by cases hc; exact ⟨by decide, by decide⟩) hm]
  have hnp := noP_sprintf _ _ (floatMod_noP sg d1 dot d2 hm) hf
  rw [replaceAll_of_absent _ _ _ (List.cons_ne_nil _ _)
    (fun hi => hnp (hi.subset (by simp)))]

/-- C3 (witness): the theorem at the value `abc` and the modifier `0.3`. -/
theorem parsePad_unparsed_witness :
    FloatMod [] "0".toList ".".toList "3".toList ∧ (parseFloat "abc".toList).2 = true ∧
      (parsePad true ('%' :: ([] ++ ("0".toList ++ ".".toList ++ "3".toList) ++ "P".toList))
          "%".toList "P".toList "abc".toList =
          some (sprintf ([] ++ ("0".toList ++ ".".toList ++ "3".toList) ++ ['f'])
            (Arg.float (parseFloat "abc".toList).1)) ∧
        ((parseFloat "abc".toList).1 = F64.zero ∨
          ∃ neg, (parseFloat "abc".toList).1 = F64.inf neg)) :=
  ⟨⟨Or.inl rfl, by decide, Or.inr rfl, by decide, by decide⟩, by decide!,
    parsePad_unparsed "abc".toList [] "0".toList ".".toList "3".toList
      ⟨Or.inl rfl, by decide, Or.inr rfl, by decide, by decide⟩ (by decide!)⟩

/-- C3 (counterexample): `abc` is no number, and `%0.3P` is rendered `0.000`, not
`abc`. -/
theorem parsePad_unparsed_counterexample :
    (parseFloat "abc".toList).2 = true ∧
      parsePad true "%0.3P".toList "%".toList "P".toList "abc".toList = some "0.000".toList ∧
      parsePad true "%0.3P".toList "%".toList "P".toList "abc".toList ≠ some "abc".toList := by
  decide!

/-- C4: `parseTime` at the failing input: the template `Date: %{2006}D!` with the
value `not-a-date`, which `time.Parse` rejects, comes back as `not-a-date` alone. -/
theorem parseTime_unparsed_example :
    timeParse "not-a-date".toList = none ∧
      parseTime "Date: %{2006}D!".toList "%".toList "D".toList "not-a-date".toList =
        some "not-a-date".toList ∧
      parseTime "Date: %{2006}D!".toList "%".toList "D".toList "not-a-date".toList ≠
        some "Date: not-a-date!".toList := by
  decide!

/-! ## The `%%` escape -/

theorem replaceAllAux_skip (old new : Str) :
    ∀ (a rest : Str) (k : Nat), a.length = k →
      replaceAllAux old new k (a ++ rest) = replaceAllAux old new 0 rest
  | [], rest, k, h => by
    cases h
    rfl
  | c :: a, rest, 0, h => by simp at h
  | c :: a, rest, k + 1, h => by
    rw [List.cons_append, replaceAllAux]
    exact replaceAllAux_skip old new a rest k (by simpa using h)

theorem replaceAllAux_self (o : Char) (old new rest : Str) :
    replaceAllAux (o :: old) new 0 ((o :: old) ++ rest) =
      new ++ replaceAllAux (o :: old) new 0 rest := by
  have hp : (o :: old).isPrefixOf ((o :: old) ++ rest) = true :=
    List.isPrefixOf_iff_prefix.mpr (List.prefix_append _ _)
  rw [List.cons_append, replaceAllAux]
  rw [List.cons_append] at hp
  simp only [hp, if_true, List.length_cons, Nat.add_sub_cancel]
  rw [replaceAllAux_skip (o :: old) new old rest old.length rfl]

/-- One occurrence of `old` after a text in which no occurrence starts. -/
theorem replaceAllAux_insert (o : Char) (old new rest : Str) :
    ∀ l : Str, (∀ l1 c l2, l = l1 ++ c :: l2 →
        (o :: old).isPrefixOf (c :: l2 ++ ((o :: old) ++ rest)) = false) →
      replaceAllAux (o :: old) new 0 (l ++ ((o :: old) ++ rest)) =
        l ++ (new ++ replaceAllAux (o :: old) new 0 rest)
  | [], _ => replaceAllAux_self o old new rest
  | c :: l, h => by
    have h0 := h [] c l rfl
    have ih := replaceAllAux_insert o old new rest l
      (fun l1 c' l2 e => h (c :: l1) c' l2 (by rw [e]; rfl))
    simp only [List.cons_append] at h0 ih ⊢
    rw [replaceAllAux]
    simp only [h0, Bool.false_eq_true, if_false]
    rw [ih]

theorem percent_no_match (c : Char) (l rest : Str) (h : c ≠ '%') :
    "%%".toList.isPrefixOf (c :: l ++ rest) = false := by
  have e : "%%".toList = '%' :: ['%'] := rfl
  rw [e, List.cons_append, List.isPrefixOf]
  simp [h.symm]

theorem sentinel_no_match (c : Char) (l rest : Str) (h : '{' ∉ c :: l) :
    sentinel.isPrefixOf (c :: l ++ (sentinel ++ rest)) = false := by
  have e : sentinel = ':' :: ':' :: '{' :: "PERCENT\x7d::".toList := rfl
  rw [e]
  match l, h with
  | [], _ => simp [List.isPrefixOf]
  | [x], _ => simp [List.isPrefixOf]
  | x :: y :: l', h =>
    have hy : y ≠ '{' := fun e => h (by simp [e])
    simp [List.isPrefixOf, Ne.symm hy]

/-- The first step: `%%` between two texts without `%` becomes the sentinel. -/
theorem replaceAll_percent (l r : Str) (hl : '%' ∉ l) (hr : '%' ∉ r) :
    replaceAll (l ++ "%%".toList ++ r) "%%".toList sentinel = l ++ sentinel ++ r := by
  have e : "%%".toList = '%' :: ['%'] := rfl
  have h := replaceAllAux_insert '%' ['%'] sentinel r l (fun l1 c l2 hl12 => by
    have hc : c ≠ '%' := fun hc => hl (by rw [hl12, hc]; simp)
    have := percent_no_match c l2 (('%' :: ['%']) ++ r) hc
    rwa [e] at this)
  rw [replaceAllAux_of_absent _ _ r (not_infix_of_not_mem hr)] at h
  simp only [replaceAll, e, List.cons_ne_nil, if_false, List.append_assoc]
  simpa using h

/-- The fourth step: the sentinel between two texts without `{` becomes `%`. -/
theorem replaceAll_sentinel (l r : Str) (hl : '{' ∉ l) (hr : '{' ∉ r) :
    replaceAll (l ++ sentinel ++ r) sentinel "%".toList = l ++ "%".toList ++ r := by
  have e : sentinel = ':' :: ':' :: '{' :: "PERCENT\x7d::".toList := rfl
  have hni : ¬ sentinel <:+: r := fun hi => hr (hi.subset (by decide))
  have h := replaceAllAux_insert ':' (':' :: '{' :: "PERCENT\x7d::".toList) "%".toList r l
    (fun l1 c l2 hl12 => by
      have hc : '{' ∉ c :: l2 := fun hc => hl (by rw [hl12]; simp [hc])
      have := sentinel_no_match c l2 r hc
      rwa [e] at this)
  rw [← e, replaceAllAux_of_absent _ _ r hni] at h
  have hs : sentinel ≠ [] := by decide
  simp only [replaceAll, hs, if_false, List.append_assoc]
  exact h

theorem sentinel_noPercent : '%' ∉ sentinel := by decide

/-- C5 (amended): `%%` between two texts without `%`, backslash and `{` is rendered
as one `%`, for every quote whose three timestamps parse. -/
theorem mainFormat_percent (c : Coin) (cur l r : Str) (hc : c.timesOK)
    (hl : '%' ∉ l ∧ '\\' ∉ l ∧ '{' ∉ l) (hr : '%' ∉ r ∧ '\\' ∉ r ∧ '{' ∉ r) :
    mainFormat c cur (l ++ "%%".toList ++ r) = some (l ++ "%".toList ++ r) := by
  have hin : '%' ∉ l ++ sentinel ++ r := by
    simp only [List.mem_append, not_or]
    exact ⟨⟨hl.1, sentinel_noPercent⟩, hr.1⟩
  have hout : '\\' ∉ l ++ "%".toList ++ r := by
    simp only [List.mem_append, not_or]
    exact ⟨⟨hl.2.1, by decide⟩, hr.2.1⟩
  have e1 : "%1D:".toList = '%' :: "1D:".toList := rfl
  have e2 : "%7D:".toList = '%' :: "7D:".toList := rfl
  have e3 : "%30D:".toList = '%' :: "30D:".toList := rfl
  have e4 : "%365D:".toList = '%' :: "365D:".toList := rfl
  have e5 : "%YTD:".toList = '%' :: "YTD:".toList := rfl
  unfold mainFormat
  rw [replaceAll_percent l r hl.1 hr.1]
  simp only [e1, e2, e3, e4, e5, parseDay_of_not_mem _ _ _ hin, andThen_some,
    parse_of_not_mem c _ cur hc hin, replaceAll_sentinel l r hl.2.2 hr.2.2,
    escape_of_not_mem _ _ hout]

/-- C5 (witness): the theorem at the template `100%% up` of scenario S6. -/
theorem mainFormat_percent_witness :
    exampleCoin.timesOK ∧
      ('%' ∉ "100".toList ∧ '\\' ∉ "100".toList ∧ '{' ∉ "100".toList) ∧
      ('%' ∉ " up".toList ∧ '\\' ∉ " up".toList ∧ '{' ∉ " up".toList) ∧
      mainFormat exampleCoin "CAD".toList ("100".toList ++ "%%".toList ++ " up".toList) =
        some ("100".toList ++ "%".toList ++ " up".toList) :=
  ⟨exampleCoin_timesOK, by decide, by decide,
    mainFormat_percent exampleCoin "CAD".toList "100".toList " up".toList exampleCoin_timesOK
      (by decide) (by decide)⟩

/-- C5 (counterexample): with `L` the text `::{PERCENT}::`, which holds no `%` and
no backslash, the template `L%%` is rendered `%%` and not `L%`. -/
theorem mainFormat_percent_counterexample :
    '%' ∉ "::{PERCENT}::".toList ∧ '\\' ∉ "::{PERCENT}::".toList ∧
      mainFormat exampleCoin "CAD".toList ("::{PERCENT}::".toList ++ "%%".toList ++ []) =
        some "%%".toList ∧
      mainFormat exampleCoin "CAD".toList ("::{PERCENT}::".toList ++ "%%".toList ++ []) ≠
        some ("::{PERCENT}::".toList ++ "%".toList ++ []) := by
  decide!

/-! ## The indicator of a window -/

theorem parseDay_indicator_1d (day : D) :
    parseDay "%1D:".toList day "%1D:C".toList = some (good day) := by
  have h : parseDay "%1D:".toList day "%1D:C".toList = some (good day ++ []) := rfl
  rw [h, List.append_nil]

theorem parseDay_indicator_7d (day : D) :
    parseDay "%7D:".toList day "%7D:C".toList = some (good day) := by
  have h : parseDay "%7D:".toList day "%7D:C".toList = some (good day ++ []) := rfl
  rw [h, List.append_nil]

theorem parseDay_indicator_30d (day : D) :
    parseDay "%30D:".toList day "%30D:C".toList = some (good day) := by
  have h : parseDay "%30D:".toList day "%30D:C".toList = some (good day ++ []) := rfl
  rw [h, List.append_nil]

theorem parseDay_indicator_365d (day : D) :
    parseDay "%365D:".toList day "%365D:C".toList = some (good day) := by
  have h : parseDay "%365D:".toList day "%365D:C".toList = some (good day ++ []) := rfl
  rw [h, List.append_nil]

theorem parseDay_indicator_ytd (day : D) :
    parseDay "%YTD:".toList day "%YTD:C".toList = some (good day) := by
  have h : parseDay "%YTD:".toList day "%YTD:C".toList = some (good day ++ []) := rfl
  rw [h, List.append_nil]

/-- C8 (amended): for each window prefix the bare indicator directive is the glyph
of line 174 (U+F0D7) exactly when the float64 that `ParseFloat` returns for
`price_change`, with or without an error, is below zero, and the glyph of line 172
(U+F0D8) otherwise; the two glyphs are different one-character strings. -/
theorem parseDay_indicator (day : D) :
    (parseDay "%1D:".toList day "%1D:C".toList =
        some (if (parseFloat day.PriceChange).1.ltZero then glyphDown else glyphUp) ∧
      parseDay "%7D:".toList day "%7D:C".toList =
        some (if (parseFloat day.PriceChange).1.ltZero then glyphDown else glyphUp) ∧
      parseDay "%30D:".toList day "%30D:C".toList =
        some (if (parseFloat day.PriceChange).1.ltZero then glyphDown else glyphUp) ∧
      parseDay "%365D:".toList day "%365D:C".toList =
        some (if (parseFloat day.PriceChange).1.ltZero then glyphDown else glyphUp) ∧
      parseDay "%YTD:".toList day "%YTD:C".toList =
        some (if (parseFloat day.PriceChange).1.ltZero then glyphDown else glyphUp)) ∧
      glyphUp ≠ glyphDown ∧ glyphUp.length = 1 ∧ glyphDown.length = 1 :=
  ⟨⟨parseDay_indicator_1d day, parseDay_indicator_7d day, parseDay_indicator_30d day,
    parseDay_indicator_365d day, parseDay_indicator_ytd day⟩, by decide, rfl, rfl⟩

/-- C8 (counterexample): `-1e999` is a parse failure (a range error), and the
indicator is the down glyph, not the up glyph. -/
theorem parseDay_indicator_counterexample :
    (parseFloat "-1e999".toList).2 = true ∧
      parseDay "%1D:".toList { exampleDay with PriceChange := "-1e999".toList } "%1D:C".toList =
        some glyphDown ∧
      parseDay "%1D:".toList { exampleDay with PriceChange := "-1e999".toList } "%1D:C".toList ≠
        some glyphUp := by
  decide!

/-! ## Bare directives -/

/-- The end of the pipeline when some window pass or root pass has produced a
text `v` that holds no `%`, no backslash and no sentinel. -/
theorem mainFormat_root (c : Coin) (cur f v : Str)
    (h0 : replaceAll f "%%".toList sentinel = f)
    (h1 : parseDay "%1D:".toList c.D1 f = some f) (h2 : parseDay "%7D:".toList c.D7 f = some f)
    (h3 : parseDay "%30D:".toList c.D30 f = some f)
    (h4 : parseDay "%365D:".toList c.D365 f = some f)
    (h5 : parseDay "%YTD:".toList c.YTD f = some f) (hp : parse c f cur = some v)
    (hv2 : '\\' ∉ v) (hv3 : ¬ sentinel <:+: v) : mainFormat c cur f = some v := by
  have hs : sentinel ≠ [] := by decide
  simp only [mainFormat, h0, h1, h2, h3, h4, h5, hp, andThen_some,
    replaceAll_of_absent v sentinel _ hs hv3, escape_of_not_mem _ v hv2]

theorem parseTime_eval (format pre post value : Str) (r : Option Str)
    (hv : (timeParse value).isSome)
    (h : ∀ t, (timeRe pre post).replaceAllStringFunc format (fun val =>
        ((timeRe pre post).findStringSubmatch val).map (fun m => timeFormat t m.2)) = r) :
    parseTime format pre post value = r := by
  obtain ⟨t, ht⟩ := Option.isSome_iff_exists.mp hv
  rw [parseTime_of_parsed _ _ _ _ t ht]
  exact h t

theorem parse_logo (c : Coin) (cur : Str) (hc : c.timesOK) (hv : '%' ∉ c.LogoURL) :
    parse c "%L".toList cur = some c.LogoURL := by
  have a1 := parseTime_eval "%L".toList "%".toList "HT".toList c.HighTimestamp
    (some "%L".toList) hc.1 (fun _ => rfl)
  have a2 : ∀ v, parsePad false "%L".toList "%".toList "MC".toList v = some "%L".toList :=
    fun _ => rfl
  have a3 : ∀ v, parsePad false "%L".toList "%".toList "CS".toList v = some "%L".toList :=
    fun _ => rfl
  have a4 : ∀ v, parsePad true "%L".toList "%".toList "H".toList v = some "%L".toList :=
    fun _ => rfl
  have a5 : ∀ v, parsePad false "%L".toList "%".toList "M".toList v = some "%L".toList :=
    fun _ => rfl
  have a6 := parseTime_eval "%L".toList "%".toList "T".toList c.PriceTimestamp
    (some "%L".toList) hc.2.1 (fun _ => rfl)
  have a7 := parseTime_eval "%L".toList "%".toList "D".toList c.PriceDate
    (some "%L".toList) hc.2.2 (fun _ => rfl)
  have a8 : ∀ v, parsePad true "%L".toList "%".toList "P".toList v = some "%L".toList :=
    fun _ => rfl
  have a9 : ∀ v, parsePad false "%L".toList "%".toList "L".toList v = some (v ++ []) :=
    fun _ => rfl
  have e : "%".toList = '%' :: [] := rfl
  simp only [parse, a1, a2, a3, a4, a5, a6, a7, a8, a9, andThen_some, List.append_nil]
  simp only [e, parsePad_of_not_mem _ c.LogoURL [] _ _ hv, andThen_some]

/-- C10 (amended): the bare `%L` is rendered as `logo_url` itself when that value
holds no `%`, no backslash and not the sentinel text, for every quote whose three
timestamps parse. -/
theorem mainFormat_logo (c : Coin) (cur : Str) (hc : c.timesOK) (h1 : '%' ∉ c.LogoURL)
    (h2 : '\\' ∉ c.LogoURL) (h3 : ¬ sentinel <:+: c.LogoURL) :
    mainFormat c cur "%L".toList = some c.LogoURL :=
  mainFormat_root c cur "%L".toList c.LogoURL rfl rfl rfl rfl rfl rfl (parse_logo c cur hc h1)
    h2 h3

/-- C10 (witness): the theorem at the quote of the usage text. -/
theorem mainFormat_logo_witness :
    exampleCoin.timesOK ∧ '%' ∉ exampleCoin.LogoURL ∧ '\\' ∉ exampleCoin.LogoURL ∧
      ¬ sentinel <:+: exampleCoin.LogoURL ∧
      mainFormat exampleCoin "CAD".toList "%L".toList = some exampleCoin.LogoURL :=
  ⟨exampleCoin_timesOK, by decide, by decide, by decide,
    mainFormat_logo exampleCoin "CAD".toList exampleCoin_timesOK (by decide) (by decide)
      (by decide)⟩

/-- C10 (counterexample): with a `logo_url` that holds the URL-encoded text
`%20Icon`, the pass of `%I` rewrites `%20I` inside the substituted value. -/
theorem mainFormat_logo_counterexample :
    (timeParse exampleCoin.HighTimestamp).isSome = true ∧
      (timeParse exampleCoin.PriceTimestamp).isSome = true ∧
      (timeParse exampleCoin.PriceDate).isSome = true ∧
      mainFormat { exampleCoin with LogoURL := "https://x.io/My%20Icon.png".toList }
          "CAD".toList "%L".toList =
        some "https://x.io/My                 BTCcon.png".toList ∧
      mainFormat { exampleCoin with LogoURL := "https://x.io/My%20Icon.png".toList }
          "CAD".toList "%L".toList ≠
        some "https://x.io/My%20Icon.png".toList := by
  decide!

/-! ## Plain decimal numerals -/

theorem plainNumeral_chars (s : Str) (h : isPlainNumeral s = true) :
    ∀ c ∈ s, c = '-' ∨ c = '.' ∨ isDigit c = true := by
  have hbody : ∀ body : Str,
      (match body.dropWhile isDigit with
        | [] => true
        | c :: cs => c == '.' && cs.all isDigit) = true →
      ∀ c ∈ body, c = '.' ∨ isDigit c = true := by
    intro body hb c hc
    rw [← List.takeWhile_append_dropWhile isDigit body] at hc
    rcases List.mem_append.mp hc with h1 | h1
    · exact Or.inr (List.mem_takeWhile_imp h1)
    · cases hd : body.dropWhile isDigit with
      | nil => rw [hd] at h1; cases h1
      | cons d ds =>
        rw [hd] at h1 hb
        simp only [Bool.and_eq_true, beq_iff_eq, List.all_eq_true] at hb
        rcases List.mem_cons.mp h1 with e | e
        · exact Or.inl (e.trans hb.1)
        · exact Or.inr (hb.2 c e)
  intro c hc
  unfold isPlainNumeral at h
  simp only at h
  by_cases hm : s.head? = some '-'
  · rw [if_pos hm] at h
    cases s with
    | nil => cases hc
    | cons a t =>
      simp only [List.head?_cons, Option.some.injEq] at hm
      rcases List.mem_cons.mp hc with e | e
      · exact Or.inl (e.trans hm)
      · exact Or.inr (hbody t h c e)
  · rw [if_neg hm] at h
    exact Or.inr (hbody s h c hc)

theorem plainNumeral_inert (s : Str) (h : isPlainNumeral s = true) :
    '%' ∉ s ∧ '\\' ∉ s ∧ ':' ∉ s := by
  have key : ∀ x : Char, x ≠ '-' → x ≠ '.' → isDigit x = false → x ∉ s := by
    intro x h1 h2 h3 hx
    rcases plainNumeral_chars s h x hx with e | e | e
    · exact h1 e
    · exact h2 e
    · rw [h3] at e; cases e
  exact ⟨key '%' (by decide) (by decide) (by decide), key '\\' (by decide) (by decide)
    (by decide), key ':' (by decide) (by decide) (by decide)⟩

theorem not_sentinel_of_no_colon (s : Str) (h : ':' ∉ s) : ¬ sentinel <:+: s :=
  fun hi => h (hi.subset (by decide))

/-! ## A pass on a text whose only `%` is its first character -/

theorem regexp_replaceAll_head (re : Regexp) (ns : List Node) (hre : re.pre = lit '%' :: ns)
    (repl : Str → Option Str) (r : Str) (hr : '%' ∉ r) (hm : (re.matchAt ('%' :: r)).isNone) :
    re.replaceAllStringFunc ('%' :: r) repl = some ('%' :: r) := by
  have hn : re.matchAt ('%' :: r) = none := Option.isNone_iff_eq_none.mp hm
  simp only [Regexp.replaceAllStringFunc, Regexp.replaceAllAux, hn,
    regexp_replaceAllAux_of_not_mem re '%' ns hre repl r hr, Option.map_some']

theorem replaceAll_head (p v r : Str) (hr : '%' ∉ r) (hp : p.isPrefixOf r = false) :
    replaceAll ('%' :: r) ('%' :: p) v = '%' :: r := by
  have h1 : ('%' :: p).isPrefixOf ('%' :: r) = false := by
    simp only [List.isPrefixOf, beq_self_eq_true, Bool.true_and, hp]
  simp only [replaceAll, List.cons_ne_nil, if_false, replaceAllAux, h1, Bool.false_eq_true,
    replaceAllAux_of_absent _ _ r (not_infix_of_not_mem hr)]

theorem parsePad_head_idle (fl : Bool) (p post v r : Str) (hr : '%' ∉ r)
    (h : padIdle fl p post r = true) :
    parsePad fl ('%' :: r) ('%' :: p) post v = some ('%' :: r) := by
  simp only [padIdle, Bool.and_eq_true, Bool.not_eq_true'] at h
  obtain ⟨hm, hp⟩ := h
  cases fl
  · simp only [Bool.false_eq_true, if_false] at hm
    simp only [parsePad, Bool.false_eq_true, if_false,
      regexp_replaceAll_head (padRe ('%' :: p) post) (compileLit p)
        (by simp [padRe, compileLit_percent]) _ r hr hm, Option.map_some',
      List.cons_append, replaceAll_head (p ++ post) v r hr hp]
  · simp only [if_true] at hm
    simp only [parsePad, if_true,
      regexp_replaceAll_head (floatRe ('%' :: p) post) (compileLit p)
        (by simp [floatRe, compileLit_percent]) _ r hr hm, Option.map_some',
      List.cons_append, replaceAll_head (p ++ post) v r hr hp]

/-- When `'%' :: r` starts with the bare directive and the pattern does not match
there, the directive is replaced by the value. -/
theorem parsePad_head_bare (fl : Bool) (p post v r : Str) (hp : '%' ∉ p ++ post)
    (hr : '%' ∉ r)
    (hm : ((if fl then floatRe ('%' :: p) post else padRe ('%' :: p) post).matchAt
      ('%' :: (p ++ post ++ r))).isNone = true) :
    parsePad fl ('%' :: (p ++ post ++ r)) ('%' :: p) post v = some (v ++ r) := by
  have hall : '%' ∉ p ++ post ++ r := by
    intro h
    rcases List.mem_append.mp h with h | h
    · exact hp h
    · exact hr h
  have hrep : replaceAll ('%' :: (p ++ post ++ r)) ('%' :: p ++ post) v = v ++ r := by
    have h := replaceAllAux_self '%' (p ++ post) v r
    rw [replaceAllAux_of_absent _ _ r (not_infix_of_not_mem hr)] at h
    simp only [replaceAll, List.cons_append, List.cons_ne_nil, if_false]
    simpa using h
  cases fl
  · simp only [Bool.false_eq_true, if_false] at hm
    simp only [parsePad, Bool.false_eq_true, if_false,
      regexp_replaceAll_head (padRe ('%' :: p) post) (compileLit p)
        (by simp [padRe, compileLit_percent]) _ _ hall hm, Option.map_some', hrep]
  · simp only [if_true] at hm
    simp only [parsePad, if_true,
      regexp_replaceAll_head (floatRe ('%' :: p) post) (compileLit p)
        (by simp [floatRe, compileLit_percent]) _ _ hall hm, Option.map_some', hrep]

theorem parseTime_head_idle (post v r : Str) (hv : (timeParse v).isSome) (hr : '%' ∉ r)
    (h : timeIdle post r = true) : parseTime ('%' :: r) ['%'] post v = some ('%' :: r) := by
  obtain ⟨t, ht⟩ := Option.isSome_iff_exists.mp hv
  rw [parseTime_of_parsed _ _ _ _ t ht]
  exact regexp_replaceAll_head (timeRe ['%'] post) (compileLit [] ++ [lit '{'])
    (by simp [timeRe, compileLit_percent]) _ r hr h

theorem parseDay_head_idle (p : Str) (day : D) (r : Str) (hr : '%' ∉ r)
    (h : dayIdle p r = true) : parseDay ('%' :: p) day ('%' :: r) = some ('%' :: r) := by
  simp only [dayIdle, Bool.and_eq_true] at h
  obtain ⟨⟨⟨⟨⟨⟨⟨h1, h2⟩, h3⟩, h4⟩, h5⟩, h6⟩, h7⟩, h8⟩ := h
  simp only [parseDay, parsePad_head_idle _ p _ _ r hr h1, parsePad_head_idle _ p _ _ r hr h2,
    parsePad_head_idle _ p _ _ r hr h3, parsePad_head_idle _ p _ _ r hr h4,
    parsePad_head_idle _ p _ _ r hr h5, parsePad_head_idle _ p _ _ r hr h6,
    parsePad_head_idle _ p _ _ r hr h7, parsePad_head_idle _ p _ _ r hr h8, andThen_some]

/-- The pipeline from the results of its steps: the five window passes, the root
pass, and a final text without backslash and sentinel. -/
theorem mainFormat_steps (c : Coin) (cur f f1 f2 f3 f4 f5 v : Str)
    (h0 : replaceAll f "%%".toList sentinel = f)
    (h1 : parseDay "%1D:".toList c.D1 f = some f1)
    (h2 : parseDay "%7D:".toList c.D7 f1 = some f2)
    (h3 : parseDay "%30D:".toList c.D30 f2 = some f3)
    (h4 : parseDay "%365D:".toList c.D365 f3 = some f4)
    (h5 : parseDay "%YTD:".toList c.YTD f4 = some f5) (hp : parse c f5 cur = some v)
    (hv2 : '\\' ∉ v) (hv3 : ¬ sentinel <:+: v) : mainFormat c cur f = some v := by
  have hs : sentinel ≠ [] := by decide
  simp only [mainFormat, h0, h1, h2, h3, h4, h5, hp, andThen_some,
    replaceAll_of_absent v sentinel _ hs hv3, escape_of_not_mem _ v hv2]

/-! ## The longer suffix wins -/

theorem parseDay_bare_PP (p : Str) (day : D)
    (h1 : ∀ v, parsePad true ('%' :: p ++ "PP".toList) ('%' :: p) "PP".toList v =
      some (v ++ []))
    (hv : '%' ∉ day.PriceChangePCT) :
    parseDay ('%' :: p) day ('%' :: p ++ "PP".toList) = some day.PriceChangePCT := by
  simp only [parseDay, h1, andThen_some, List.append_nil,
    parsePad_of_not_mem _ _ p _ _ hv]

theorem parseDay_bare_VC (p : Str) (day : D)
    (h1 : ∀ v, parsePad true ('%' :: p ++ "VC".toList) ('%' :: p) "PP".toList v =
      some ('%' :: p ++ "VC".toList))
    (h2 : ∀ v, parsePad true ('%' :: p ++ "VC".toList) ('%' :: p) "VC".toList v =
      some (v ++ []))
    (hv : '%' ∉ day.VolumeChange) :
    parseDay ('%' :: p) day ('%' :: p ++ "VC".toList) = some day.VolumeChange := by
  simp only [parseDay, h1, h2, andThen_some, List.append_nil,
    parsePad_of_not_mem _ _ p _ _ hv]

theorem parseDay_bare_VP (p : Str) (day : D)
    (h1 : ∀ v, parsePad true ('%' :: p ++ "VP".toList) ('%' :: p) "PP".toList v =
      some ('%' :: p ++ "VP".toList))
    (h2 : ∀ v, parsePad true ('%' :: p ++ "VP".toList) ('%' :: p) "VC".toList v =
      some ('%' :: p ++ "VP".toList))
    (h3 : ∀ v, parsePad true ('%' :: p ++ "VP".toList) ('%' :: p) "VP".toList v =
      some (v ++ []))
    (hv : '%' ∉ day.VolumeChangePCT) :
    parseDay ('%' :: p) day ('%' :: p ++ "VP".toList) = some day.VolumeChangePCT := by
  simp only [parseDay, h1, h2, h3, andThen_some, List.append_nil,
    parsePad_of_not_mem _ _ p _ _ hv]

theorem parseDay_bare_MP (p : Str) (day : D)
    (h1 : ∀ v, parsePad true ('%' :: p ++ "MP".toList) ('%' :: p) "PP".toList v =
      some ('%' :: p ++ "MP".toList))
    (h2 : ∀ v, parsePad true ('%' :: p ++ "MP".toList) ('%' :: p) "VC".toList v =
      some ('%' :: p ++ "MP".toList))
    (h3 : ∀ v, parsePad true ('%' :: p ++ "MP".toList) ('%' :: p) "VP".toList v =
      some ('%' :: p ++ "MP".toList))
    (h4 : ∀ v, parsePad true ('%' :: p ++ "MP".toList) ('%' :: p) "MP".toList v =
      some (v ++ []))
    (hv : '%' ∉ day.MarketCapChangePCT) :
    parseDay ('%' :: p) day ('%' :: p ++ "MP".toList) = some day.MarketCapChangePCT := by
  simp only [parseDay, h1, h2, h3, h4, andThen_some, List.append_nil,
    parsePad_of_not_mem _ _ p _ _ hv]

theorem parse_bare_MC (c : Coin) (cur : Str) (hc : c.timesOK) (hv : '%' ∉ c.MarketCap) :
    parse c "%MC".toList cur = some c.MarketCap := by
  have a1 := parseTime_eval "%MC".toList "%".toList "HT".toList c.HighTimestamp
    (some "%MC".toList) hc.1 (fun _ => rfl)
  have a2 : ∀ v, parsePad false "%MC".toList "%".toList "MC".toList v = some (v ++ []) :=
    fun _ => rfl
  have e : "%".toList = '%' :: [] := rfl
  simp only [parse, a1, a2, andThen_some, List.append_nil]
  simp only [e, parsePad_of_not_mem _ c.MarketCap [] _ _ hv,
    parseTime_of_not_mem c.MarketCap [] _ _ hc.2.1 hv,
    parseTime_of_not_mem c.MarketCap [] _ _ hc.2.2 hv, andThen_some]

theorem parse_bare_CS (c : Coin) (cur : Str) (hc : c.timesOK)
    (hv : '%' ∉ c.CirculatingSupply) :
    parse c "%CS".toList cur = some c.CirculatingSupply := by
  have a1 := parseTime_eval "%CS".toList "%".toList "HT".toList c.HighTimestamp
    (some "%CS".toList) hc.1 (fun _ => rfl)
  have a2 : ∀ v, parsePad false "%CS".toList "%".toList "MC".toList v = some "%CS".toList :=
    fun _ => rfl
  have a3 : ∀ v, parsePad false "%CS".toList "%".toList "CS".toList v = some (v ++ []) :=
    fun _ => rfl
  have e : "%".toList = '%' :: [] := rfl
  simp only [parse, a1, a2, a3, andThen_some, List.append_nil]
  simp only [e, parsePad_of_not_mem _ c.CirculatingSupply [] _ _ hv,
    parseTime_of_not_mem c.CirculatingSupply [] _ _ hc.2.1 hv,
    parseTime_of_not_mem c.CirculatingSupply [] _ _ hc.2.2 hv, andThen_some]

theorem mainFormat_bare_MC (c : Coin) (cur : Str) (hc : c.timesOK)
    (hn : isPlainNumeral c.MarketCap = true) :
    mainFormat c cur "%MC".toList = some c.MarketCap :=
  have hi := plainNumeral_inert _ hn
  mainFormat_steps c cur _ _ _ _ _ _ _ rfl rfl rfl rfl rfl rfl (parse_bare_MC c cur hc hi.1)
    hi.2.1 (not_sentinel_of_no_colon _ hi.2.2)

theorem mainFormat_bare_CS (c : Coin) (cur : Str) (hc : c.timesOK)
    (hn : isPlainNumeral c.CirculatingSupply = true) :
    mainFormat c cur "%CS".toList = some c.CirculatingSupply :=
  have hi := plainNumeral_inert _ hn
  mainFormat_steps c cur _ _ _ _ _ _ _ rfl rfl rfl rfl rfl rfl (parse_bare_CS c cur hc hi.1)
    hi.2.1 (not_sentinel_of_no_colon _ hi.2.2)

theorem mainFormat_bare_1d_PP (c : Coin) (cur : Str) (hc : c.timesOK)
    (hn : isPlainNumeral c.D1.PriceChangePCT = true) :
    mainFormat c cur "%1D:PP".toList = some c.D1.PriceChangePCT :=
  have hi := plainNumeral_inert _ hn
  mainFormat_steps c cur ("%1D:PP".toList) (c.D1.PriceChangePCT) (c.D1.PriceChangePCT) (c.D1.PriceChangePCT) (c.D1.PriceChangePCT) (c.D1.PriceChangePCT) c.D1.PriceChangePCT rfl
    (parseDay_bare_PP "1D:".toList c.D1 (fun _ => rfl) hi.1)
    (parseDay_of_not_mem "7D:".toList c.D7 c.D1.PriceChangePCT hi.1)
    (parseDay_of_not_mem "30D:".toList c.D30 c.D1.PriceChangePCT hi.1)
    (parseDay_of_not_mem "365D:".toList c.D365 c.D1.PriceChangePCT hi.1)
    (parseDay_of_not_mem "YTD:".toList c.YTD c.D1.PriceChangePCT hi.1)
    (parse_of_not_mem c _ cur hc hi.1) hi.2.1 (not_sentinel_of_no_colon _ hi.2.2)

theorem mainFormat_bare_1d_VC (c : Coin) (cur : Str) (hc : c.timesOK)
    (hn : isPlainNumeral c.D1.VolumeChange = true) :
    mainFormat c cur "%1D:VC".toList = some c.D1.VolumeChange :=
  have hi := plainNumeral_inert _ hn
  mainFormat_steps c cur ("%1D:VC".toList) (c.D1.VolumeChange) (c.D1.VolumeChange) (c.D1.VolumeChange) (c.D1.VolumeChange) (c.D1.VolumeChange) c.D1.VolumeChange rfl
    (parseDay_bare_VC "1D:".toList c.D1 (fun _ => rfl) (fun _ => rfl) hi.1)
    (parseDay_of_not_mem "7D:".toList c.D7 c.D1.VolumeChange hi.1)
    (parseDay_of_not_mem "30D:".toList c.D30 c.D1.VolumeChange hi.1)
    (parseDay_of_not_mem "365D:".toList c.D365 c.D1.VolumeChange hi.1)
    (parseDay_of_not_mem "YTD:".toList c.YTD c.D1.VolumeChange hi.1)
    (parse_of_not_mem c _ cur hc hi.1) hi.2.1 (not_sentinel_of_no_colon _ hi.2.2)

theorem mainFormat_bare_1d_VP (c : Coin) (cur : Str) (hc : c.timesOK)
    (hn : isPlainNumeral c.D1.VolumeChangePCT = true) :
    mainFormat c cur "%1D:VP".toList = some c.D1.VolumeChangePCT :=
  have hi := plainNumeral_inert _ hn
  mainFormat_steps c cur ("%1D:VP".toList) (c.D1.VolumeChangePCT) (c.D1.VolumeChangePCT) (c.D1.VolumeChangePCT) (c.D1.VolumeChangePCT) (c.D1.VolumeChangePCT) c.D1.VolumeChangePCT rfl
    (parseDay_bare_VP "1D:".toList c.D1 (fun _ => rfl) (fun _ => rfl) (fun _ => rfl) hi.1)
    (parseDay_of_not_mem "7D:".toList c.D7 c.D1.VolumeChangePCT hi.1)
    (parseDay_of_not_mem "30D:".toList c.D30 c.D1.VolumeChangePCT hi.1)
    (parseDay_of_not_mem "365D:".toList c.D365 c.D1.VolumeChangePCT hi.1)
    (parseDay_of_not_mem "YTD:".toList c.YTD c.D1.VolumeChangePCT hi.1)
    (parse_of_not_mem c _ cur hc hi.1) hi.2.1 (not_sentinel_of_no_colon _ hi.2.2)

theorem mainFormat_bare_1d_MP (c : Coin) (cur : Str) (hc : c.timesOK)
    (hn : isPlainNumeral c.D1.MarketCapChangePCT = true) :
    mainFormat c cur "%1D:MP".toList = some c.D1.MarketCapChangePCT :=
  have hi := plainNumeral_inert _ hn
  mainFormat_steps c cur ("%1D:MP".toList) (c.D1.MarketCapChangePCT) (c.D1.MarketCapChangePCT) (c.D1.MarketCapChangePCT) (c.D1.MarketCapChangePCT) (c.D1.MarketCapChangePCT) c.D1.MarketCapChangePCT rfl
    (parseDay_bare_MP "1D:".toList c.D1 (fun _ => rfl) (fun _ => rfl) (fun _ => rfl) (fun _ => rfl) hi.1)
    (parseDay_of_not_mem "7D:".toList c.D7 c.D1.MarketCapChangePCT hi.1)
    (parseDay_of_not_mem "30D:".toList c.D30 c.D1.MarketCapChangePCT hi.1)
    (parseDay_of_not_mem "365D:".toList c.D365 c.D1.MarketCapChangePCT hi.1)
    (parseDay_of_not_mem "YTD:".toList c.YTD c.D1.MarketCapChangePCT hi.1)
    (parse_of_not_mem c _ cur hc hi.1) hi.2.1 (not_sentinel_of_no_colon _ hi.2.2)

theorem mainFormat_bare_7d_PP (c : Coin) (cur : Str) (hc : c.timesOK)
    (hn : isPlainNumeral c.D7.PriceChangePCT = true) :
    mainFormat c cur "%7D:PP".toList = some c.D7.PriceChangePCT :=
  have hi := plainNumeral_inert _ hn
  mainFormat_steps c cur ("%7D:PP".toList) ("%7D:PP".toList) (c.D7.PriceChangePCT) (c.D7.PriceChangePCT) (c.D7.PriceChangePCT) (c.D7.PriceChangePCT) c.D7.PriceChangePCT rfl
    rfl
    (parseDay_bare_PP "7D:".toList c.D7 (fun _ => rfl) hi.1)
    (parseDay_of_not_mem "30D:".toList c.D30 c.D7.PriceChangePCT hi.1)
    (parseDay_of_not_mem "365D:".toList c.D365 c.D7.PriceChangePCT hi.1)
    (parseDay_of_not_mem "YTD:".toList c.YTD c.D7.PriceChangePCT hi.1)
    (parse_of_not_mem c _ cur hc hi.1) hi.2.1 (not_sentinel_of_no_colon _ hi.2.2)

theorem mainFormat_bare_7d_VC (c : Coin) (cur : Str) (hc : c.timesOK)
    (hn : isPlainNumeral c.D7.VolumeChange = true) :
    mainFormat c cur "%7D:VC".toList = some c.D7.VolumeChange :=
  have hi := plainNumeral_inert _ hn
  mainFormat_steps c cur ("%7D:VC".toList) ("%7D:VC".toList) (c.D7.VolumeChange) (c.D7.VolumeChange) (c.D7.VolumeChange) (c.D7.VolumeChange) c.D7.VolumeChange rfl
    rfl
    (parseDay_bare_VC "7D:".toList c.D7 (fun _ => rfl) (fun _ => rfl) hi.1)
    (parseDay_of_not_mem "30D:".toList c.D30 c.D7.VolumeChange hi.1)
    (parseDay_of_not_mem "365D:".toList c.D365 c.D7.VolumeChange hi.1)
    (parseDay_of_not_mem "YTD:".toList c.YTD c.D7.VolumeChange hi.1)
    (parse_of_not_mem c _ cur hc hi.1) hi.2.1 (not_sentinel_of_no_colon _ hi.2.2)

theorem mainFormat_bare_7d_VP (c : Coin) (cur : Str) (hc : c.timesOK)
    (hn : isPlainNumeral c.D7.VolumeChangePCT = true) :
    mainFormat c cur "%7D:VP".toList = some c.D7.VolumeChangePCT :=
  have hi := plainNumeral_inert _ hn
  mainFormat_steps c cur ("%7D:VP".toList) ("%7D:VP".toList) (c.D7.VolumeChangePCT) (c.D7.VolumeChangePCT) (c.D7.VolumeChangePCT) (c.D7.VolumeChangePCT) c.D7.VolumeChangePCT rfl
    rfl
    (parseDay_bare_VP "7D:".toList c.D7 (fun _ => rfl) (fun _ => rfl) (fun _ => rfl) hi.1)
    (parseDay_of_not_mem "30D:".toList c.D30 c.D7.VolumeChangePCT hi.1)
    (parseDay_of_not_mem "365D:".toList c.D365 c.D7.VolumeChangePCT hi.1)
    (parseDay_of_not_mem "YTD:".toList c.YTD c.D7.VolumeChangePCT hi.1)
    (parse_of_not_mem c _ cur hc hi.1) hi.2.1 (not_sentinel_of_no_colon _ hi.2.2)

theorem mainFormat_bare_7d_MP (c : Coin) (cur : Str) (hc : c.timesOK)
    (hn : isPlainNumeral c.D7.MarketCapChangePCT = true) :
    mainFormat c cur "%7D:MP".toList = some c.D7.MarketCapChangePCT :=
  have hi := plainNumeral_inert _ hn
  mainFormat_steps c cur ("%7D:MP".toList) ("%7D:MP".toList) (c.D7.MarketCapChangePCT) (c.D7.MarketCapChangePCT) (c.D7.MarketCapChangePCT) (c.D7.MarketCapChangePCT) c.D7.MarketCapChangePCT rfl
    rfl
    (parseDay_bare_MP "7D:".toList c.D7 (fun _ => rfl) (fun _ => rfl) (fun _ => rfl) (fun _ => rfl) hi.1)
    (parseDay_of_not_mem "30D:".toList c.D30 c.D7.MarketCapChangePCT hi.1)
    (parseDay_of_not_mem "365D:".toList c.D365 c.D7.MarketCapChangePCT hi.1)
    (parseDay_of_not_mem "YTD:".toList c.YTD c.D7.MarketCapChangePCT hi.1)
    (parse_of_not_mem c _ cur hc hi.1) hi.2.1 (not_sentinel_of_no_colon _ hi.2.2)

theorem mainFormat_bare_30d_PP (c : Coin) (cur : Str) (hc : c.timesOK)
    (hn : isPlainNumeral c.D30.PriceChangePCT = true) :
    mainFormat c cur "%30D:PP".toList = some c.D30.PriceChangePCT :=
  have hi := plainNumeral_inert _ hn
  mainFormat_steps c cur ("%30D:PP".toList) ("%30D:PP".toList) ("%30D:PP".toList) (c.D30.PriceChangePCT) (c.D30.PriceChangePCT) (c.D30.PriceChangePCT) c.D30.PriceChangePCT rfl
    rfl
    rfl
    (parseDay_bare_PP "30D:".toList c.D30 (fun _ => rfl) hi.1)
    (parseDay_of_not_mem "365D:".toList c.D365 c.D30.PriceChangePCT hi.1)
    (parseDay_of_not_mem "YTD:".toList c.YTD c.D30.PriceChangePCT hi.1)
    (parse_of_not_mem c _ cur hc hi.1) hi.2.1 (not_sentinel_of_no_colon _ hi.2.2)

theorem mainFormat_bare_30d_VC (c : Coin) (cur : Str) (hc : c.timesOK)
    (hn : isPlainNumeral c.D30.VolumeChange = true) :
    mainFormat c cur "%30D:VC".toList = some c.D30.VolumeChange :=
  have hi := plainNumeral_inert _ hn
  mainFormat_steps c cur ("%30D:VC".toList) ("%30D:VC".toList) ("%30D:VC".toList) (c.D30.VolumeChange) (c.D30.VolumeChange) (c.D30.VolumeChange) c.D30.VolumeChange rfl
    rfl
    rfl
    (parseDay_bare_VC "30D:".toList c.D30 (fun _ => rfl) (fun _ => rfl) hi.1)
    (parseDay_of_not_mem "365D:".toList c.D365 c.D30.VolumeChange hi.1)
    (parseDay_of_not_mem "YTD:".toList c.YTD c.D30.VolumeChange hi.1)
    (parse_of_not_mem c _ cur hc hi.1) hi.2.1 (not_sentinel_of_no_colon _ hi.2.2)

theorem mainFormat_bare_30d_VP (c : Coin) (cur : Str) (hc : c.timesOK)
    (hn : isPlainNumeral c.D30.VolumeChangePCT = true) :
    mainFormat c cur "%30D:VP".toList = some c.D30.VolumeChangePCT :=
  have hi := plainNumeral_inert _ hn
  mainFormat_steps c cur ("%30D:VP".toList) ("%30D:VP".toList) ("%30D:VP".toList) (c.D30.VolumeChangePCT) (c.D30.VolumeChangePCT) (c.D30.VolumeChangePCT) c.D30.VolumeChangePCT rfl
    rfl
    rfl
    (parseDay_bare_VP "30D:".toList c.D30 (fun _ => rfl) (fun _ => rfl) (fun _ => rfl) hi.1)
    (parseDay_of_not_mem "365D:".toList c.D365 c.D30.VolumeChangePCT hi.1)
    (parseDay_of_not_mem "YTD:".toList c.YTD c.D30.VolumeChangePCT hi.1)
    (parse_of_not_mem c _ cur hc hi.1) hi.2.1 (not_sentinel_of_no_colon _ hi.2.2)

theorem mainFormat_bare_30d_MP (c : Coin) (cur : Str) (hc : c.timesOK)
    (hn : isPlainNumeral c.D30.MarketCapChangePCT = true) :
    mainFormat c cur "%30D:MP".toList = some c.D30.MarketCapChangePCT :=
  have hi := plainNumeral_inert _ hn
  mainFormat_steps c cur ("%30D:MP".toList) ("%30D:MP".toList) ("%30D:MP".toList) (c.D30.MarketCapChangePCT) (c.D30.MarketCapChangePCT) (c.D30.MarketCapChangePCT) c.D30.MarketCapChangePCT rfl
    rfl
    rfl
    (parseDay_bare_MP "30D:".toList c.D30 (fun _ => rfl) (fun _ => rfl) (fun _ => rfl) (fun _ => rfl) hi.1)
    (parseDay_of_not_mem "365D:".toList c.D365 c.D30.MarketCapChangePCT hi.1)
    (parseDay_of_not_mem "YTD:".toList c.YTD c.D30.MarketCapChangePCT hi.1)
    (parse_of_not_mem c _ cur hc hi.1) hi.2.1 (not_sentinel_of_no_colon _ hi.2.2)

theorem mainFormat_bare_365d_PP (c : Coin) (cur : Str) (hc : c.timesOK)
    (hn : isPlainNumeral c.D365.PriceChangePCT = true) :
    mainFormat c cur "%365D:PP".toList = some c.D365.PriceChangePCT :=
  have hi := plainNumeral_inert _ hn
  mainFormat_steps c cur ("%365D:PP".toList) ("%365D:PP".toList) ("%365D:PP".toList) ("%365D:PP".toList) (c.D365.PriceChangePCT) (c.D365.PriceChangePCT) c.D365.PriceChangePCT rfl
    rfl
    rfl
    rfl
    (parseDay_bare_PP "365D:".toList c.D365 (fun _ => rfl) hi.1)
    (parseDay_of_not_mem "YTD:".toList c.YTD c.D365.PriceChangePCT hi.1)
    (parse_of_not_mem c _ cur hc hi.1) hi.2.1 (not_sentinel_of_no_colon _ hi.2.2)

theorem mainFormat_bare_365d_VC (c : Coin) (cur : Str) (hc : c.timesOK)
    (hn : isPlainNumeral c.D365.VolumeChange = true) :
    mainFormat c cur "%365D:VC".toList = some c.D365.VolumeChange :=
  have hi := plainNumeral_inert _ hn
  mainFormat_steps c cur ("%365D:VC".toList) ("%365D:VC".toList) ("%365D:VC".toList) ("%365D:VC".toList) (c.D365.VolumeChange) (c.D365.VolumeChange) c.D365.VolumeChange rfl
    rfl
    rfl
    rfl
    (parseDay_bare_VC "365D:".toList c.D365 (fun _ => rfl) (fun _ => rfl) hi.1)
    (parseDay_of_not_mem "YTD:".toList c.YTD c.D365.VolumeChange hi.1)
    (parse_of_not_mem c _ cur hc hi.1) hi.2.1 (not_sentinel_of_no_colon _ hi.2.2)

theorem mainFormat_bare_365d_VP (c : Coin) (cur : Str) (hc : c.timesOK)
    (hn : isPlainNumeral c.D365.VolumeChangePCT = true) :
    mainFormat c cur "%365D:VP".toList = some c.D365.VolumeChangePCT :=
  have hi := plainNumeral_inert _ hn
  mainFormat_steps c cur ("%365D:VP".toList) ("%365D:VP".toList) ("%365D:VP".toList) ("%365D:VP".toList) (c.D365.VolumeChangePCT) (c.D365.VolumeChangePCT) c.D365.VolumeChangePCT rfl
    rfl
    rfl
    rfl
    (parseDay_bare_VP "365D:".toList c.D365 (fun _ => rfl) (fun _ => rfl) (fun _ => rfl) hi.1)
    (parseDay_of_not_mem "YTD:".toList c.YTD c.D365.VolumeChangePCT hi.1)
    (parse_of_not_mem c _ cur hc hi.1) hi.2.1 (not_sentinel_of_no_colon _ hi.2.2)

theorem mainFormat_bare_365d_MP (c : Coin) (cur : Str) (hc : c.timesOK)
    (hn : isPlainNumeral c.D365.MarketCapChangePCT = true) :
    mainFormat c cur "%365D:MP".toList = some c.D365.MarketCapChangePCT :=
  have hi := plainNumeral_inert _ hn
  mainFormat_steps c cur ("%365D:MP".toList) ("%365D:MP".toList) ("%365D:MP".toList) ("%365D:MP".toList) (c.D365.MarketCapChangePCT) (c.D365.MarketCapChangePCT) c.D365.MarketCapChangePCT rfl
    rfl
    rfl
    rfl
    (parseDay_bare_MP "365D:".toList c.D365 (fun _ => rfl) (fun _ => rfl) (fun _ => rfl) (fun _ => rfl) hi.1)
    (parseDay_of_not_mem "YTD:".toList c.YTD c.D365.MarketCapChangePCT hi.1)
    (parse_of_not_mem c _ cur hc hi.1) hi.2.1 (not_sentinel_of_no_colon _ hi.2.2)

theorem mainFormat_bare_ytd_PP (c : Coin) (cur : Str) (hc : c.timesOK)
    (hn : isPlainNumeral c.YTD.PriceChangePCT = true) :
    mainFormat c cur "%YTD:PP".toList = some c.YTD.PriceChangePCT :=
  have hi := plainNumeral_inert _ hn
  mainFormat_steps c cur ("%YTD:PP".toList) ("%YTD:PP".toList) ("%YTD:PP".toList) ("%YTD:PP".toList) ("%YTD:PP".toList) (c.YTD.PriceChangePCT) c.YTD.PriceChangePCT rfl
    rfl
    rfl
    rfl
    rfl
    (parseDay_bare_PP "YTD:".toList c.YTD (fun _ => rfl) hi.1)
    (parse_of_not_mem c _ cur hc hi.1) hi.2.1 (not_sentinel_of_no_colon _ hi.2.2)

theorem mainFormat_bare_ytd_VC (c : Coin) (cur : Str) (hc : c.timesOK)
    (hn : isPlainNumeral c.YTD.VolumeChange = true) :
    mainFormat c cur "%YTD:VC".toList = some c.YTD.VolumeChange :=
  have hi := plainNumeral_inert _ hn
  mainFormat_steps c cur ("%YTD:VC".toList) ("%YTD:VC".toList) ("%YTD:VC".toList) ("%YTD:VC".toList) ("%YTD:VC".toList) (c.YTD.VolumeChange) c.YTD.VolumeChange rfl
    rfl
    rfl
    rfl
    rfl
    (parseDay_bare_VC "YTD:".toList c.YTD (fun _ => rfl) (fun _ => rfl) hi.1)
    (parse_of_not_mem c _ cur hc hi.1) hi.2.1 (not_sentinel_of_no_colon _ hi.2.2)

theorem mainFormat_bare_ytd_VP (c : Coin) (cur : Str) (hc : c.timesOK)
    (hn : isPlainNumeral c.YTD.VolumeChangePCT = true) :
    mainFormat c cur "%YTD:VP".toList = some c.YTD.VolumeChangePCT :=
  have hi := plainNumeral_inert _ hn
  mainFormat_steps c cur ("%YTD:VP".toList) ("%YTD:VP".toList) ("%YTD:VP".toList) ("%YTD:VP".toList) ("%YTD:VP".toList) (c.YTD.VolumeChangePCT) c.YTD.VolumeChangePCT rfl
    rfl
    rfl
    rfl
    rfl
    (parseDay_bare_VP "YTD:".toList c.YTD (fun _ => rfl) (fun _ => rfl) (fun _ => rfl) hi.1)
    (parse_of_not_mem c _ cur hc hi.1) hi.2.1 (not_sentinel_of_no_colon _ hi.2.2)

theorem mainFormat_bare_ytd_MP (c : Coin) (cur : Str) (hc : c.timesOK)
    (hn : isPlainNumeral c.YTD.MarketCapChangePCT = true) :
    mainFormat c cur "%YTD:MP".toList = some c.YTD.MarketCapChangePCT :=
  have hi := plainNumeral_inert _ hn
  mainFormat_steps c cur ("%YTD:MP".toList) ("%YTD:MP".toList) ("%YTD:MP".toList) ("%YTD:MP".toList) ("%YTD:MP".toList) (c.YTD.MarketCapChangePCT) c.YTD.MarketCapChangePCT rfl
    rfl
    rfl
    rfl
    rfl
    (parseDay_bare_MP "YTD:".toList c.YTD (fun _ => rfl) (fun _ => rfl) (fun _ => rfl) (fun _ => rfl) hi.1)
    (parse_of_not_mem c _ cur hc hi.1) hi.2.1 (not_sentinel_of_no_colon _ hi.2.2)

/-- C7: for a quote whose timestamps parse and whose fields are plain decimal
numerals, the bare `%MC` and `%CS` are rendered as `market_cap` and
`circulating_supply`, and for each window prefix the bare `PP`, `VC`, `VP`, `MP`
directives as the window's `price_change_pct`, `volume_change`, `volume_change_pct`
and `market_cap_change_pct`. -/
theorem mainFormat_longer_suffix (c : Coin) (cur : Str) (hc : c.timesOK)
    (hm : isPlainNumeral c.MarketCap = true) (hs : isPlainNumeral c.CirculatingSupply = true)
    (h1 : WindowNumeric c.D1) (h2 : WindowNumeric c.D7) (h3 : WindowNumeric c.D30)
    (h4 : WindowNumeric c.D365) (h5 : WindowNumeric c.YTD) :
    mainFormat c cur "%MC".toList = some c.MarketCap ∧
      mainFormat c cur "%CS".toList = some c.CirculatingSupply ∧
      WindowRendered c cur "%1D:".toList c.D1 ∧ WindowRendered c cur "%7D:".toList c.D7 ∧
      WindowRendered c cur "%30D:".toList c.D30 ∧ WindowRendered c cur "%365D:".toList c.D365 ∧
      WindowRendered c cur "%YTD:".toList c.YTD :=
  ⟨mainFormat_bare_MC c cur hc hm, mainFormat_bare_CS c cur hc hs,
    ⟨mainFormat_bare_1d_PP c cur hc h1.1, mainFormat_bare_1d_VC c cur hc h1.2.1, mainFormat_bare_1d_VP c cur hc h1.2.2.1, mainFormat_bare_1d_MP c cur hc h1.2.2.2⟩,
    ⟨mainFormat_bare_7d_PP c cur hc h2.1, mainFormat_bare_7d_VC c cur hc h2.2.1, mainFormat_bare_7d_VP c cur hc h2.2.2.1, mainFormat_bare_7d_MP c cur hc h2.2.2.2⟩,
    ⟨mainFormat_bare_30d_PP c cur hc h3.1, mainFormat_bare_30d_VC c cur hc h3.2.1, mainFormat_bare_30d_VP c cur hc h3.2.2.1, mainFormat_bare_30d_MP c cur hc h3.2.2.2⟩,
    ⟨mainFormat_bare_365d_PP c cur hc h4.1, mainFormat_bare_365d_VC c cur hc h4.2.1, mainFormat_bare_365d_VP c cur hc h4.2.2.1, mainFormat_bare_365d_MP c cur hc h4.2.2.2⟩,
    ⟨mainFormat_bare_ytd_PP c cur hc h5.1, mainFormat_bare_ytd_VC c cur hc h5.2.1, mainFormat_bare_ytd_VP c cur hc h5.2.2.1, mainFormat_bare_ytd_MP c cur hc h5.2.2.2⟩⟩

theorem exampleDay_numeric : WindowNumeric exampleDay :=
  ⟨by decide, by decide, by decide, by decide⟩

/-- C7 (witness): the theorem at the quote of the usage text. -/
theorem mainFormat_longer_suffix_witness :
    exampleCoin.timesOK ∧ isPlainNumeral exampleCoin.MarketCap = true ∧
      isPlainNumeral exampleCoin.CirculatingSupply = true ∧ WindowNumeric exampleCoin.D1 ∧
      WindowNumeric exampleCoin.D7 ∧ WindowNumeric exampleCoin.D30 ∧
      WindowNumeric exampleCoin.D365 ∧ WindowNumeric exampleCoin.YTD ∧
      (mainFormat exampleCoin "CAD".toList "%MC".toList = some exampleCoin.MarketCap ∧
        mainFormat exampleCoin "CAD".toList "%CS".toList = some exampleCoin.CirculatingSupply ∧
        WindowRendered exampleCoin "CAD".toList "%1D:".toList exampleCoin.D1 ∧
        WindowRendered exampleCoin "CAD".toList "%7D:".toList exampleCoin.D7 ∧
        WindowRendered exampleCoin "CAD".toList "%30D:".toList exampleCoin.D30 ∧
        WindowRendered exampleCoin "CAD".toList "%365D:".toList exampleCoin.D365 ∧
        WindowRendered exampleCoin "CAD".toList "%YTD:".toList exampleCoin.YTD) :=
  ⟨exampleCoin_timesOK, by decide, by decide, exampleDay_numeric, exampleDay_numeric,
    exampleDay_numeric, exampleDay_numeric, exampleDay_numeric,
    mainFormat_longer_suffix exampleCoin "CAD".toList exampleCoin_timesOK (by decide)
      (by decide) exampleDay_numeric exampleDay_numeric exampleDay_numeric exampleDay_numeric
      exampleDay_numeric⟩

/-! ## A root directive next to a window directive -/

theorem parseDay_price (p : Str) (day : D) (f : Str)
    (h1 : ∀ v, parsePad true f ('%' :: p) "PP".toList v = some f)
    (h2 : ∀ v, parsePad true f ('%' :: p) "VC".toList v = some f)
    (h3 : ∀ v, parsePad true f ('%' :: p) "VP".toList v = some f)
    (h4 : ∀ v, parsePad true f ('%' :: p) "MP".toList v = some f)
    (h5 : ∀ v, parsePad true f ('%' :: p) "V".toList v = some f)
    (h6 : ∀ v, parsePad true f ('%' :: p) "P".toList v = some ('%' :: 'P' :: ' ' :: (v ++ [])))
    (h7 : ∀ r, padIdle true p "M".toList ('P' :: ' ' :: r) = true)
    (h8 : ∀ r, padIdle false p "C".toList ('P' :: ' ' :: r) = true)
    (hv : '%' ∉ day.PriceChange) :
    parseDay ('%' :: p) day f = some ('%' :: 'P' :: ' ' :: day.PriceChange) := by
  have hr : '%' ∉ 'P' :: ' ' :: day.PriceChange := by
    intro h
    rcases List.mem_cons.mp h with e | e
    · exact absurd e (by decide)
    · rcases List.mem_cons.mp e with e | e
      · exact absurd e (by decide)
      · exact hv e
  simp only [parseDay, h1, h2, h3, h4, h5, h6, andThen_some, List.append_nil,
    parsePad_head_idle _ p _ _ _ hr (h7 _), parsePad_head_idle _ p _ _ _ hr (h8 _)]

theorem parse_price (c : Coin) (cur pc : Str) (hc : c.timesOK) (hpc : '%' ∉ pc)
    (hprice : '%' ∉ c.Price) :
    parse c ('%' :: 'P' :: ' ' :: pc) cur = some (c.Price ++ ' ' :: pc) := by
  have hr1 : '%' ∉ ' ' :: pc := by
    intro h
    rcases List.mem_cons.mp h with e | e
    · exact absurd e (by decide)
    · exact hpc e
  have hr : '%' ∉ 'P' :: ' ' :: pc := by
    intro h
    rcases List.mem_cons.mp h with e | e
    · exact absurd e (by decide)
    · exact hr1 e
  have hout : '%' ∉ c.Price ++ ' ' :: pc := by
    intro h
    rcases List.mem_append.mp h with e | e
    · exact hprice e
    · exact hr1 e
  have e : "%".toList = ['%'] := rfl
  have a1 := parseTime_head_idle "HT".toList c.HighTimestamp _ hc.1 hr rfl
  have a2 : ∀ v, parsePad false ('%' :: 'P' :: ' ' :: pc) ['%'] "MC".toList v = _ :=
    fun v => parsePad_head_idle false [] "MC".toList v _ hr rfl
  have a3 : ∀ v, parsePad false ('%' :: 'P' :: ' ' :: pc) ['%'] "CS".toList v = _ :=
    fun v => parsePad_head_idle false [] "CS".toList v _ hr rfl
  have a4 : ∀ v, parsePad true ('%' :: 'P' :: ' ' :: pc) ['%'] "H".toList v = _ :=
    fun v => parsePad_head_idle true [] "H".toList v _ hr rfl
  have a5 : ∀ v, parsePad false ('%' :: 'P' :: ' ' :: pc) ['%'] "M".toList v = _ :=
    fun v => parsePad_head_idle false [] "M".toList v _ hr rfl
  have a6 := parseTime_head_idle "T".toList c.PriceTimestamp _ hc.2.1 hr rfl
  have a7 := parseTime_head_idle "D".toList c.PriceDate _ hc.2.2 hr rfl
  have a8 : parsePad true ('%' :: 'P' :: ' ' :: pc) ['%'] "P".toList c.Price =
      some (c.Price ++ ' ' :: pc) :=
    parsePad_head_bare true [] "P".toList c.Price (' ' :: pc) (by decide) hr1 rfl
  simp only [parse, e, a1, a2, a3, a4, a5, a6, a7, a8, andThen_some,
    parsePad_of_not_mem _ _ [] _ _ hout]

theorem price_window_inert (price pc : Str) (hp : isPlainNumeral price = true)
    (hw : isPlainNumeral pc = true) :
    '\\' ∉ price ++ ' ' :: pc ∧ ¬ sentinel <:+: price ++ ' ' :: pc := by
  have h1 := plainNumeral_inert _ hp
  have h2 := plainNumeral_inert _ hw
  refine ⟨?_, not_sentinel_of_no_colon _ ?_⟩
  · intro h
    rcases List.mem_append.mp h with e | e
    · exact h1.2.1 e
    · rcases List.mem_cons.mp e with e | e
      · exact absurd e (by decide)
      · exact h2.2.1 e
  · intro h
    rcases List.mem_append.mp h with e | e
    · exact h1.2.2 e
    · rcases List.mem_cons.mp e with e | e
      · exact absurd e (by decide)
      · exact h2.2.2 e

theorem percent_not_mem_tail (pc : Str) (h : '%' ∉ pc) : '%' ∉ 'P' :: ' ' :: pc := by
  intro hm
  rcases List.mem_cons.mp hm with e | e
  · exact absurd e (by decide)
  · rcases List.mem_cons.mp e with e | e
    · exact absurd e (by decide)
    · exact h e

theorem mainFormat_price_1d (c : Coin) (cur : Str) (hc : c.timesOK)
    (hp : isPlainNumeral c.Price = true) (hn : isPlainNumeral c.D1.PriceChange = true) :
    mainFormat c cur "%P %1D:P".toList = some (c.Price ++ " ".toList ++ c.D1.PriceChange) := by
  have hw := plainNumeral_inert _ hn
  have hi := price_window_inert _ _ hp hn
  have h := mainFormat_steps c cur ("%P %1D:P".toList) (('%' :: 'P' :: ' ' :: c.D1.PriceChange)) (('%' :: 'P' :: ' ' :: c.D1.PriceChange)) (('%' :: 'P' :: ' ' :: c.D1.PriceChange)) (('%' :: 'P' :: ' ' :: c.D1.PriceChange)) (('%' :: 'P' :: ' ' :: c.D1.PriceChange))
    (c.Price ++ ' ' :: c.D1.PriceChange) rfl
    (parseDay_price "1D:".toList c.D1 ("%P %1D:P".toList) (fun _ => rfl) (fun _ => Eq.refl _) (fun _ => rfl) (fun _ => Eq.refl _) (fun _ => rfl) (fun _ => Eq.refl _) (fun _ => rfl) (fun _ => Eq.refl _) hw.1)
    (parseDay_head_idle "7D:".toList c.D7 _ (percent_not_mem_tail _ hw.1) rfl)
    (parseDay_head_idle "30D:".toList c.D30 _ (percent_not_mem_tail _ hw.1) rfl)
    (parseDay_head_idle "365D:".toList c.D365 _ (percent_not_mem_tail _ hw.1) rfl)
    (parseDay_head_idle "YTD:".toList c.YTD _ (percent_not_mem_tail _ hw.1) rfl)
    (parse_price c cur _ hc hw.1 (plainNumeral_inert _ hp).1) hi.1 hi.2
  rw [h]
  simp

theorem mainFormat_price_7d (c : Coin) (cur : Str) (hc : c.timesOK)
    (hp : isPlainNumeral c.Price = true) (hn : isPlainNumeral c.D7.PriceChange = true) :
    mainFormat c cur "%P %7D:P".toList = some (c.Price ++ " ".toList ++ c.D7.PriceChange) := by
  have hw := plainNumeral_inert _ hn
  have hi := price_window_inert _ _ hp hn
  have h := mainFormat_steps c cur ("%P %7D:P".toList) ("%P %7D:P".toList) (('%' :: 'P' :: ' ' :: c.D7.PriceChange)) (('%' :: 'P' :: ' ' :: c.D7.PriceChange)) (('%' :: 'P' :: ' ' :: c.D7.PriceChange)) (('%' :: 'P' :: ' ' :: c.D7.PriceChange))
    (c.Price ++ ' ' :: c.D7.PriceChange) rfl
    rfl
    (parseDay_price "7D:".toList c.D7 ("%P %7D:P".toList) (fun _ => rfl) (fun _ => Eq.refl _) (fun _ => rfl) (fun _ => Eq.refl _) (fun _ => rfl) (fun _ => Eq.refl _) (fun _ => rfl) (fun _ => Eq.refl _) hw.1)
    (parseDay_head_idle "30D:".toList c.D30 _ (percent_not_mem_tail _ hw.1) rfl)
    (parseDay_head_idle "365D:".toList c.D365 _ (percent_not_mem_tail _ hw.1) rfl)
    (parseDay_head_idle "YTD:".toList c.YTD _ (percent_not_mem_tail _ hw.1) rfl)
    (parse_price c cur _ hc hw.1 (plainNumeral_inert _ hp).1) hi.1 hi.2
  rw [h]
  simp

theorem mainFormat_price_30d (c : Coin) (cur : Str) (hc : c.timesOK)
    (hp : isPlainNumeral c.Price = true) (hn : isPlainNumeral c.D30.PriceChange = true) :
    mainFormat c cur "%P %30D:P".toList = some (c.Price ++ " ".toList ++ c.D30.PriceChange) := by
  have hw := plainNumeral_inert _ hn
  have hi := price_window_inert _ _ hp hn
  have h := mainFormat_steps c cur ("%P %30D:P".toList) ("%P %30D:P".toList) ("%P %30D:P".toList) (('%' :: 'P' :: ' ' :: c.D30.PriceChange)) (('%' :: 'P' :: ' ' :: c.D30.PriceChange)) (('%' :: 'P' :: ' ' :: c.D30.PriceChange))
    (c.Price ++ ' ' :: c.D30.PriceChange) rfl
    rfl
    rfl
    (parseDay_price "30D:".toList c.D30 ("%P %30D:P".toList) (fun _ => rfl) (fun _ => Eq.refl _) (fun _ => rfl) (fun _ => Eq.refl _) (fun _ => rfl) (fun _ => Eq.refl _) (fun _ => rfl) (fun _ => Eq.refl _) hw.1)
    (parseDay_head_idle "365D:".toList c.D365 _ (percent_not_mem_tail _ hw.1) rfl)
    (parseDay_head_idle "YTD:".toList c.YTD _ (percent_not_mem_tail _ hw.1) rfl)
    (parse_price c cur _ hc hw.1 (plainNumeral_inert _ hp).1) hi.1 hi.2
  rw [h]
  simp

theorem mainFormat_price_365d (c : Coin) (cur : Str) (hc : c.timesOK)
    (hp : isPlainNumeral c.Price = true) (hn : isPlainNumeral c.D365.PriceChange = true) :
    mainFormat c cur "%P %365D:P".toList = some (c.Price ++ " ".toList ++ c.D365.PriceChange) := by
  have hw := plainNumeral_inert _ hn
  have hi := price_window_inert _ _ hp hn
  have h := mainFormat_steps c cur ("%P %365D:P".toList) ("%P %365D:P".toList) ("%P %365D:P".toList) ("%P %365D:P".toList) (('%' :: 'P' :: ' ' :: c.D365.PriceChange)) (('%' :: 'P' :: ' ' :: c.D365.PriceChange))
    (c.Price ++ ' ' :: c.D365.PriceChange) rfl
    rfl
    rfl
    rfl
    (parseDay_price "365D:".toList c.D365 ("%P %365D:P".toList) (fun _ => rfl) (fun _ => Eq.refl _) (fun _ => rfl) (fun _ => Eq.refl _) (fun _ => rfl) (fun _ => Eq.refl _) (fun _ => rfl) (fun _ => Eq.refl _) hw.1)
    (parseDay_head_idle "YTD:".toList c.YTD _ (percent_not_mem_tail _ hw.1) rfl)
    (parse_price c cur _ hc hw.1 (plainNumeral_inert _ hp).1) hi.1 hi.2
  rw [h]
  simp

theorem mainFormat_price_ytd (c : Coin) (cur : Str) (hc : c.timesOK)
    (hp : isPlainNumeral c.Price = true) (hn : isPlainNumeral c.YTD.PriceChange = true) :
    mainFormat c cur "%P %YTD:P".toList = some (c.Price ++ " ".toList ++ c.YTD.PriceChange) := by
  have hw := plainNumeral_inert _ hn
  have hi := price_window_inert _ _ hp hn
  have h := mainFormat_steps c cur ("%P %YTD:P".toList) ("%P %YTD:P".toList) ("%P %YTD:P".toList) ("%P %YTD:P".toList) ("%P %YTD:P".toList) (('%' :: 'P' :: ' ' :: c.YTD.PriceChange))
    (c.Price ++ ' ' :: c.YTD.PriceChange) rfl
    rfl
    rfl
    rfl
    rfl
    (parseDay_price "YTD:".toList c.YTD ("%P %YTD:P".toList) (fun _ => rfl) (fun _ => Eq.refl _) (fun _ => rfl) (fun _ => Eq.refl _) (fun _ => rfl) (fun _ => Eq.refl _) (fun _ => rfl) (fun _ => Eq.refl _) hw.1)
    (parse_price c cur _ hc hw.1 (plainNumeral_inert _ hp).1) hi.1 hi.2
  rw [h]
  simp

/-- C6: for a quote whose timestamps parse and whose price and window price changes
are plain decimal numerals, the template `%P %1D:P` is rendered as the price, a
space, and the price change of the 1d window; likewise for the other four window
prefixes and their records. -/
theorem mainFormat_no_shadowing (c : Coin) (cur : Str) (hc : c.timesOK)
    (hp : isPlainNumeral c.Price = true) (h1 : isPlainNumeral c.D1.PriceChange = true)
    (h2 : isPlainNumeral c.D7.PriceChange = true) (h3 : isPlainNumeral c.D30.PriceChange = true)
    (h4 : isPlainNumeral c.D365.PriceChange = true)
    (h5 : isPlainNumeral c.YTD.PriceChange = true) :
    mainFormat c cur "%P %1D:P".toList = some (c.Price ++ " ".toList ++ c.D1.PriceChange) ∧
      mainFormat c cur "%P %7D:P".toList = some (c.Price ++ " ".toList ++ c.D7.PriceChange) ∧
      mainFormat c cur "%P %30D:P".toList = some (c.Price ++ " ".toList ++ c.D30.PriceChange) ∧
      mainFormat c cur "%P %365D:P".toList =
        some (c.Price ++ " ".toList ++ c.D365.PriceChange) ∧
      mainFormat c cur "%P %YTD:P".toList = some (c.Price ++ " ".toList ++ c.YTD.PriceChange) :=
  ⟨mainFormat_price_1d c cur hc hp h1, mainFormat_price_7d c cur hc hp h2,
    mainFormat_price_30d c cur hc hp h3, mainFormat_price_365d c cur hc hp h4,
    mainFormat_price_ytd c cur hc hp h5⟩

/-- C6 (witness): the theorem at the quote of the usage text. -/
theorem mainFormat_no_shadowing_witness :
    exampleCoin.timesOK ∧ isPlainNumeral exampleCoin.Price = true ∧
      isPlainNumeral exampleCoin.D1.PriceChange = true ∧
      isPlainNumeral exampleCoin.D7.PriceChange = true ∧
      isPlainNumeral exampleCoin.D30.PriceChange = true ∧
      isPlainNumeral exampleCoin.D365.PriceChange = true ∧
      isPlainNumeral exampleCoin.YTD.PriceChange = true ∧
      (mainFormat exampleCoin "CAD".toList "%P %1D:P".toList =
          some (exampleCoin.Price ++ " ".toList ++ exampleCoin.D1.PriceChange) ∧
        mainFormat exampleCoin "CAD".toList "%P %7D:P".toList =
          some (exampleCoin.Price ++ " ".toList ++ exampleCoin.D7.PriceChange) ∧
        mainFormat exampleCoin "CAD".toList "%P %30D:P".toList =
          some (exampleCoin.Price ++ " ".toList ++ exampleCoin.D30.PriceChange) ∧
        mainFormat exampleCoin "CAD".toList "%P %365D:P".toList =
          some (exampleCoin.Price ++ " ".toList ++ exampleCoin.D365.PriceChange) ∧
        mainFormat exampleCoin "CAD".toList "%P %YTD:P".toList =
          some (exampleCoin.Price ++ " ".toList ++ exampleCoin.YTD.PriceChange)) :=
  ⟨exampleCoin_timesOK, by decide, by decide, by decide, by decide, by decide, by decide,
    mainFormat_no_shadowing exampleCoin "CAD".toList exampleCoin_timesOK (by decide)
      (by decide) (by decide) (by decide) (by decide) (by decide)⟩

/-! ## Precision of the numeric formatter -/

/-- C14: scenario S2.  The price `11616.76734947` parses without error, and the
numeric formatter renders the template `%0.2P` as `11616.77`: the value rounded to two
decimals, without padding. -/
theorem parsePad_precision :
    (parseFloat "11616.76734947".toList).2 = false ∧
      parsePad true "%0.2P".toList "%".toList "P".toList "11616.76734947".toList =
        some "11616.77".toList := by
  decide!

/-- C15: with the value `19337.69352527` that the usage text gives for `%H`, the
template `%0.3H` is rendered as `19337.694`, the value rounded to three decimals, and
not as the `19337.693` of the usage text (lines 103-105). -/
theorem parsePad_usage_precision :
    (parseFloat "19337.69352527".toList).2 = false ∧
      parsePad true "%0.3H".toList "%".toList "H".toList "19337.69352527".toList =
        some "19337.694".toList ∧
      parsePad true "%0.3H".toList "%".toList "H".toList "19337.69352527".toList ≠
        some "19337.693".toList := by
  decide!

/-! ## Templates made of `%` and one character -/

/-- The pipeline from the results of all its steps. -/
theorem mainFormat_chain (c : Coin) (cur f f0 f1 f2 f3 f4 f5 v : Str) (out : Option Str)
    (h0 : replaceAll f "%%".toList sentinel = f0)
    (h1 : parseDay "%1D:".toList c.D1 f0 = some f1)
    (h2 : parseDay "%7D:".toList c.D7 f1 = some f2)
    (h3 : parseDay "%30D:".toList c.D30 f2 = some f3)
    (h4 : parseDay "%365D:".toList c.D365 f3 = some f4)
    (h5 : parseDay "%YTD:".toList c.YTD f4 = some f5) (hp : parse c f5 cur = some v)
    (he : escapeRe.replaceAllStringFunc (replaceAll v sentinel "%".toList) (fun val =>
      (escapeRe.findStringSubmatch val).map (fun m => m.2)) = out) :
    mainFormat c cur f = out := by
  simp only [mainFormat, h0, h1, h2, h3, h4, h5, hp, andThen_some, he]

theorem dayIdle_char (Z : Char) :
    dayIdle "1D:".toList [Z] = true ∧ dayIdle "7D:".toList [Z] = true ∧
      dayIdle "30D:".toList [Z] = true ∧ dayIdle "365D:".toList [Z] = true ∧
      dayIdle "YTD:".toList [Z] = true := by
  simp [dayIdle, padIdle, Regexp.matchAt, floatRe, padRe, compileLit, matchSeq, lit,
    List.isPrefixOf]


/-! ## The passes of the root dispatcher on a template of `%` and one character -/

theorem padIdle_long (fl : Bool) (Z a b : Char) (post : Str) (ha : a ≠ '$') :
    padIdle fl [] (a :: b :: post) [Z] = true := by
  cases fl <;> cases hd : isDigit Z <;>
    simp [padIdle, Regexp.matchAt, padRe, floatRe, compileLit, matchSeq, lit, List.isPrefixOf,
      starLoop, hd, ha]

theorem padIdle_short (fl : Bool) (Z x : Char) (hx : x ≠ Z) (ha : x ≠ '$') :
    padIdle fl [] [x] [Z] = true := by
  cases fl <;> cases hd : isDigit Z <;>
    simp [padIdle, Regexp.matchAt, padRe, floatRe, compileLit, matchSeq, lit, List.isPrefixOf,
      starLoop, hd, ha, hx]

theorem padIdle_dollar (Z : Char) (hx : Z ≠ '$') (hd : isDigit Z = false) :
    padIdle false [] ['$'] [Z] = true := by
  simp [padIdle, Regexp.matchAt, padRe, compileLit, matchSeq, lit, List.isPrefixOf,
    starLoop, hd, Ne.symm hx]

/-- The thirteen passes before the pass of `%$` leave the template `%Z` as it is
when `Z` is none of their suffixes. -/
theorem parse_char_dollar (c : Coin) (cur : Str) (Z : Char) (hc : c.timesOK)
    (hZ : Z ∉ "HMPLNsCI%".toList) :
    parse c ['%', Z] cur = parsePad false ['%', Z] "%".toList "$".toList cur := by
  simp only [String.toList, List.mem_cons, List.mem_singleton, not_or, List.not_mem_nil,
    not_false_eq_true, and_true] at hZ
  obtain ⟨h1, h2, h3, h4, h5, h6, h7, h8, h10⟩ := hZ
  have hr : '%' ∉ [Z] := by simp [Ne.symm h10]
  have e : "%".toList = ['%'] := rfl
  have t1 : timeIdle "HT".toList [Z] = true := by
    simp [timeIdle, Regexp.matchAt, timeRe, compileLit, matchSeq, lit, starLoop]
  have t2 : timeIdle "T".toList [Z] = true := by
    simp [timeIdle, Regexp.matchAt, timeRe, compileLit, matchSeq, lit, starLoop]
  have t3 : timeIdle "D".toList [Z] = true := by
    simp [timeIdle, Regexp.matchAt, timeRe, compileLit, matchSeq, lit, starLoop]
  simp only [parse, e, parseTime_head_idle _ _ _ hc.1 hr t1,
    parseTime_head_idle _ _ _ hc.2.1 hr t2, parseTime_head_idle _ _ _ hc.2.2 hr t3,
    parsePad_head_idle false [] "MC".toList _ _ hr (padIdle_long _ Z _ _ _ (by decide)),
    parsePad_head_idle false [] "CS".toList _ _ hr (padIdle_long _ Z _ _ _ (by decide)),
    parsePad_head_idle true [] "H".toList _ _ hr (padIdle_short _ Z 'H' (Ne.symm h1) (by decide)),
    parsePad_head_idle false [] "M".toList _ _ hr (padIdle_short _ Z 'M' (Ne.symm h2) (by decide)),
    parsePad_head_idle true [] "P".toList _ _ hr (padIdle_short _ Z 'P' (Ne.symm h3) (by decide)),
    parsePad_head_idle false [] "L".toList _ _ hr (padIdle_short _ Z 'L' (Ne.symm h4) (by decide)),
    parsePad_head_idle false [] "N".toList _ _ hr (padIdle_short _ Z 'N' (Ne.symm h5) (by decide)),
    parsePad_head_idle false [] "s".toList _ _ hr (padIdle_short _ Z 's' (Ne.symm h6) (by decide)),
    parsePad_head_idle false [] "C".toList _ _ hr (padIdle_short _ Z 'C' (Ne.symm h7) (by decide)),
    parsePad_head_idle false [] "I".toList _ _ hr (padIdle_short _ Z 'I' (Ne.symm h8) (by decide)),
    andThen_some]

theorem sprintf_digit (Z : Char) (v : Str) (hd : isDigit Z = true) :
    sprintf [Z, 's'] (Arg.string v) = List.replicate (digitVal Z - v.length) ' ' ++ v := by
  by_cases h0 : Z = '0'
  · subst h0
    have h : sprintf ['0', 's'] (Arg.string v) = v ++ [] := rfl
    rw [h, List.append_nil]
    simp [digitVal]
  · have hv : decVal [Z] = digitVal Z := by simp [decVal]
    have hm : digitVal Z ≤ 10000009 := by
      have : Z.toNat ≤ '9'.toNat := by
        simp only [isDigit, Bool.and_eq_true, decide_eq_true_eq] at hd
        exact hd.2
      have h9 : '9'.toNat = 57 := rfl
      simp only [digitVal]
      omega
    have h := sprintf_width [Z] v (by simpa using hd) (by simp) (by simpa using h0)
      (hv ▸ hm)
    rw [hv] at h
    exact h

theorem parsePad_dollar_digit (Z : Char) (cur : Str) (hd : isDigit Z = true)
    (hcur : '%' ∉ cur) :
    parsePad false ['%', Z] "%".toList "$".toList cur =
      some (List.replicate (digitVal Z - cur.length) ' ' ++ cur) := by
  have hm : (padRe "%".toList "$".toList).matchAt ['%', Z] = some ([Z], []) := by
    have h1 := isDigit_ne_minus hd
    simp [Regexp.matchAt, padRe, compileLit, matchSeq, lit, starLoop, hd, h1]
  have hout : '%' ∉ List.replicate (digitVal Z - cur.length) ' ' ++ cur :=
    not_mem_replicate_append hcur (by decide)
  simp only [parsePad, Bool.false_eq_true, if_false,
    regexp_replaceAll_whole _ _ '%' [Z] [Z] hm, regexp_find_whole _ '%' [Z] [Z] hm,
    Option.map_some', List.singleton_append, sprintf_digit Z cur hd]
  exact congrArg some (replaceAll_of_not_mem _ '%' "$".toList cur hout)

theorem parse_char_idle (c : Coin) (cur : Str) (Z : Char) (hc : c.timesOK)
    (hZ : Z ∉ "HMPLNsCI$%".toList) (hd : isDigit Z = false) :
    parse c ['%', Z] cur = some ['%', Z] := by
  have h1 : Z ∉ "HMPLNsCI%".toList := by
    intro h
    apply hZ
    simp only [String.toList, List.mem_cons, List.mem_singleton, List.not_mem_nil,
      or_false] at h ⊢
    tauto
  have h2 : Z ≠ '$' := fun e => hZ (by simp [e])
  have h3 : '%' ∉ [Z] := by
    intro h
    apply hZ
    simp only [List.mem_singleton] at h
    simp [← h]
  have e : "%".toList = ['%'] := rfl
  rw [parse_char_dollar c cur Z hc h1, e]
  exact parsePad_head_idle false [] "$".toList cur [Z] h3 (padIdle_dollar Z h2 hd)

theorem escape_char (Z : Char) (repl : Str → Option Str) :
    escapeRe.replaceAllStringFunc (replaceAll ['%', Z] sentinel "%".toList) repl =
      some ['%', Z] := by
  have h : replaceAll ['%', Z] sentinel "%".toList = ['%', Z] := by
    simp [replaceAll, replaceAllAux, sentinel, List.isPrefixOf]
  rw [h]
  simp [Regexp.replaceAllStringFunc, Regexp.replaceAllAux, Regexp.matchAt, escapeRe, matchSeq,
    lit]

/-- The template made of `%` and one character that is no digit and no suffix of a
pass of the root dispatcher goes through the whole pipeline as it is. -/
theorem mainFormat_char (c : Coin) (cur : Str) (Z : Char) (hc : c.timesOK)
    (hZ : Z ∉ "HMPLNsCI$%".toList) (hd : isDigit Z = false) :
    mainFormat c cur ['%', Z] = some ['%', Z] := by
  have h10 : Z ≠ '%' := fun e => hZ (by simp [e])
  have hr : '%' ∉ [Z] := by simp [Ne.symm h10]
  have h0 : replaceAll ['%', Z] "%%".toList sentinel = ['%', Z] := by
    simp [replaceAll, replaceAllAux, List.isPrefixOf, Ne.symm h10]
  have hw := dayIdle_char Z
  exact mainFormat_chain c cur _ _ _ _ _ _ _ _ _ h0
    (parseDay_head_idle "1D:".toList c.D1 [Z] hr hw.1)
    (parseDay_head_idle "7D:".toList c.D7 [Z] hr hw.2.1)
    (parseDay_head_idle "30D:".toList c.D30 [Z] hr hw.2.2.1)
    (parseDay_head_idle "365D:".toList c.D365 [Z] hr hw.2.2.2.1)
    (parseDay_head_idle "YTD:".toList c.YTD [Z] hr hw.2.2.2.2)
    (parse_char_idle c cur Z hc hZ hd) (escape_char Z _)

/-- The template made of `%` and one digit: the pass of `%$`, whose pattern ends in
the end-of-text assertion, renders the fiat code padded to the width of the digit. -/
theorem mainFormat_digit (c : Coin) (cur : Str) (Z : Char) (hc : c.timesOK)
    (hd : isDigit Z = true) (h1 : '%' ∉ cur) (h2 : '\\' ∉ cur) (h3 : ':' ∉ cur) :
    mainFormat c cur ['%', Z] = some (List.replicate (digitVal Z - cur.length) ' ' ++ cur) := by
  have hZ : Z ∉ "HMPLNsCI%".toList := by
    intro h
    simp only [String.toList, List.mem_cons, List.mem_singleton, List.not_mem_nil,
      or_false] at h
    rcases h with h | h | h | h | h | h | h | h | h <;> subst h <;> exact absurd hd (by decide)
  have h10 : Z ≠ '%' := fun e => hZ (by simp [e])
  have hr : '%' ∉ [Z] := by simp [Ne.symm h10]
  have h0 : replaceAll ['%', Z] "%%".toList sentinel = ['%', Z] := by
    simp [replaceAll, replaceAllAux, List.isPrefixOf, Ne.symm h10]
  have hw := dayIdle_char Z
  have hp : parse c ['%', Z] cur = some (List.replicate (digitVal Z - cur.length) ' ' ++ cur) := by
    rw [parse_char_dollar c cur Z hc hZ]
    exact parsePad_dollar_digit Z cur hd h1
  exact mainFormat_steps c cur _ _ _ _ _ _ _ h0
    (parseDay_head_idle "1D:".toList c.D1 [Z] hr hw.1)
    (parseDay_head_idle "7D:".toList c.D7 [Z] hr hw.2.1)
    (parseDay_head_idle "30D:".toList c.D30 [Z] hr hw.2.2.1)
    (parseDay_head_idle "365D:".toList c.D365 [Z] hr hw.2.2.2.1)
    (parseDay_head_idle "YTD:".toList c.YTD [Z] hr hw.2.2.2.2) hp
    (not_mem_replicate_append h2 (by decide))
    (not_sentinel_of_no_colon _ (not_mem_replicate_append h3 (by decide)))

/-! ## The backslash escape -/

theorem escape_pair (x : Char) (hx : x ≠ '\n') :
    escapeRe.replaceAllStringFunc (replaceAll ['\\', x] sentinel "%".toList) (fun val =>
      (escapeRe.findStringSubmatch val).map (fun m => m.2)) = some [x] := by
  have h : replaceAll ['\\', x] sentinel "%".toList = ['\\', x] := by
    simp [replaceAll, replaceAllAux, sentinel, List.isPrefixOf]
  rw [h]
  simp [Regexp.replaceAllStringFunc, Regexp.replaceAllAux, Regexp.matchAt, escapeRe, matchSeq,
    lit, notNewline, hx, Regexp.findStringSubmatch]

/-- The root dispatcher on a text that none of its fourteen passes changes. -/
theorem parse_idle (c : Coin) (cur f : Str) (hc : c.timesOK)
    (ht : ∀ (post : Str) (t : Time), post ∈ ["HT".toList, "T".toList, "D".toList] →
      (timeRe "%".toList post).replaceAllStringFunc f (fun val =>
        ((timeRe "%".toList post).findStringSubmatch val).map (fun m => timeFormat t m.2)) =
          some f)
    (hb : ∀ (fl : Bool) (post v : Str), post ∈ ["MC".toList, "CS".toList, "H".toList,
      "M".toList, "P".toList, "L".toList, "N".toList, "s".toList, "C".toList, "I".toList,
      "$".toList] → parsePad fl f "%".toList post v = some f) :
    parse c f cur = some f := by
  have a1 := parseTime_eval f "%".toList "HT".toList c.HighTimestamp (some f) hc.1
    (fun t => ht _ t (by decide))
  have a2 := parseTime_eval f "%".toList "T".toList c.PriceTimestamp (some f) hc.2.1
    (fun t => ht _ t (by decide))
  have a3 := parseTime_eval f "%".toList "D".toList c.PriceDate (some f) hc.2.2
    (fun t => ht _ t (by decide))
  simp only [parse, a1, a2, a3, hb false "MC".toList _ (by decide),
    hb false "CS".toList _ (by decide), hb true "H".toList _ (by decide),
    hb false "M".toList _ (by decide), hb true "P".toList _ (by decide),
    hb false "L".toList _ (by decide), hb false "N".toList _ (by decide),
    hb false "s".toList _ (by decide), hb false "C".toList _ (by decide),
    hb false "I".toList _ (by decide), hb false "$".toList _ (by decide), andThen_some]

theorem parse_backslash_percent (c : Coin) (cur : Str) (hc : c.timesOK) :
    parse c "\\%".toList cur = some "\\%".toList := by
  refine parse_idle c cur _ hc ?_ ?_
  · intro post t hpost
    simp only [List.mem_cons, List.mem_singleton, List.not_mem_nil, or_false] at hpost
    rcases hpost with h | h | h <;> subst h <;> rfl
  · intro fl post v hpost
    simp only [List.mem_cons, List.mem_singleton, List.not_mem_nil, or_false] at hpost
    cases fl <;> rcases hpost with h | h | h | h | h | h | h | h | h | h | h <;> subst h <;> rfl

theorem mainFormat_backslash_percent (c : Coin) (cur : Str) (hc : c.timesOK) :
    mainFormat c cur "\\%".toList = some "%".toList :=
  mainFormat_chain c cur _ _ _ _ _ _ _ _ _ rfl rfl rfl rfl rfl rfl
    (parse_backslash_percent c cur hc) (escape_pair '%' (by decide))

theorem mainFormat_backslash_other (c : Coin) (cur : Str) (x : Char) (hc : c.timesOK)
    (hp : x ≠ '%') (hx : x ≠ '\n') : mainFormat c cur ['\\', x] = some [x] := by
  have h : '%' ∉ ['\\', x] := by
    simp [Ne.symm hp]
  have e1 : "%1D:".toList = '%' :: "1D:".toList := rfl
  have e2 : "%7D:".toList = '%' :: "7D:".toList := rfl
  have e3 : "%30D:".toList = '%' :: "30D:".toList := rfl
  have e4 : "%365D:".toList = '%' :: "365D:".toList := rfl
  have e5 : "%YTD:".toList = '%' :: "YTD:".toList := rfl
  exact mainFormat_chain c cur _ _ _ _ _ _ _ _ _
    (replaceAll_of_not_mem _ '%' ['%'] sentinel h)
    (e1 ▸ parseDay_of_not_mem _ c.D1 _ h) (e2 ▸ parseDay_of_not_mem _ c.D7 _ h)
    (e3 ▸ parseDay_of_not_mem _ c.D30 _ h) (e4 ▸ parseDay_of_not_mem _ c.D365 _ h)
    (e5 ▸ parseDay_of_not_mem _ c.YTD _ h) (parse_of_not_mem c _ cur hc h) (escape_pair x hx)

/-- C13 (amended): the template made of a backslash and one character `x` other than
the newline is rendered as `x`, for every quote whose three timestamps parse. -/
theorem mainFormat_backslash (c : Coin) (cur : Str) (x : Char) (hc : c.timesOK)
    (hx : x ≠ '\n') : mainFormat c cur ['\\', x] = some [x] := by
  by_cases hp : x = '%'
  · subst hp
    exact mainFormat_backslash_percent c cur hc
  · exact mainFormat_backslash_other c cur x hc hp hx

/-- C13 (witness): the theorem at the quote of the usage text and the template of a
backslash and a `%`. -/
theorem mainFormat_backslash_witness :
    exampleCoin.timesOK ∧ '%' ≠ '\n' ∧
      mainFormat exampleCoin "CAD".toList ['\\', '%'] = some ['%'] :=
  ⟨exampleCoin_timesOK, by decide,
    mainFormat_backslash exampleCoin "CAD".toList '%' exampleCoin_timesOK (by decide)⟩

/-- C13 (counterexample): a backslash followed by a newline is left as it is: the
`.` of the pattern of line 240 does not match a newline. -/
theorem mainFormat_backslash_counterexample :
    (timeParse exampleCoin.HighTimestamp).isSome = true ∧
      (timeParse exampleCoin.PriceTimestamp).isSome = true ∧
      (timeParse exampleCoin.PriceDate).isSome = true ∧
      mainFormat exampleCoin "CAD".toList ['\\', '\n'] = some ['\\', '\n'] ∧
      mainFormat exampleCoin "CAD".toList ['\\', '\n'] ≠ some ['\n'] := by
  decide!

/-! ## The time directives without a layout -/

theorem parse_bare_HT (c : Coin) (cur : Str) (hc : c.timesOK) (hv : '%' ∉ c.High) :
    parse c "%HT".toList cur = some (c.High ++ "T".toList) := by
  have a1 := parseTime_eval "%HT".toList "%".toList "HT".toList c.HighTimestamp
    (some "%HT".toList) hc.1 (fun _ => rfl)
  have a2 : ∀ v, parsePad false "%HT".toList "%".toList "MC".toList v = some "%HT".toList :=
    fun _ => rfl
  have a3 : ∀ v, parsePad false "%HT".toList "%".toList "CS".toList v = some "%HT".toList :=
    fun _ => rfl
  have a4 : ∀ v, parsePad true "%HT".toList "%".toList "H".toList v = some (v ++ "T".toList) :=
    fun _ => rfl
  have hT : '%' ∉ c.High ++ "T".toList := by
    intro h
    rcases List.mem_append.mp h with h | h
    · exact hv h
    · exact absurd h (by decide)
  have e : "%".toList = '%' :: [] := rfl
  simp only [parse, a1, a2, a3, a4, andThen_some]
  simp only [e, parsePad_of_not_mem _ _ [] _ _ hT, parseTime_of_not_mem _ [] _ _ hc.2.1 hT,
    parseTime_of_not_mem _ [] _ _ hc.2.2 hT, andThen_some]

/-- C11: for every quote whose three timestamps parse, the root dispatcher and the
whole pipeline return the templates `%D` and `%T` as they are, not as `price_date` and
`price_timestamp`; and when `high` is a plain decimal numeral, `%HT` is rendered as
`high` followed by the letter `T`, not as `high_timestamp`: `parseTime` rewrites only
the form with braces, and no other pass has the suffix `D`, `T` or `HT`. -/
theorem mainFormat_bare_time (c : Coin) (cur : Str) (hc : c.timesOK)
    (hh : isPlainNumeral c.High = true) :
    (parse c "%D".toList cur = some "%D".toList ∧ parse c "%T".toList cur = some "%T".toList ∧
      parse c "%HT".toList cur = some (c.High ++ "T".toList)) ∧
      mainFormat c cur "%D".toList = some "%D".toList ∧
      mainFormat c cur "%T".toList = some "%T".toList ∧
      mainFormat c cur "%HT".toList = some (c.High ++ "T".toList) := by
  have hi := plainNumeral_inert _ hh
  refine ⟨⟨parse_char_idle c cur 'D' hc (by decide) (by decide),
    parse_char_idle c cur 'T' hc (by decide) (by decide), parse_bare_HT c cur hc hi.1⟩,
    mainFormat_char c cur 'D' hc (by decide) (by decide),
    mainFormat_char c cur 'T' hc (by decide) (by decide), ?_⟩
  refine mainFormat_steps c cur "%HT".toList "%HT".toList "%HT".toList "%HT".toList
    "%HT".toList "%HT".toList _ rfl rfl rfl rfl rfl rfl (parse_bare_HT c cur hc hi.1) ?_ ?_
  · intro h
    rcases List.mem_append.mp h with h | h
    · exact hi.2.1 h
    · exact absurd h (by decide)
  · apply not_sentinel_of_no_colon
    intro h
    rcases List.mem_append.mp h with h | h
    · exact hi.2.2 h
    · exact absurd h (by decide)

/-- C11 (witness): the theorem at the quote of the usage text. -/
theorem mainFormat_bare_time_witness :
    exampleCoin.timesOK ∧ isPlainNumeral exampleCoin.High = true ∧
      ((parse exampleCoin "%D".toList "CAD".toList = some "%D".toList ∧
          parse exampleCoin "%T".toList "CAD".toList = some "%T".toList ∧
          parse exampleCoin "%HT".toList "CAD".toList = some (exampleCoin.High ++ "T".toList)) ∧
        mainFormat exampleCoin "CAD".toList "%D".toList = some "%D".toList ∧
        mainFormat exampleCoin "CAD".toList "%T".toList = some "%T".toList ∧
        mainFormat exampleCoin "CAD".toList "%HT".toList =
          some (exampleCoin.High ++ "T".toList)) :=
  ⟨exampleCoin_timesOK, by decide,
    mainFormat_bare_time exampleCoin "CAD".toList exampleCoin_timesOK (by decide)⟩

/-! ## Unrecognised directives -/

/-- C12: for every quote whose three timestamps parse and every character `Z` that is
no suffix character and not `%`, the template `%Z` is returned as it is when `Z` is no
digit; when `Z` is a digit the pass of `%$` takes it for a width and renders the fiat
code (free of `%`, backslash and `:`) padded to that width, so `%5` with the fiat code
`CAD` gives two spaces and `CAD`. -/
theorem mainFormat_unrecognised (c : Coin) (cur : Str) (Z : Char) (hc : c.timesOK)
    (hZ : Z ∉ rootSuffixChars) (hp : Z ≠ '%') :
    (isDigit Z = false → mainFormat c cur ['%', Z] = some ['%', Z]) ∧
      (isDigit Z = true → '%' ∉ cur → '\\' ∉ cur → ':' ∉ cur →
        mainFormat c cur ['%', Z] =
          some (List.replicate (digitVal Z - cur.length) ' ' ++ cur)) ∧
      mainFormat exampleCoin "CAD".toList "%5".toList = some "  CAD".toList := by
  have h : Z ∉ "HMPLNsCI$%".toList := by
    intro h
    simp only [rootSuffixChars, String.toList, List.mem_cons, List.mem_singleton,
      List.not_mem_nil, or_false, not_or] at h hZ
    rcases h with h | h | h | h | h | h | h | h | h | h
    · exact hZ.1 h
    · exact hZ.2.1 h
    · exact hZ.2.2.2.2.2.1 h
    · exact hZ.2.2.2.2.2.2.1 h
    · exact hZ.2.2.2.2.2.2.2.1 h
    · exact hZ.2.2.2.2.2.2.2.2.1 h
    · exact hZ.2.2.1 h
    · exact hZ.2.2.2.2.2.2.2.2.2.1 h
    · exact hZ.2.2.2.2.2.2.2.2.2.2.2 h
    · exact hp h
  exact ⟨fun hd => mainFormat_char c cur Z hc h hd,
    fun hd h1 h2 h3 => mainFormat_digit c cur Z hc hd h1 h2 h3, by decide!⟩

/-- C12 (witness): the theorem at the quote of the usage text and the character `Z`. -/
theorem mainFormat_unrecognised_witness :
    exampleCoin.timesOK ∧ 'Z' ∉ rootSuffixChars ∧ 'Z' ≠ '%' ∧
      ((isDigit 'Z' = false → mainFormat exampleCoin "CAD".toList ['%', 'Z'] = some ['%', 'Z']) ∧
        (isDigit 'Z' = true → '%' ∉ "CAD".toList → '\\' ∉ "CAD".toList → ':' ∉ "CAD".toList →
          mainFormat exampleCoin "CAD".toList ['%', 'Z'] =
            some (List.replicate (digitVal 'Z' - "CAD".toList.length) ' ' ++ "CAD".toList)) ∧
        mainFormat exampleCoin "CAD".toList "%5".toList = some "  CAD".toList) :=
  ⟨exampleCoin_timesOK, by decide, by decide,
    mainFormat_unrecognised exampleCoin "CAD".toList 'Z' exampleCoin_timesOK (by decide)
      (by decide)⟩

/-! ## The directives of the usage text -/

theorem alnum_inert (s : Str) (h : alnum s = true) : '%' ∉ s ∧ '\\' ∉ s ∧ ':' ∉ s := by
  simp only [alnum, List.all_eq_true] at h
  exact ⟨fun hm => absurd (h _ hm) (by decide), fun hm => absurd (h _ hm) (by decide),
    fun hm => absurd (h _ hm) (by decide)⟩

/-- The root dispatcher from the results of its fourteen passes. -/
theorem parse_steps (c : Coin) (cur f f1 f2 f3 f4 f5 f6 f7 f8 f9 f10 f11 f12 f13 v : Str)
    (h1 : parseTime f "%".toList "HT".toList c.HighTimestamp = some f1)
    (h2 : parsePad false f1 "%".toList "MC".toList c.MarketCap = some f2)
    (h3 : parsePad false f2 "%".toList "CS".toList c.CirculatingSupply = some f3)
    (h4 : parsePad true f3 "%".toList "H".toList c.High = some f4)
    (h5 : parsePad false f4 "%".toList "M".toList c.MaxSupply = some f5)
    (h6 : parseTime f5 "%".toList "T".toList c.PriceTimestamp = some f6)
    (h7 : parseTime f6 "%".toList "D".toList c.PriceDate = some f7)
    (h8 : parsePad true f7 "%".toList "P".toList c.Price = some f8)
    (h9 : parsePad false f8 "%".toList "L".toList c.LogoURL = some f9)
    (h10 : parsePad false f9 "%".toList "N".toList c.Name = some f10)
    (h11 : parsePad false f10 "%".toList "s".toList c.Symbol = some f11)
    (h12 : parsePad false f11 "%".toList "C".toList c.Currency = some f12)
    (h13 : parsePad false f12 "%".toList "I".toList c.Id = some f13)
    (h14 : parsePad false f13 "%".toList "$".toList cur = some v) :
    parse c f cur = some v := by
  simp only [parse, h1, h2, h3, h4, h5, h6, h7, h8, h9, h10, h11, h12, h13, h14,
    andThen_some]

theorem parse_bare_H (c : Coin) (cur : Str) (hc : c.timesOK) (hv : '%' ∉ c.High) :
    parse c "%H".toList cur = some c.High := by
  have e : "%".toList = '%' :: [] := rfl
  have hx : parsePad true "%H".toList "%".toList "H".toList c.High =
      some c.High := congrArg some (List.append_nil _)
  exact parse_steps c cur "%H".toList _ _ _ _ _ _ _ _ _ _ _ _ _ _
    (parseTime_eval "%H".toList _ _ _ _ hc.1 (fun _ => rfl)) rfl rfl hx
    (e ▸ parsePad_of_not_mem _ _ [] _ _ hv) (e ▸ parseTime_of_not_mem _ [] _ _ hc.2.1 hv)
    (e ▸ parseTime_of_not_mem _ [] _ _ hc.2.2 hv) (e ▸ parsePad_of_not_mem _ _ [] _ _ hv)
    (e ▸ parsePad_of_not_mem _ _ [] _ _ hv) (e ▸ parsePad_of_not_mem _ _ [] _ _ hv)
    (e ▸ parsePad_of_not_mem _ _ [] _ _ hv) (e ▸ parsePad_of_not_mem _ _ [] _ _ hv)
    (e ▸ parsePad_of_not_mem _ _ [] _ _ hv) (e ▸ parsePad_of_not_mem _ _ [] _ _ hv)

theorem parse_bare_M (c : Coin) (cur : Str) (hc : c.timesOK) (hv : '%' ∉ c.MaxSupply) :
    parse c "%M".toList cur = some c.MaxSupply := by
  have e : "%".toList = '%' :: [] := rfl
  have hx : parsePad false "%M".toList "%".toList "M".toList c.MaxSupply =
      some c.MaxSupply := congrArg some (List.append_nil _)
  exact parse_steps c cur "%M".toList _ _ _ _ _ _ _ _ _ _ _ _ _ _
    (parseTime_eval "%M".toList _ _ _ _ hc.1 (fun _ => rfl)) rfl rfl rfl hx
    (e ▸ parseTime_of_not_mem _ [] _ _ hc.2.1 hv) (e ▸ parseTime_of_not_mem _ [] _ _ hc.2.2 hv)
    (e ▸ parsePad_of_not_mem _ _ [] _ _ hv) (e ▸ parsePad_of_not_mem _ _ [] _ _ hv)
    (e ▸ parsePad_of_not_mem _ _ [] _ _ hv) (e ▸ parsePad_of_not_mem _ _ [] _ _ hv)
    (e ▸ parsePad_of_not_mem _ _ [] _ _ hv) (e ▸ parsePad_of_not_mem _ _ [] _ _ hv)
    (e ▸ parsePad_of_not_mem _ _ [] _ _ hv)

theorem parse_bare_P (c : Coin) (cur : Str) (hc : c.timesOK) (hv : '%' ∉ c.Price) :
    parse c "%P".toList cur = some c.Price := by
  have e : "%".toList = '%' :: [] := rfl
  have hx : parsePad true "%P".toList "%".toList "P".toList c.Price =
      some c.Price := congrArg some (List.append_nil _)
  exact parse_steps c cur "%P".toList _ _ _ _ _ _ _ _ _ _ _ _ _ _
    (parseTime_eval "%P".toList _ _ _ _ hc.1 (fun _ => rfl)) rfl rfl rfl rfl
    (parseTime_eval "%P".toList _ _ _ _ hc.2.1 (fun _ => rfl))
    (parseTime_eval "%P".toList _ _ _ _ hc.2.2 (fun _ => rfl)) hx
    (e ▸ parsePad_of_not_mem _ _ [] _ _ hv) (e ▸ parsePad_of_not_mem _ _ [] _ _ hv)
    (e ▸ parsePad_of_not_mem _ _ [] _ _ hv) (e ▸ parsePad_of_not_mem _ _ [] _ _ hv)
    (e ▸ parsePad_of_not_mem _ _ [] _ _ hv) (e ▸ parsePad_of_not_mem _ _ [] _ _ hv)

theorem parse_bare_N (c : Coin) (cur : Str) (hc : c.timesOK) (hv : '%' ∉ c.Name) :
    parse c "%N".toList cur = some c.Name := by
  have e : "%".toList = '%' :: [] := rfl
  have hx : parsePad false "%N".toList "%".toList "N".toList c.Name =
      some c.Name := congrArg some (List.append_nil _)
  exact parse_steps c cur "%N".toList _ _ _ _ _ _ _ _ _ _ _ _ _ _
    (parseTime_eval "%N".toList _ _ _ _ hc.1 (fun _ => rfl)) rfl rfl rfl rfl
    (parseTime_eval "%N".toList _ _ _ _ hc.2.1 (fun _ => rfl))
    (parseTime_eval "%N".toList _ _ _ _ hc.2.2 (fun _ => rfl)) rfl rfl hx
    (e ▸ parsePad_of_not_mem _ _ [] _ _ hv) (e ▸ parsePad_of_not_mem _ _ [] _ _ hv)
    (e ▸ parsePad_of_not_mem _ _ [] _ _ hv) (e ▸ parsePad_of_not_mem _ _ [] _ _ hv)

theorem parse_bare_s (c : Coin) (cur : Str) (hc : c.timesOK) (hv : '%' ∉ c.Symbol) :
    parse c "%s".toList cur = some c.Symbol := by
  have e : "%".toList = '%' :: [] := rfl
  have hx : parsePad false "%s".toList "%".toList "s".toList c.Symbol =
      some c.Symbol := congrArg some (List.append_nil _)
  exact parse_steps c cur "%s".toList _ _ _ _ _ _ _ _ _ _ _ _ _ _
    (parseTime_eval "%s".toList _ _ _ _ hc.1 (fun _ => rfl)) rfl rfl rfl rfl
    (parseTime_eval "%s".toList _ _ _ _ hc.2.1 (fun _ => rfl))
    (parseTime_eval "%s".toList _ _ _ _ hc.2.2 (fun _ => rfl)) rfl rfl rfl hx
    (e ▸ parsePad_of_not_mem _ _ [] _ _ hv) (e ▸ parsePad_of_not_mem _ _ [] _ _ hv)
    (e ▸ parsePad_of_not_mem _ _ [] _ _ hv)

theorem parse_bare_C (c : Coin) (cur : Str) (hc : c.timesOK) (hv : '%' ∉ c.Currency) :
    parse c "%C".toList cur = some c.Currency := by
  have e : "%".toList = '%' :: [] := rfl
  have hx : parsePad false "%C".toList "%".toList "C".toList c.Currency =
      some c.Currency := congrArg some (List.append_nil _)
  exact parse_steps c cur "%C".toList _ _ _ _ _ _ _ _ _ _ _ _ _ _
    (parseTime_eval "%C".toList _ _ _ _ hc.1 (fun _ => rfl)) rfl rfl rfl rfl
    (parseTime_eval "%C".toList _ _ _ _ hc.2.1 (fun _ => rfl))
    (parseTime_eval "%C".toList _ _ _ _ hc.2.2 (fun _ => rfl)) rfl rfl rfl rfl hx
    (e ▸ parsePad_of_not_mem _ _ [] _ _ hv) (e ▸ parsePad_of_not_mem _ _ [] _ _ hv)

theorem parse_bare_I (c : Coin) (cur : Str) (hc : c.timesOK) (hv : '%' ∉ c.Id) :
    parse c "%I".toList cur = some c.Id := by
  have e : "%".toList = '%' :: [] := rfl
  have hx : parsePad false "%I".toList "%".toList "I".toList c.Id =
      some c.Id := congrArg some (List.append_nil _)
  exact parse_steps c cur "%I".toList _ _ _ _ _ _ _ _ _ _ _ _ _ _
    (parseTime_eval "%I".toList _ _ _ _ hc.1 (fun _ => rfl)) rfl rfl rfl rfl
    (parseTime_eval "%I".toList _ _ _ _ hc.2.1 (fun _ => rfl))
    (parseTime_eval "%I".toList _ _ _ _ hc.2.2 (fun _ => rfl)) rfl rfl rfl rfl rfl hx
    (e ▸ parsePad_of_not_mem _ _ [] _ _ hv)

theorem parse_rank (c : Coin) (cur : Str) (hc : c.timesOK) :
    parse c "%03R".toList cur = some "%03R".toList := by
  refine parse_idle c cur _ hc ?_ ?_
  · intro post t hpost
    simp only [List.mem_cons, List.mem_singleton, List.not_mem_nil, or_false] at hpost
    rcases hpost with h | h | h <;> subst h <;> rfl
  · intro fl post v hpost
    simp only [List.mem_cons, List.mem_singleton, List.not_mem_nil, or_false] at hpost
    cases fl <;> rcases hpost with h | h | h | h | h | h | h | h | h | h | h <;> subst h <;> rfl

/-- C16: for every quote whose three timestamps parse and whose fields are texts of
letters and digits, the bare directives `%I`, `%C`, `%N`, `%P`, `%CS`, `%M`, `%MC` and
`%H` are rendered as their fields; `%S` and `%R` are returned as they are, and so is
`%03R`: the pass for the symbol has the suffix `s` (it is `%s` that is rendered as the
symbol), and no pass has the suffix `R`. -/
theorem mainFormat_usage (c : Coin) (cur : Str) (hc : c.timesOK) (ha : c.rootAlnum) :
    (mainFormat c cur "%I".toList = some c.Id ∧ mainFormat c cur "%C".toList = some c.Currency ∧
      mainFormat c cur "%N".toList = some c.Name ∧ mainFormat c cur "%P".toList = some c.Price ∧
      mainFormat c cur "%CS".toList = some c.CirculatingSupply ∧
      mainFormat c cur "%M".toList = some c.MaxSupply ∧
      mainFormat c cur "%MC".toList = some c.MarketCap ∧
      mainFormat c cur "%H".toList = some c.High) ∧
      mainFormat c cur "%S".toList = some "%S".toList ∧
      mainFormat c cur "%R".toList = some "%R".toList ∧
      mainFormat c cur "%03R".toList = some "%03R".toList ∧
      mainFormat c cur "%s".toList = some c.Symbol := by
  obtain ⟨hI, hC, hS, hN, hP, hCS, hM, hMC, _, hH⟩ := ha
  have iS := alnum_inert _ hS
  have iI := alnum_inert _ hI
  have iC := alnum_inert _ hC
  have iN := alnum_inert _ hN
  have iP := alnum_inert _ hP
  have iCS := alnum_inert _ hCS
  have iM := alnum_inert _ hM
  have iMC := alnum_inert _ hMC
  have iH := alnum_inert _ hH
  refine ⟨⟨?_, ?_, ?_, ?_, ?_, ?_, ?_, ?_⟩, mainFormat_char c cur 'S' hc (by decide) (by decide),
    mainFormat_char c cur 'R' hc (by decide) (by decide), ?_, ?_⟩
  · exact mainFormat_root c cur _ _ rfl rfl rfl rfl rfl rfl (parse_bare_I c cur hc iI.1) iI.2.1
      (not_sentinel_of_no_colon _ iI.2.2)
  · exact mainFormat_root c cur _ _ rfl rfl rfl rfl rfl rfl (parse_bare_C c cur hc iC.1) iC.2.1
      (not_sentinel_of_no_colon _ iC.2.2)
  · exact mainFormat_root c cur _ _ rfl rfl rfl rfl rfl rfl (parse_bare_N c cur hc iN.1) iN.2.1
      (not_sentinel_of_no_colon _ iN.2.2)
  · exact mainFormat_root c cur _ _ rfl rfl rfl rfl rfl rfl (parse_bare_P c cur hc iP.1) iP.2.1
      (not_sentinel_of_no_colon _ iP.2.2)
  · exact mainFormat_root c cur _ _ rfl rfl rfl rfl rfl rfl (parse_bare_CS c cur hc iCS.1)
      iCS.2.1 (not_sentinel_of_no_colon _ iCS.2.2)
  · exact mainFormat_root c cur _ _ rfl rfl rfl rfl rfl rfl (parse_bare_M c cur hc iM.1) iM.2.1
      (not_sentinel_of_no_colon _ iM.2.2)
  · exact mainFormat_root c cur _ _ rfl rfl rfl rfl rfl rfl (parse_bare_MC c cur hc iMC.1)
      iMC.2.1 (not_sentinel_of_no_colon _ iMC.2.2)
  · exact mainFormat_root c cur _ _ rfl rfl rfl rfl rfl rfl (parse_bare_H c cur hc iH.1) iH.2.1
      (not_sentinel_of_no_colon _ iH.2.2)
  · exact mainFormat_root c cur _ _ rfl rfl rfl rfl rfl rfl (parse_rank c cur hc) (by decide)
      (by decide)
  · exact mainFormat_root c cur _ _ rfl rfl rfl rfl rfl rfl (parse_bare_s c cur hc iS.1) iS.2.1
      (not_sentinel_of_no_colon _ iS.2.2)

theorem alnumCoin_ok : alnumCoin.timesOK ∧ alnumCoin.rootAlnum := by
  refine ⟨⟨?_, ?_, ?_⟩, ?_, ?_, ?_, ?_, ?_, ?_, ?_, ?_, ?_, ?_⟩ <;> decide!

/-- C16 (witness): the theorem at a quote whose fields are texts of letters and
digits. -/
theorem mainFormat_usage_witness :
    alnumCoin.timesOK ∧ alnumCoin.rootAlnum ∧
      ((mainFormat alnumCoin "CAD".toList "%I".toList = some alnumCoin.Id ∧
        mainFormat alnumCoin "CAD".toList "%C".toList = some alnumCoin.Currency ∧
        mainFormat alnumCoin "CAD".toList "%N".toList = some alnumCoin.Name ∧
        mainFormat alnumCoin "CAD".toList "%P".toList = some alnumCoin.Price ∧
        mainFormat alnumCoin "CAD".toList "%CS".toList = some alnumCoin.CirculatingSupply ∧
        mainFormat alnumCoin "CAD".toList "%M".toList = some alnumCoin.MaxSupply ∧
        mainFormat alnumCoin "CAD".toList "%MC".toList = some alnumCoin.MarketCap ∧
        mainFormat alnumCoin "CAD".toList "%H".toList = some alnumCoin.High) ∧
        mainFormat alnumCoin "CAD".toList "%S".toList = some "%S".toList ∧
        mainFormat alnumCoin "CAD".toList "%R".toList = some "%R".toList ∧
        mainFormat alnumCoin "CAD".toList "%03R".toList = some "%03R".toList ∧
        mainFormat alnumCoin "CAD".toList "%s".toList = some alnumCoin.Symbol) :=
  ⟨alnumCoin_ok.1, alnumCoin_ok.2, mainFormat_usage alnumCoin "CAD".toList alnumCoin_ok.1
    alnumCoin_ok.2⟩

/-! ## Two time directives on one line -/

/-- The pattern of `parseTime` for the suffix `D` on a text that starts with `%{`,
ends with `}D` and holds no newline in between: the greedy `.*` runs to the last
`}D`. -/
theorem timeRe_matchAt (X : Str) (hX : '\n' ∉ X) :
    (timeRe "%".toList "D".toList).matchAt ('%' :: '{' :: (X ++ "\x7dD".toList)) =
      some (X, []) := by
  have hrun : ∀ c ∈ X, notNewline c = true := by
    intro c hc
    have : c ≠ '\n' := fun e => hX (e ▸ hc)
    simp [notNewline, this]
  have hk : starLoop notNewline
      (matchSeq [] (fun s2 => matchSeq (lit '}' :: compileLit "D".toList)
        (fun s3 => some ((X ++ "\x7dD".toList).take ((X ++ "\x7dD".toList).length - s2.length), s3))
        s2)) "\x7dD".toList = some (X, []) := by
    have ht := take_sub_length X "\x7dD".toList
    simp [starLoop, notNewline, matchSeq, lit, compileLit] at ht ⊢
  have h := starLoop_run notNewline _ _ _ hk X hrun
  simp only [Regexp.matchAt, timeRe, compileLit, String.toList, List.map, List.cons_append,
    List.nil_append, matchSeq_lit_cons, if_true, matchSeq_star]
  exact h

theorem parseTime_whole (v X : Str) (t : Time) (hv : timeParse v = some t) (hX : '\n' ∉ X) :
    parseTime ('%' :: '{' :: (X ++ "\x7dD".toList)) "%".toList "D".toList v =
      some (timeFormat t X) := by
  have hm := timeRe_matchAt X hX
  rw [parseTime_of_parsed _ _ _ _ t hv, regexp_replaceAll_whole _ _ _ _ _ hm,
    regexp_find_whole _ _ _ _ hm]
  rfl

/-- C17: for every value that parses to the instant `t` and all texts `A`, `S`, `B`
without a newline, `parseTime` on two directives `%{A}D` and `%{B}D` on one line does
not render each with its own layout: the pattern matches once, from the first `%{` to
the last `}D`, and the whole of `A}D`, `S`, `%{B` is rendered as one layout; so
`%{2006}D %{01}D` gives `2020}D %{08`, and through the whole pipeline
`%{2006}D %{15:04}T` gives `2020}D %{18:21`. -/
theorem parseTime_greedy (v A S B : Str) (t : Time) (hv : timeParse v = some t)
    (hA : '\n' ∉ A) (hS : '\n' ∉ S) (hB : '\n' ∉ B) :
    parseTime ("%\x7b".toList ++ A ++ "\x7dD".toList ++ S ++ "%\x7b".toList ++ B ++ "\x7dD".toList)
        "%".toList "D".toList v =
        some (timeFormat t (A ++ "\x7dD".toList ++ S ++ "%\x7b".toList ++ B)) ∧
      parseTime "%{2006}D %{01}D".toList "%".toList "D".toList "2020-08-30T00:00:00Z".toList =
        some "2020\x7dD %\x7b08".toList ∧
      mainFormat exampleCoin "CAD".toList "%{2006}D %{15:04}T".toList =
        some "2020\x7dD %\x7b18:21".toList := by
  have hX : '\n' ∉ A ++ "\x7dD".toList ++ S ++ "%\x7b".toList ++ B := by
    simp only [List.mem_append, not_or]
    exact ⟨⟨⟨⟨hA, by decide⟩, hS⟩, by decide⟩, hB⟩
  have h := parseTime_whole v _ t hv hX
  refine ⟨?_, by decide!, by decide!⟩
  rw [← h]
  simp

/-- C17 (witness): the theorem at the date of the usage text, the layouts `2006` and
`01` and a space between the directives. -/
theorem parseTime_greedy_witness :
    timeParse "2020-08-30T00:00:00Z".toList =
        some { year := 2020, month := 8, day := 30, hour := 0, min := 0, sec := 0, nsec := 0 } ∧
      '\n' ∉ "2006".toList ∧ '\n' ∉ " ".toList ∧ '\n' ∉ "01".toList ∧
      (parseTime ("%\x7b".toList ++ "2006".toList ++ "\x7dD".toList ++ " ".toList ++ "%\x7b".toList ++
            "01".toList ++ "\x7dD".toList) "%".toList "D".toList "2020-08-30T00:00:00Z".toList =
          some (timeFormat
            { year := 2020, month := 8, day := 30, hour := 0, min := 0, sec := 0, nsec := 0 }
            ("2006".toList ++ "\x7dD".toList ++ " ".toList ++ "%\x7b".toList ++ "01".toList)) ∧
        parseTime "%{2006}D %{01}D".toList "%".toList "D".toList
            "2020-08-30T00:00:00Z".toList = some "2020\x7dD %\x7b08".toList ∧
        mainFormat exampleCoin "CAD".toList "%{2006}D %{15:04}T".toList =
          some "2020\x7dD %\x7b18:21".toList) :=
  ⟨by decide!, by decide, by decide, by decide,
    parseTime_greedy "2020-08-30T00:00:00Z".toList "2006".toList " ".toList "01".toList _
      (by decide!) (by decide) (by decide) (by decide)⟩

/-! ## The safe fragment: texts joined by `%%` -/

theorem intercalate_two (sep s t : Str) (ts : List Str) :
    sep.intercalate (s :: t :: ts) = s ++ (sep ++ sep.intercalate (t :: ts)) := by
  simp [List.intercalate, List.intersperse]

theorem intercalate_one (sep s : Str) : sep.intercalate [s] = s := by
  simp [List.intercalate, List.intersperse]

theorem not_mem_intercalate (x : Char) (sep : Str) (hsep : x ∉ sep) :
    ∀ segs : List Str, (∀ s ∈ segs, x ∉ s) → x ∉ sep.intercalate segs
  | [], _ => by simp [List.intercalate]
  | [s], h => by
    rw [intercalate_one]
    exact h s (List.mem_singleton.mpr rfl)
  | s :: t :: ts, h => by
    rw [intercalate_two]
    simp only [List.mem_append, not_or]
    exact ⟨h s (List.mem_cons_self _ _), hsep,
      not_mem_intercalate x sep hsep (t :: ts) (fun u hu => h u (List.mem_cons_of_mem _ hu))⟩

/-- The occurrences of `old` in texts joined by `old`, when none starts inside a
text: each joint is replaced. -/
theorem replaceAllAux_intercalate (o : Char) (old new : Str) :
    ∀ segs : List Str,
      (∀ s ∈ segs, ∀ l1 c l2 rest, s = l1 ++ c :: l2 →
        (o :: old).isPrefixOf (c :: l2 ++ ((o :: old) ++ rest)) = false) →
      (∀ s ∈ segs, ¬ (o :: old) <:+: s) →
      replaceAllAux (o :: old) new 0 ((o :: old).intercalate segs) = new.intercalate segs
  | [], _, _ => by simp [List.intercalate, replaceAllAux]
  | [s], _, h2 => by
    rw [intercalate_one, intercalate_one]
    exact replaceAllAux_of_absent _ _ s (h2 s (List.mem_singleton.mpr rfl))
  | s :: t :: ts, h1, h2 => by
    rw [intercalate_two, intercalate_two,
      replaceAllAux_insert o old new _ s (fun l1 c l2 e =>
        h1 s (List.mem_cons_self _ _) l1 c l2 _ e),
      replaceAllAux_intercalate o old new (t :: ts)
        (fun u hu => h1 u (List.mem_cons_of_mem _ hu))
        (fun u hu => h2 u (List.mem_cons_of_mem _ hu))]

theorem replaceAll_percent_joined (segs : List Str) (h : ∀ s ∈ segs, '%' ∉ s) :
    replaceAll ("%%".toList.intercalate segs) "%%".toList sentinel =
      sentinel.intercalate segs := by
  have e : "%%".toList = '%' :: ['%'] := rfl
  have hr := replaceAllAux_intercalate '%' ['%'] sentinel segs
    (fun s hs l1 c l2 rest hl12 => by
      have hc : c ≠ '%' := fun hc => h s hs (by rw [hl12, hc]; simp)
      have := percent_no_match c l2 (('%' :: ['%']) ++ rest) hc
      rwa [e] at this)
    (fun s hs => not_infix_of_not_mem (h s hs))
  simp only [replaceAll, e, List.cons_ne_nil, if_false]
  exact hr

theorem replaceAll_sentinel_joined (segs : List Str) (h : ∀ s ∈ segs, '{' ∉ s) :
    replaceAll (sentinel.intercalate segs) sentinel "%".toList = "%".toList.intercalate segs := by
  have e : sentinel = ':' :: ':' :: '{' :: "PERCENT\x7d::".toList := rfl
  have hr := replaceAllAux_intercalate ':' (':' :: '{' :: "PERCENT\x7d::".toList) "%".toList segs
    (fun s hs l1 c l2 rest hl12 => by
      have hc : '{' ∉ c :: l2 := fun hc => h s hs (by rw [hl12]; simp [hc])
      have := sentinel_no_match c l2 rest hc
      rwa [e] at this)
    (fun s hs hi => h s hs (hi.subset (by decide)))
  have hs : sentinel ≠ [] := by decide
  rw [← e] at hr
  simp only [replaceAll, hs, if_false]
  exact hr

/-- C19: for every quote whose three timestamps parse and every list of texts
without `%`, backslash and `{`, the template made of the texts joined by `%%` is
rendered as the texts joined by one `%`; a single such text is returned as it is. -/
theorem mainFormat_safe (c : Coin) (cur : Str) (segs : List Str) (hc : c.timesOK)
    (hs : ∀ s ∈ segs, '%' ∉ s ∧ '\\' ∉ s ∧ '{' ∉ s) :
    mainFormat c cur ("%%".toList.intercalate segs) = some ("%".toList.intercalate segs) ∧
      ∀ t ∈ segs, mainFormat c cur t = some t := by
  have main : ∀ l : List Str, (∀ s ∈ l, '%' ∉ s ∧ '\\' ∉ s ∧ '{' ∉ s) →
      mainFormat c cur ("%%".toList.intercalate l) = some ("%".toList.intercalate l) := by
    intro l hl
    have hin : '%' ∉ sentinel.intercalate l :=
      not_mem_intercalate '%' sentinel sentinel_noPercent l (fun s h => (hl s h).1)
    have hout : '\\' ∉ "%".toList.intercalate l :=
      not_mem_intercalate '\\' _ (by decide) l (fun s h => (hl s h).2.1)
    have e1 : "%1D:".toList = '%' :: "1D:".toList := rfl
    have e2 : "%7D:".toList = '%' :: "7D:".toList := rfl
    have e3 : "%30D:".toList = '%' :: "30D:".toList := rfl
    have e4 : "%365D:".toList = '%' :: "365D:".toList := rfl
    have e5 : "%YTD:".toList = '%' :: "YTD:".toList := rfl
    exact mainFormat_chain c cur _ _ _ _ _ _ _ _ _
      (replaceAll_percent_joined l (fun s h => (hl s h).1))
      (e1 ▸ parseDay_of_not_mem _ c.D1 _ hin) (e2 ▸ parseDay_of_not_mem _ c.D7 _ hin)
      (e3 ▸ parseDay_of_not_mem _ c.D30 _ hin) (e4 ▸ parseDay_of_not_mem _ c.D365 _ hin)
      (e5 ▸ parseDay_of_not_mem _ c.YTD _ hin) (parse_of_not_mem c _ cur hc hin)
      (by rw [replaceAll_sentinel_joined l (fun s h => (hl s h).2.2)]
          exact escape_of_not_mem _ _ hout)
  refine ⟨main segs hs, fun t ht => ?_⟩
  have h := main [t] (fun s h => by
    rw [List.mem_singleton.mp h]
    exact hs t ht)
  rwa [intercalate_one, intercalate_one] at h

/-- C19 (witness): the theorem at the quote of the usage text and the texts `a`,
`b`, the empty text and `c`, that is the template `a%%b%%%%c`. -/
theorem mainFormat_safe_witness :
    exampleCoin.timesOK ∧
      (∀ s ∈ ["a".toList, "b".toList, [], "c".toList], '%' ∉ s ∧ '\\' ∉ s ∧ '{' ∉ s) ∧
      "%%".toList.intercalate ["a".toList, "b".toList, [], "c".toList] = "a%%b%%%%c".toList ∧
      "%".toList.intercalate ["a".toList, "b".toList, [], "c".toList] = "a%b%%c".toList ∧
      (mainFormat exampleCoin "CAD".toList
          ("%%".toList.intercalate ["a".toList, "b".toList, [], "c".toList]) =
          some ("%".toList.intercalate ["a".toList, "b".toList, [], "c".toList]) ∧
        ∀ t ∈ ["a".toList, "b".toList, [], "c".toList],
          mainFormat exampleCoin "CAD".toList t = some t) :=
  ⟨exampleCoin_timesOK, by decide, by decide, by decide,
    mainFormat_safe exampleCoin "CAD".toList _ exampleCoin_timesOK (by decide)⟩

/-! ## The callbacks never fail -/

theorem starLoop_map {α β : Type} (f : α → β) (p : Char → Bool) (k : Str → Option α) :
    ∀ s : Str, (starLoop p k s).map f = starLoop p (fun t => (k t).map f) s
  | [] => rfl
  | c :: cs => by
    simp only [starLoop]
    split
    · rw [← starLoop_map f p k cs]
      cases starLoop p k cs <;> rfl
    · rfl

theorem matchSeq_map {α β : Type} (f : α → β) (k : Str → Option α) :
    ∀ (ns : List Node) (s : Str),
      (matchSeq ns k s).map f = matchSeq ns (fun t => (k t).map f) s
  | [], s => rfl
  | Node.one p :: ns, [] => rfl
  | Node.one p :: ns, c :: cs => by
    simp only [matchSeq]
    split
    · exact matchSeq_map f k ns cs
    · rfl
  | Node.opt p :: ns, [] => by
    simp only [matchSeq]
    exact matchSeq_map f k ns []
  | Node.opt p :: ns, c :: cs => by
    simp only [matchSeq]
    split
    · rw [← matchSeq_map f k ns cs, ← matchSeq_map f k ns (c :: cs)]
      cases matchSeq ns k cs <;> rfl
    · exact matchSeq_map f k ns (c :: cs)
  | Node.star p :: ns, s => by
    have e : (fun t => (matchSeq ns k t).map f) = matchSeq ns (fun t => (k t).map f) :=
      funext (matchSeq_map f k ns)
    simp only [matchSeq]
    rw [starLoop_map, e]
  | Node.eot :: ns, [] => by
    simp only [matchSeq]
    exact matchSeq_map f k ns []
  | Node.eot :: ns, _ :: _ => rfl

theorem matchSeq_append {α : Type} (k : Str → Option α) (ys : List Node) :
    ∀ (xs : List Node) (s : Str),
      matchSeq (xs ++ ys) k s = matchSeq xs (fun t => matchSeq ys k t) s
  | [], s => rfl
  | Node.one p :: xs, [] => rfl
  | Node.one p :: xs, c :: cs => by
    simp only [List.cons_append, matchSeq, List.append_eq]
    split
    · exact matchSeq_append k ys xs cs
    · rfl
  | Node.opt p :: xs, [] => by
    simp only [List.cons_append, matchSeq, List.append_eq]
    exact matchSeq_append k ys xs []
  | Node.opt p :: xs, c :: cs => by
    simp only [List.cons_append, matchSeq, List.append_eq]
    rw [matchSeq_append k ys xs cs, matchSeq_append k ys xs (c :: cs)]
  | Node.star p :: xs, s => by
    have e : matchSeq (xs ++ ys) k = matchSeq xs (fun t => matchSeq ys k t) :=
      funext (matchSeq_append k ys xs)
    simp only [List.cons_append, matchSeq, List.append_eq]
    rw [e]
  | Node.eot :: xs, [] => by
    simp only [List.cons_append, matchSeq, List.append_eq]
    exact matchSeq_append k ys xs []
  | Node.eot :: xs, _ :: _ => rfl

/-- The text left after a match is what the items of the pattern, taken as one
sequence, leave. -/
theorem matchAt_rest (re : Regexp) (s : Str) :
    (re.matchAt s).map Prod.snd = matchSeq (re.pre ++ (re.grp ++ re.post)) some s := by
  simp only [Regexp.matchAt, matchSeq_map, matchSeq_append, Option.map_some']

theorem starLoop_cut {α : Type} (p : Char → Bool) (k : Str → Option α) (r : α) :
    ∀ s : Str, starLoop p k s = some r →
      ∃ b s1, s = b ++ s1 ∧ (∀ c ∈ b, p c = true) ∧ k s1 = some r
  | [], h => ⟨[], [], rfl, fun _ hc => absurd hc (List.not_mem_nil _), h⟩
  | c :: cs, h => by
    simp only [starLoop] at h
    split at h
    · rename_i hp
      cases hs : starLoop p k cs with
      | some r1 =>
        rw [hs] at h
        obtain ⟨b, s1, e, hb, hk⟩ := starLoop_cut p k r1 cs hs
        refine ⟨c :: b, s1, by rw [e]; rfl, ?_, by rw [hk]; exact h⟩
        intro x hx
        rcases List.mem_cons.mp hx with hx | hx
        · rw [hx]
          exact hp
        · exact hb x hx
      | none =>
        rw [hs] at h
        exact ⟨[], c :: cs, rfl, fun _ hc => absurd hc (List.not_mem_nil _), h⟩
    · exact ⟨[], c :: cs, rfl, fun _ hc => absurd hc (List.not_mem_nil _), h⟩

theorem starLoop_isSome {α : Type} (p : Char → Bool) (k : Str → Option α) (a : Str)
    (h : (k a).isSome = true) : (starLoop p k a).isSome = true := by
  cases a with
  | nil => exact h
  | cons c cs =>
    simp only [starLoop]
    split
    · cases starLoop p k cs with
      | some r => rfl
      | none => exact h
    · exact h

theorem starLoop_isSome_run {α : Type} (p : Char → Bool) (k : Str → Option α) (a : Str)
    (h : (starLoop p k a).isSome = true) :
    ∀ b : Str, (∀ c ∈ b, p c = true) → (starLoop p k (b ++ a)).isSome = true
  | [], _ => h
  | c :: b, hb => by
    have ih := starLoop_isSome_run p k a h b (fun x hx => hb x (List.mem_cons_of_mem _ hx))
    obtain ⟨r, hr⟩ := Option.isSome_iff_exists.mp ih
    simp only [List.cons_append, starLoop, hb c (List.mem_cons_self _ _), if_true,
      List.append_eq, hr]
    rfl

theorem matchSeq_opt_isSome {α : Type} (p : Char → Bool) (ns : List Node)
    (k : Str → Option α) (a : Str) (h : (matchSeq ns k a).isSome = true) :
    (matchSeq (Node.opt p :: ns) k a).isSome = true := by
  cases a with
  | nil => exact h
  | cons c cs =>
    simp only [matchSeq]
    split
    · cases matchSeq ns k cs with
      | some r => rfl
      | none => exact h
    · exact h

/-- A successful match can be cut out of its text: the part that the items consumed
is matched by the same items when it stands alone. -/
theorem matchSeq_cut {α : Type} (k : Str → Option α) (r : α) :
    ∀ (ns : List Node) (s : Str), matchSeq ns k s = some r →
      ∃ a s1, s = a ++ s1 ∧ k s1 = some r ∧
        ∀ k1 : Str → Option Str, (k1 []).isSome = true → (matchSeq ns k1 a).isSome = true
  | [], s, h => ⟨[], s, rfl, h, fun _ hk => hk⟩
  | Node.one p :: ns, [], h => by
    simp [matchSeq] at h
  | Node.one p :: ns, c :: cs, h => by
    simp only [matchSeq] at h
    split at h
    · rename_i hp
      obtain ⟨a, s1, e, hk, ha⟩ := matchSeq_cut k r ns cs h
      refine ⟨c :: a, s1, by rw [e]; rfl, hk, fun k1 hk1 => ?_⟩
      simp only [matchSeq, hp, if_true]
      exact ha k1 hk1
    · cases h
  | Node.opt p :: ns, [], h => by
    simp only [matchSeq] at h
    obtain ⟨a, s1, e, hk, ha⟩ := matchSeq_cut k r ns [] h
    exact ⟨a, s1, e, hk, fun k1 hk1 => matchSeq_opt_isSome p ns k1 a (ha k1 hk1)⟩
  | Node.opt p :: ns, c :: cs, h => by
    simp only [matchSeq] at h
    split at h
    · rename_i hp
      cases hs : matchSeq ns k cs with
      | some r1 =>
        rw [hs] at h
        have hr : r1 = r := by
          simpa using h
        obtain ⟨a, s1, e, hk, ha⟩ := matchSeq_cut k r1 ns cs hs
        refine ⟨c :: a, s1, by rw [e]; rfl, by rw [hk, hr], fun k1 hk1 => ?_⟩
        obtain ⟨x, hx⟩ := Option.isSome_iff_exists.mp (ha k1 hk1)
        simp only [matchSeq, hp, if_true, hx]
        rfl
      | none =>
        rw [hs] at h
        obtain ⟨a, s1, e, hk, ha⟩ := matchSeq_cut k r ns (c :: cs) h
        exact ⟨a, s1, e, hk, fun k1 hk1 => matchSeq_opt_isSome p ns k1 a (ha k1 hk1)⟩
    · obtain ⟨a, s1, e, hk, ha⟩ := matchSeq_cut k r ns (c :: cs) h
      exact ⟨a, s1, e, hk, fun k1 hk1 => matchSeq_opt_isSome p ns k1 a (ha k1 hk1)⟩
  | Node.star p :: ns, s, h => by
    simp only [matchSeq] at h
    obtain ⟨b, s0, e0, hb, h0⟩ := starLoop_cut p _ r s h
    obtain ⟨a, s1, e, hk, ha⟩ := matchSeq_cut k r ns s0 h0
    refine ⟨b ++ a, s1, by rw [e0, e, List.append_assoc], hk, fun k1 hk1 => ?_⟩
    simp only [matchSeq]
    exact starLoop_isSome_run p _ a (starLoop_isSome p _ a (ha k1 hk1)) b hb
  | Node.eot :: ns, [], h => by
    simp only [matchSeq] at h
    obtain ⟨a, s1, e, hk, ha⟩ := matchSeq_cut k r ns [] h
    have ea : a = [] := (List.append_eq_nil.mp e.symm).1
    subst ea
    refine ⟨[], s1, e, hk, fun k1 hk1 => ?_⟩
    simp only [matchSeq]
    exact ha k1 hk1
  | Node.eot :: ns, _ :: _, h => by
    simp [matchSeq] at h

theorem matchAt_cut (re : Regexp) (s cap rest : Str) (h : re.matchAt s = some (cap, rest)) :
    ∃ a, s = a ++ rest ∧ (re.matchAt a).isSome = true := by
  have h1 : matchSeq (re.pre ++ (re.grp ++ re.post)) some s = some rest := by
    rw [← matchAt_rest, h]
    rfl
  obtain ⟨a, s1, e, hk, ha⟩ := matchSeq_cut some rest _ s h1
  have e1 : s1 = rest := by
    simpa using hk
  refine ⟨a, by rw [e, e1], ?_⟩
  have h2 := ha some rfl
  rw [← matchAt_rest] at h2
  simpa using h2

theorem findStringSubmatch_isSome (re : Regexp) (a : Str) (h : (re.matchAt a).isSome = true) :
    (re.findStringSubmatch a).isSome = true := by
  obtain ⟨⟨cap, rest⟩, hr⟩ := Option.isSome_iff_exists.mp h
  cases a with
  | nil => simp only [Regexp.findStringSubmatch, hr]; rfl
  | cons c cs => simp only [Regexp.findStringSubmatch, hr]; rfl

/-- The text of a match, matched again on its own, gives a match with its group:
the index `[1]` of the callbacks is in range. -/
theorem rematch_isSome (re : Regexp) (s cap rest : Str)
    (h : re.matchAt s = some (cap, rest)) :
    (re.findStringSubmatch (s.take (s.length - rest.length))).isSome = true := by
  obtain ⟨a, e, ha⟩ := matchAt_cut re s cap rest h
  rw [e, take_sub_length]
  exact findStringSubmatch_isSome re a ha

theorem regexp_replaceAllAux_isSome (re : Regexp) (f : Str × Str → Str) :
    ∀ (s : Str) (k : Nat),
      (re.replaceAllAux (fun val => (re.findStringSubmatch val).map f) k s).isSome = true
  | [], _ => by simp [Regexp.replaceAllAux]
  | c :: cs, k + 1 => by
    simp only [Regexp.replaceAllAux]
    exact regexp_replaceAllAux_isSome re f cs k
  | c :: cs, 0 => by
    have ih0 := regexp_replaceAllAux_isSome re f cs 0
    simp only [Regexp.replaceAllAux]
    cases hm : re.matchAt (c :: cs) with
    | none => simpa using ih0
    | some m =>
      obtain ⟨cap, rest⟩ := m
      simp only
      split
      · simpa using ih0
      · have hr := rematch_isSome re (c :: cs) cap rest hm
        obtain ⟨x, hx⟩ := Option.isSome_iff_exists.mp hr
        have ih := regexp_replaceAllAux_isSome re f cs ((c :: cs).length - rest.length - 1)
        simp only [hx, Option.map_some']
        simpa using ih

theorem andThen_isSome {α β : Type} (o : Option α) (f : α → Option β)
    (ho : o.isSome = true) (hf : ∀ a, (f a).isSome = true) : (andThen o f).isSome = true := by
  obtain ⟨a, ha⟩ := Option.isSome_iff_exists.mp ho
  rw [ha]
  exact hf a

theorem parsePad_isSome (fl : Bool) (format pre post value : Str) :
    (parsePad fl format pre post value).isSome = true := by
  cases fl
  · simp only [parsePad, Bool.false_eq_true, if_false, Option.isSome_map',
      Regexp.replaceAllStringFunc]
    exact regexp_replaceAllAux_isSome _ _ format 0
  · simp only [parsePad, if_true, Option.isSome_map', Regexp.replaceAllStringFunc]
    exact regexp_replaceAllAux_isSome _ _ format 0

theorem parseTime_isSome (format pre post value : Str) :
    (parseTime format pre post value).isSome = true := by
  simp only [parseTime]
  cases timeParse value with
  | none => rfl
  | some t => exact regexp_replaceAllAux_isSome _ _ format 0

theorem parseDay_isSome (pre : Str) (day : D) (format : Str) :
    (parseDay pre day format).isSome = true := by
  unfold parseDay
  repeat' first
    | exact parsePad_isSome _ _ _ _ _
    | refine andThen_isSome _ _ (parsePad_isSome _ _ _ _ _) (fun _ => ?_)

theorem parse_isSome (c : Coin) (format cur : Str) : (parse c format cur).isSome = true := by
  unfold parse
  repeat' first
    | exact parsePad_isSome _ _ _ _ _
    | refine andThen_isSome _ _ (parsePad_isSome _ _ _ _ _) (fun _ => ?_)
    | refine andThen_isSome _ _ (parseTime_isSome _ _ _ _) (fun _ => ?_)

theorem mainFormat_isSome (c : Coin) (cur format : Str) :
    (mainFormat c cur format).isSome = true := by
  unfold mainFormat
  repeat' first
    | exact regexp_replaceAllAux_isSome escapeRe _ _ 0
    | refine andThen_isSome _ _ (parseDay_isSome _ _ _) (fun _ => ?_)
    | refine andThen_isSome _ _ (parse_isSome _ _ _) (fun _ => ?_)

/-- C18: the interpreter has no failure mode.  For every template, quote and fiat
code the pipeline of `main` returns a text, and so do the root dispatcher and the
window dispatcher for each of the five prefixes; and for every pattern, the text of a
match, matched again by the same pattern as the callbacks of `parsePad`, `parseTime`
and `main` do, gives a match with its group 1 (also for the pattern that ends in the
end-of-text assertion of the suffix `$`), so the index `[1]` is never out of range. -/
theorem interpreter_total (c : Coin) (cur format : Str) :
    (∃ out, mainFormat c cur format = some out) ∧
      (∃ out, parse c format cur = some out) ∧
      (∀ p ∈ windowPrefixes, ∀ day : D, ∃ out, parseDay p day format = some out) ∧
      (∀ (re : Regexp) (cap rest : Str), re.matchAt format = some (cap, rest) →
        ∃ m, re.findStringSubmatch (format.take (format.length - rest.length)) = some m) ∧
      (padRe "%".toList "$".toList).findStringSubmatch "%5".toList =
        some ("%5".toList, "5".toList) :=
  ⟨Option.isSome_iff_exists.mp (mainFormat_isSome c cur format),
    Option.isSome_iff_exists.mp (parse_isSome c format cur),
    fun p _ day => Option.isSome_iff_exists.mp (parseDay_isSome p day format),
    fun re cap rest h => Option.isSome_iff_exists.mp (rematch_isSome re format cap rest h),
    by decide⟩

end Gocoin
